import Mathlib

/-
Shallow embedding of src/mne/decoding/search_light.py.

Conventions of the embedding:
* A numpy array of rank 3 with axes (sample, feature, slice) is a nested list
  `Arr3 := List (List (List Rat))` in the same axis order: `X[i][c][t]` is the
  value at sample `i`, feature (channel) `c`, slice `t`.  Rank-2 arrays are
  `Mat := List (List Rat)`.
* Array values are rationals.  numpy dtypes matter to the code (it allocates
  outputs with `np.zeros(..., int)` or default float64), so allocated outputs
  carry a `DType`, and a value stored into an int-dtype array is truncated
  toward zero (`truncQ`), which is what numpy assignment into an int array
  does.  Storing into a float array keeps the exact value (float rounding is
  not modelled; all claims here are about dtype kinds and exact data flow,
  not float precision).
* A base model ("estimator") is opaque: a table of optional apply methods
  (`getattr` returns `none` exactly when python would raise AttributeError)
  plus a `score` function.  A per-call apply result is a numpy array of rank
  1 or rank 2 over the sample axis (`NDRes`); a score result has rank 0 or 1
  (`ScRes`).
* Python exceptions are `Except Err _`:  `Err.shape` is the ValueError raised
  by input validation, `Err.attributeErr` an AttributeError from `getattr`,
  `Err.nameErr` the UnboundLocalError from `return y_pred` when the loop body
  never ran, `Err.broadcastErr` a numpy shape/broadcast/reshape failure.
* `parallel_func` / `parallel` (mne.parallel) is not part of src/.
  Modelled from the spec (sections 2, 5, 6): the parallel task runner takes
  the ordered list of dispatched calls and returns their results in input
  order, a failing unit failing the whole call; with worker count 1 it runs
  sequentially; a positive `n_jobs` is used as given.  Hence dispatch+collect
  is `List.mapM` over the chunk list, and the `n_jobs` returned by
  `parallel_func` is the configured positive `n_jobs` itself.
-/

/-- Numeric kind (dtype) of an allocated numpy output array. -/
inductive DType
  | int
  | float
deriving DecidableEq, Repr

/-- numpy stores a float value into an int64 array by truncation toward zero. -/
def truncQ (q : ℚ) : ℚ := ((Int.tdiv q.num (q.den : Int) : Int) : ℚ)

/-- Value conversion applied by numpy when storing into an array of the given dtype. -/
def castTo : DType → ℚ → ℚ
  | DType.int, q => truncQ q
  | DType.float, q => q

/-- Rank-2 numpy array (rows = samples). -/
abbrev Mat := List (List ℚ)

/-- Rank-3 numpy array, axes (sample, feature, slice). -/
abbrev Arr3 := List (List (List ℚ))

/-- Result of one apply-method call on a matrix of n rows: a rank-1 array of
length n or a rank-2 array of n rows (`y_pred.ndim` is 1 or 2). -/
inductive NDRes
  | one : List ℚ → NDRes
  | two : List (List ℚ) → NDRes
deriving DecidableEq, Repr

/-- Result of one `score` call: a scalar (`np.ndim == 0`) or a rank-1 array. -/
inductive ScRes
  | scalar : ℚ → ScRes
  | vec : List ℚ → ScRes
deriving DecidableEq, Repr

/-- The apply-method names the engine dispatches on. -/
inductive SLMethod
  | transform
  | predict
  | predict_proba
  | decision_function
deriving DecidableEq, Repr

/-- Python exceptions that can escape the orchestration code. -/
inductive Err
  | shape
  | attributeErr
  | nameErr
  | broadcastErr
deriving DecidableEq, Repr

/-- A (trained or untrained) model object.  `methods m = none` models the
absence of the attribute: `getattr(est, m)` raises AttributeError. -/
structure Est where
  methods : SLMethod → Option (Mat → NDRes)
  score : Mat → List ℚ → ScRes

instance : Inhabited Est := ⟨⟨fun _ => none, fun _ _ => ScRes.scalar 0⟩⟩

/-- Indexing into an estimator list (loop variable `est`). -/
def getE (ests : List Est) (j : Nat) : Est := ests.getD j default

/-- The prototype base estimator: the object itself (for capability queries)
plus `clone(prototype).fit(Xi, y)` as a pure function producing a trained model. -/
structure Proto where
  asEst : Est
  fitOne : Mat → List ℚ → Est

/-- `X[..., i]` : slice `i` of a rank-3 array, a (samples × features) matrix. -/
def sliceAt (X : Arr3) (i : Nat) : Mat :=
  X.map fun r => r.map fun c => c.getD i 0

/-- `X.shape[-1]` read off the nested-list data (well-defined for nonempty
rectangular arrays, which is what every guarded use sees). -/
def lastLen (X : Arr3) : Nat := ((X.headD []).headD []).length

/-- `X.shape[1]` (number of features / channels). -/
def chanLen (X : Arr3) : Nat := (X.headD []).length

/-- Rectangularity of a rank-3 array with feature count f and slice count s. -/
def rect3 (X : Arr3) (f s : Nat) : Bool :=
  X.all fun r => r.length == f && (r.all fun c => c.length == s)

/-- Chunk sizes used by `np.array_split` on an axis of length L into k parts:
L mod k chunks of size L/k + 1 followed by k - L mod k chunks of size L/k. -/
def splitSizes (L k : Nat) : List Nat :=
  List.replicate (L % k) (L / k + 1) ++ List.replicate (k - L % k) (L / k)

/-- Offset/size pairs of consecutive chunks with the given sizes, starting at
offset o. -/
def specsOf (o : Nat) : List Nat → List (Nat × Nat)
  | [] => []
  | sz :: rest => (o, sz) :: specsOf (o + sz) rest

/-- Offset/size pairs of `np.array_split` chunks of an axis of length L into
k parts. -/
def chunkSpecs (L k : Nat) : List (Nat × Nat) := specsOf 0 (splitSizes L k)

/-- `np.array_split(l, k)` along axis 0 of a 1-d sequence (used for
`self.estimators_`). -/
def array_split (l : List α) (k : Nat) : List (List α) :=
  (chunkSpecs l.length k).map fun p => (l.drop p.1).take p.2

/-- The contiguous block `X[:, :, o : o + sz]` of a rank-3 array. -/
def chunkLast (X : Arr3) (o sz : Nat) : Arr3 :=
  X.map fun r => r.map fun c => (c.drop o).take sz

/-- `np.array_split(X, k, axis=-1)`: contiguous chunks along the slice axis. -/
def splitLastAxis (X : Arr3) (k : Nat) : List Arr3 :=
  (chunkSpecs (lastLen X) k).map fun p => chunkLast X p.1 p.2

/-- `_check_method` (source lines 268-277).  If method is `transform` and the
estimator has no `transform` attribute, substitute `predict`.  The source then
constructs `ValueError('base_estimator does not have ...')` when the resolved
method is still absent, but the `raise` keyword is missing, so the exception
object is discarded and the function returns the method name unconditionally. -/
def _check_method (estimator : Est) (method : SLMethod) : SLMethod :=
  if method = SLMethod.transform ∧ (estimator.methods SLMethod.transform).isNone = true
  then SLMethod.predict
  else method

/-- `SearchLight._check_Xy` (source lines 174-180).  The rank-3 requirement is
intrinsic to `Arr3` here; the y checks are `len(X) != len(y) or len(y) < 1`.
Note the source only applies the y checks when y is passed. -/
def _check_Xy (X : Arr3) (y : Option (List ℚ)) : Except Err Unit :=
  match y with
  | some yv =>
    if X.length ≠ yv.length ∨ yv.length < 1 then Except.error Err.shape else Except.ok ()
  | none => Except.ok ()

/-- `_sl_fit` (source lines 218-226): clone the prototype and fit it on each
slice of the given chunk, in slice order. -/
def _sl_fit (estimator : Proto) (X : Arr3) (y : List ℚ) : List Est :=
  (List.range (lastLen X)).map fun ii => estimator.fitOne (sliceAt X ii) y

/-- The state of a `SearchLight` / `GeneralizationLight` object: the prototype,
the configured job count, and the fitted `estimators_` sequence. -/
structure SearchLight where
  base_estimator : Proto
  n_jobs : Nat
  estimators_ : List Est := []

/-- `SearchLight.fit` (source lines 51-75): validate, split X along the slice
axis into n_jobs chunks, fit each chunk, concatenate the per-chunk estimator
lists in chunk order. -/
def SearchLight.fit (self : SearchLight) (X : Arr3) (y : List ℚ) : Except Err SearchLight :=
  match _check_Xy X (some y) with
  | Except.error e => Except.error e
  | Except.ok _ =>
    let pieces := (splitLastAxis X self.n_jobs).map fun split => _sl_fit self.base_estimator split y
    Except.ok { self with estimators_ := pieces.flatten }

/-- Allocated output of `_sl_transform`: a rank-2 (samples × slices) or rank-3
(samples × slices × trailing) array together with its dtype. -/
inductive SLGrid
  | g2 : List (List ℚ) → SLGrid
  | g3 : List (List (List ℚ)) → SLGrid
deriving DecidableEq, Repr

structure SLPred where
  dtype : DType
  grid : SLGrid
deriving DecidableEq, Repr

/-- `_sl_init_pred` (source lines 242-253): allocate the full output from the
first realized result.  A rank-2 first result gives
`np.zeros(np.r_[n_sample, n_iter, y_pred.shape[1:]], int)` - note the `int`
dtype; a rank-1 first result gives `np.zeros((n_sample, n_iter))`, whose dtype
is numpy's default float64. -/
def _sl_init_pred (y_pred : NDRes) (X : Arr3) : SLPred :=
  match y_pred with
  | NDRes.two m =>
    ⟨DType.int,
      SLGrid.g3 (List.replicate X.length
        (List.replicate (lastLen X) (List.replicate (m.headD []).length 0)))⟩
  | NDRes.one _ =>
    ⟨DType.float, SLGrid.g2 (List.replicate X.length (List.replicate (lastLen X) 0))⟩

/-- Assignment `y_pred[:, ii] = v` for a rank-2 output: row r gets `v[r]` at
column ii, cast to the array dtype.  Fails (numpy broadcast error) if the
value's length is not the row count. -/
def setCol2 (dt : DType) (g : List (List ℚ)) (i : Nat) (v : List ℚ) :
    Option (List (List ℚ)) :=
  if v.length = g.length then
    some (List.zipWith (fun row x => row.set i (castTo dt x)) g v)
  else none

/-- Assignment `y_pred[:, ii, :] = m` for a rank-3 output: row r gets block
`m[r]` at position ii, elementwise cast.  Fails if the row count or a block
width does not match the allocated slot. -/
def setCol3 (dt : DType) (g : List (List (List ℚ))) (i : Nat) (m : List (List ℚ)) :
    Option (List (List (List ℚ))) :=
  if m.length = g.length ∧
      ((g.zip m).all fun p => p.2.length == (p.1.getD i []).length) = true then
    some (List.zipWith (fun row blk => row.set i (blk.map (castTo dt))) g m)
  else none

/-- `y_pred[:, ii, ...] = _y_pred` with rank dispatch; a rank mismatch against
the allocation is a numpy broadcast failure. -/
def assignSL (cur : SLPred) (i : Nat) (yp : NDRes) : Option SLPred :=
  match cur.grid, yp with
  | SLGrid.g2 g, NDRes.one v => (setCol2 cur.dtype g i v).map fun g2 => ⟨cur.dtype, SLGrid.g2 g2⟩
  | SLGrid.g3 g, NDRes.two m => (setCol3 cur.dtype g i m).map fun g3 => ⟨cur.dtype, SLGrid.g3 g3⟩
  | _, _ => none

/-- The loop of `_sl_transform` (source lines 229-239), threading `y_pred`
(absent until the first iteration initializes it).  An empty estimator list
leaves `y_pred` unbound at `return`, python's UnboundLocalError. -/
def slLoop (X : Arr3) (method : SLMethod) :
    List Est → Nat → Option SLPred → Except Err SLPred
  | [], _, none => Except.error Err.nameErr
  | [], _, some yp => Except.ok yp
  | est :: rest, ii, st =>
    match est.methods method with
    | none => Except.error Err.attributeErr
    | some f =>
      let yp := f (sliceAt X ii)
      let cur := match st with
        | none => _sl_init_pred yp X
        | some c => c
      match assignSL cur ii yp with
      | none => Except.error Err.broadcastErr
      | some nxt => slLoop X method rest (ii + 1) (some nxt)

/-- `_sl_transform` (source lines 229-239). -/
def _sl_transform (estimators : List Est) (X : Arr3) (method : SLMethod) :
    Except Err SLPred :=
  slLoop X method estimators 0 none

/-- `np.concatenate(_, axis=1)` of two apply outputs of matching rank and row
count. -/
def concatAx1 : SLGrid → SLGrid → Option SLGrid
  | SLGrid.g2 a, SLGrid.g2 b =>
    if a.length = b.length then some (SLGrid.g2 (List.zipWith (· ++ ·) a b)) else none
  | SLGrid.g3 a, SLGrid.g3 b =>
    if a.length = b.length then some (SLGrid.g3 (List.zipWith (· ++ ·) a b)) else none
  | _, _ => none

/-- numpy dtype promotion when concatenating: all-int stays int, anything else
is float64. -/
def promoteDT (a b : DType) : DType :=
  if a = DType.int ∧ b = DType.int then DType.int else DType.float

/-- `np.concatenate(y_pred, axis=1)` over the ordered chunk results. -/
def concatSLPreds : List SLPred → Except Err SLPred
  | [] => Except.error Err.broadcastErr
  | p :: rest =>
    rest.foldlM (fun acc q =>
      match concatAx1 acc.grid q.grid with
      | some g => Except.ok ⟨promoteDT acc.dtype q.dtype, g⟩
      | none => Except.error Err.broadcastErr) p

/-- `SearchLight._transform` (source lines 77-96): validate, resolve the
method on the untrained `base_estimator`, require the slice count to equal the
fitted estimator count, split the data and the estimators into n_jobs chunks
along the slice axis, run `_sl_transform` on each chunk, and either
concatenate along axis 1 (n_jobs > 1) or take `y_pred[0]`. -/
def SearchLight._transform (self : SearchLight) (X : Arr3) (method : SLMethod) :
    Except Err SLPred :=
  match _check_Xy X none with
  | Except.error e => Except.error e
  | Except.ok _ =>
    let method2 := _check_method self.base_estimator.asEst method
    if lastLen X ≠ self.estimators_.length then Except.error Err.shape else
    match (List.zip (array_split self.estimators_ self.n_jobs)
        (splitLastAxis X self.n_jobs)).mapM
        (fun p => _sl_transform p.1 p.2 method2) with
    | Except.error e => Except.error e
    | Except.ok y_pred =>
      if self.n_jobs > 1 then concatSLPreds y_pred
      else
        match y_pred with
        | p :: _ => Except.ok p
        | [] => Except.error Err.nameErr

/-- `SearchLight.transform` (source line 114). -/
def SearchLight.transform (self : SearchLight) (X : Arr3) : Except Err SLPred :=
  SearchLight._transform self X SLMethod.transform

/-- `SearchLight.predict` (source line 132). -/
def SearchLight.predict (self : SearchLight) (X : Arr3) : Except Err SLPred :=
  SearchLight._transform self X SLMethod.predict

/-- `SearchLight.predict_proba` (source line 150). -/
def SearchLight.predict_proba (self : SearchLight) (X : Arr3) : Except Err SLPred :=
  SearchLight._transform self X SLMethod.predict_proba

/-- `SearchLight.decision_function` (source line 172). -/
def SearchLight.decision_function (self : SearchLight) (X : Arr3) : Except Err SLPred :=
  SearchLight._transform self X SLMethod.decision_function

/-- Allocated output of `_sl_score`: rank 1 (slices) or rank 2
(slices × score dims), with its dtype. -/
inductive ScGrid
  | g1 : List ℚ → ScGrid
  | g2 : List (List ℚ) → ScGrid
deriving DecidableEq, Repr

structure SLScoreOut where
  dtype : DType
  grid : ScGrid
deriving DecidableEq, Repr

/-- Allocation in `_sl_score` (source line 263):
`np.zeros(np.r_[n_iter, _score.shape], int)` - the dtype is `int` for scalar
and vector scores alike. -/
def slScoreInit (sc : ScRes) (s : Nat) : SLScoreOut :=
  match sc with
  | ScRes.scalar _ => ⟨DType.int, ScGrid.g1 (List.replicate s 0)⟩
  | ScRes.vec v => ⟨DType.int, ScGrid.g2 (List.replicate s (List.replicate v.length 0))⟩

/-- Assignment `score[ii, ...] = _score` with dtype cast. -/
def assignSc (cur : SLScoreOut) (i : Nat) (sc : ScRes) : Option SLScoreOut :=
  match cur.grid, sc with
  | ScGrid.g1 g, ScRes.scalar q => some ⟨cur.dtype, ScGrid.g1 (g.set i (castTo cur.dtype q))⟩
  | ScGrid.g2 g, ScRes.vec v =>
    if v.length = (g.getD i []).length then
      some ⟨cur.dtype, ScGrid.g2 (g.set i (v.map (castTo cur.dtype)))⟩
    else none
  | _, _ => none

/-- The loop of `_sl_score` (source lines 256-265). -/
def scLoop (X : Arr3) (y : List ℚ) :
    List Est → Nat → Option SLScoreOut → Except Err SLScoreOut
  | [], _, none => Except.error Err.nameErr
  | [], _, some sc => Except.ok sc
  | est :: rest, ii, st =>
    let _score := est.score (sliceAt X ii) y
    let cur := match st with
      | none => slScoreInit _score (lastLen X)
      | some c => c
    match assignSc cur ii _score with
    | none => Except.error Err.broadcastErr
    | some nxt => scLoop X y rest (ii + 1) (some nxt)

/-- `_sl_score` (source lines 256-265). -/
def _sl_score (estimators : List Est) (X : Arr3) (y : List ℚ) : Except Err SLScoreOut :=
  scLoop X y estimators 0 none

/-- `np.concatenate(_, axis=0)` of two score outputs of matching rank. -/
def concatAx0Sc : ScGrid → ScGrid → Option ScGrid
  | ScGrid.g1 a, ScGrid.g1 b => some (ScGrid.g1 (a ++ b))
  | ScGrid.g2 a, ScGrid.g2 b => some (ScGrid.g2 (a ++ b))
  | _, _ => none

/-- `np.concatenate(score, axis=0)` over the ordered chunk results. -/
def concatScOuts : List SLScoreOut → Except Err SLScoreOut
  | [] => Except.error Err.broadcastErr
  | p :: rest =>
    rest.foldlM (fun acc q =>
      match concatAx0Sc acc.grid q.grid with
      | some g => Except.ok ⟨promoteDT acc.dtype q.dtype, g⟩
      | none => Except.error Err.broadcastErr) p

/-- `SearchLight.score` (source lines 182-215): note `_check_Xy` is called
with X only (y is not validated), then the slice/estimator count check, then
the slice-axis split, `_sl_score` per chunk, and concatenation along axis 0
(n_jobs > 1) or `score[0]`. -/
def SearchLight.score (self : SearchLight) (X : Arr3) (y : List ℚ) :
    Except Err SLScoreOut :=
  match _check_Xy X none with
  | Except.error e => Except.error e
  | Except.ok _ =>
    if lastLen X ≠ self.estimators_.length then Except.error Err.shape else
    match (List.zip (array_split self.estimators_ self.n_jobs)
        (splitLastAxis X self.n_jobs)).mapM
        (fun p => _sl_score p.1 p.2 y) with
    | Except.error e => Except.error e
    | Except.ok score =>
      if self.n_jobs > 1 then concatScOuts score
      else
        match score with
        | p :: _ => Except.ok p
        | [] => Except.error Err.nameErr

/-- `np.transpose(X, [1, 0, 2])`: axes become (feature, sample, slice). -/
def transpose102 (X : Arr3) : Arr3 :=
  (List.range (chanLen X)).map fun c => X.map fun r => r.getD c []

/-- Matrix transposition, `.T` of a rank-2 array (column count read from the
first row, as numpy reads it from the shape). -/
def transposeMat (g : Mat) : Mat :=
  (List.range (g.headD []).length).map fun k => g.map fun r => r.getD k 0

/-- The "stack generalized data" step of `_gl_transform` (source lines
436-437): transpose X to (feature, sample, slice), reshape to
(n_chan, n_sample * n_iter) in C order, and transpose; row `i * n_iter + t`
of the result is the feature vector of sample i at slice t. -/
def glStack (X : Arr3) : Mat :=
  transposeMat ((transpose102 X).map List.flatten)

/-- `np.reshape(flat, [n, sz, ...])` of a result over the merged
sample-by-slice axis: consecutive groups of sz rows. -/
def chunkRows (sz n : Nat) (l : List α) : List (List α) :=
  (List.range n).map fun i => (l.drop (i * sz)).take sz

/-- The reshaped ("unstacked") per-estimator result of `_gl_transform`:
(samples × slices) from a rank-1 call result, (samples × slices × trailing)
from a rank-2 call result. -/
inductive ReshRes
  | r2 : List (List ℚ) → ReshRes
  | r3 : List (List (List ℚ)) → ReshRes
deriving DecidableEq, Repr

/-- One estimator step of `_gl_transform` (source lines 435-445): invoke the
method once on the stacked matrix and reshape the flat result back to
(n_sample, n_iter, ...).  A result whose length is not n_sample * n_iter
cannot be reshaped (numpy ValueError). -/
def _gl_apply_est (f : Mat → NDRes) (X : Arr3) : Except Err ReshRes :=
  let n := X.length
  let s := lastLen X
  match f (glStack X) with
  | NDRes.two m =>
    if m.length = n * s then Except.ok (ReshRes.r3 (chunkRows s n m))
    else Except.error Err.broadcastErr
  | NDRes.one v =>
    if v.length = n * s then Except.ok (ReshRes.r2 (chunkRows s n v))
    else Except.error Err.broadcastErr

/-- Output of `_gl_transform`: (samples × estimators × slices) or
(samples × estimators × slices × trailing).  `_gl_init_pred` always allocates
with numpy's default float64 dtype, so no dtype field is needed. -/
inductive GLGrid
  | g3 : List (List (List ℚ)) → GLGrid
  | g4 : List (List (List (List ℚ))) → GLGrid
deriving DecidableEq, Repr

/-- `_gl_init_pred` (source lines 453-460): allocate
`np.zeros((n_sample, n_train, n_iter[, last]))`, dtype float64 (the default). -/
def _gl_init_pred (y_pred : ReshRes) (X : Arr3) (n_train : Nat) : GLGrid :=
  match y_pred with
  | ReshRes.r3 m =>
    GLGrid.g4 (List.replicate X.length (List.replicate n_train
      (List.replicate (lastLen X) (List.replicate ((m.headD []).headD []).length 0))))
  | ReshRes.r2 _ =>
    GLGrid.g3 (List.replicate X.length (List.replicate n_train
      (List.replicate (lastLen X) 0)))

/-- Assignment `y_pred[:, ii, ...] = _y_pred` for the generalization output:
sample row r gets block `_y_pred[r]` at estimator position ii.  Checks the
row count and the per-row block length against the allocated slot. -/
def assignGL (cur : GLGrid) (i : Nat) (r : ReshRes) : Option GLGrid :=
  match cur, r with
  | GLGrid.g3 g, ReshRes.r2 m =>
    if m.length = g.length ∧
        ((g.zip m).all fun p => p.2.length == (p.1.getD i []).length) = true then
      some (GLGrid.g3 (List.zipWith (fun row blk => row.set i blk) g m))
    else none
  | GLGrid.g4 g, ReshRes.r3 m =>
    if m.length = g.length ∧
        ((g.zip m).all fun p => p.2.length == (p.1.getD i []).length) = true then
      some (GLGrid.g4 (List.zipWith (fun row blk => row.set i blk) g m))
    else none
  | _, _ => none

/-- The loop of `_gl_transform` (source lines 433-450). -/
def glLoop (X : Arr3) (method : SLMethod) (n_train : Nat) :
    List Est → Nat → Option GLGrid → Except Err GLGrid
  | [], _, none => Except.error Err.nameErr
  | [], _, some g => Except.ok g
  | est :: rest, ii, st =>
    match est.methods method with
    | none => Except.error Err.attributeErr
    | some f =>
      match _gl_apply_est f X with
      | Except.error e => Except.error e
      | Except.ok resh =>
        let cur := match st with
          | none => _gl_init_pred resh X n_train
          | some c => c
        match assignGL cur ii resh with
        | none => Except.error Err.broadcastErr
        | some nxt => glLoop X method n_train rest (ii + 1) (some nxt)

/-- `_gl_transform` (source lines 418-450). -/
def _gl_transform (estimators : List Est) (X : Arr3) (method : SLMethod) :
    Except Err GLGrid :=
  glLoop X method estimators.length estimators 0 none

/-- `np.concatenate(_, axis=2)` of two generalization outputs of matching
rank, sample count and estimator count. -/
def concatAx2GL : GLGrid → GLGrid → Option GLGrid
  | GLGrid.g3 a, GLGrid.g3 b =>
    if a.length = b.length ∧ ((a.zip b).all fun p => p.1.length == p.2.length) = true then
      some (GLGrid.g3 (List.zipWith (fun ra rb => List.zipWith (· ++ ·) ra rb) a b))
    else none
  | GLGrid.g4 a, GLGrid.g4 b =>
    if a.length = b.length ∧ ((a.zip b).all fun p => p.1.length == p.2.length) = true then
      some (GLGrid.g4 (List.zipWith (fun ra rb => List.zipWith (· ++ ·) ra rb) a b))
    else none
  | _, _ => none

/-- `np.concatenate(y_pred, axis=2)` over the ordered chunk results (applied
unconditionally in `GeneralizationLight._transform`, also for one chunk). -/
def concatGLPreds : List GLGrid → Except Err GLGrid
  | [] => Except.error Err.broadcastErr
  | p :: rest =>
    rest.foldlM (fun acc q =>
      match concatAx2GL acc q with
      | some g => Except.ok g
      | none => Except.error Err.broadcastErr) p

/-- `GeneralizationLight._transform` (source lines 295-305): validate, resolve
the method on the untrained prototype, split X along axis 2 into n_jobs
chunks, run `_gl_transform` with the full estimator list on each chunk, and
concatenate along axis 2.  There is no slice-count check: the test slice count
may differ from the estimator count. -/
def GeneralizationLight._transform (self : SearchLight) (X : Arr3) (method : SLMethod) :
    Except Err GLGrid :=
  match _check_Xy X none with
  | Except.error e => Except.error e
  | Except.ok _ =>
    let method2 := _check_method self.base_estimator.asEst method
    match (splitLastAxis X self.n_jobs).mapM
        (fun x_split => _gl_transform self.estimators_ x_split method2) with
    | Except.error e => Except.error e
    | Except.ok y_pred => concatGLPreds y_pred

/-- `GeneralizationLight.transform` (source line 321). -/
def GeneralizationLight.transform (self : SearchLight) (X : Arr3) : Except Err GLGrid :=
  GeneralizationLight._transform self X SLMethod.transform

/-- `GeneralizationLight.predict` (source line 337). -/
def GeneralizationLight.predict (self : SearchLight) (X : Arr3) : Except Err GLGrid :=
  GeneralizationLight._transform self X SLMethod.predict

/-- `GeneralizationLight.predict_proba` (source line 358). -/
def GeneralizationLight.predict_proba (self : SearchLight) (X : Arr3) : Except Err GLGrid :=
  GeneralizationLight._transform self X SLMethod.predict_proba

/-- `GeneralizationLight.decision_function` (source line 379). -/
def GeneralizationLight.decision_function (self : SearchLight) (X : Arr3) : Except Err GLGrid :=
  GeneralizationLight._transform self X SLMethod.decision_function

/-- Output of `_gl_score`: (estimators × slices) or
(estimators × slices × score dims), with its dtype. -/
inductive GLScGrid
  | g2 : List (List ℚ) → GLScGrid
  | g3 : List (List (List ℚ)) → GLScGrid
deriving DecidableEq, Repr

structure GLScoreOut where
  dtype : DType
  grid : GLScGrid
deriving DecidableEq, Repr

/-- Allocation in `_gl_score` (source lines 472-476): a score with
`np.ndim(_score)` nonzero gives
`np.zeros(np.r_[n_est, n_iter, _score.shape], int)` (int dtype); a scalar
score gives `np.zeros([n_est, n_iter])`, numpy's default float64. -/
def glScoreInit (sc : ScRes) (n_est s : Nat) : GLScoreOut :=
  match sc with
  | ScRes.vec v =>
    ⟨DType.int, GLScGrid.g3 (List.replicate n_est
      (List.replicate s (List.replicate v.length 0)))⟩
  | ScRes.scalar _ => ⟨DType.float, GLScGrid.g2 (List.replicate n_est (List.replicate s 0))⟩

/-- Assignment `score[ii, jj, ...] = _score` with dtype cast. -/
def assignGLSc (cur : GLScoreOut) (i j : Nat) (sc : ScRes) : Option GLScoreOut :=
  match cur.grid, sc with
  | GLScGrid.g2 g, ScRes.scalar q =>
    some ⟨cur.dtype, GLScGrid.g2 (g.set i ((g.getD i []).set j (castTo cur.dtype q)))⟩
  | GLScGrid.g3 g, ScRes.vec v =>
    if v.length = ((g.getD i []).getD j []).length then
      some ⟨cur.dtype, GLScGrid.g3 (g.set i ((g.getD i []).set j (v.map (castTo cur.dtype))))⟩
    else none
  | _, _ => none

/-- The inner loop of `_gl_score` over the test slices jj for a fixed
estimator index ii. -/
def glScInner (X : Arr3) (y : List ℚ) (est : Est) (ii n_est s : Nat) :
    List Nat → Option GLScoreOut → Except Err (Option GLScoreOut)
  | [], st => Except.ok st
  | jj :: rest, st =>
    let _score := est.score (sliceAt X jj) y
    let cur := match st with
      | none => glScoreInit _score n_est s
      | some c => c
    match assignGLSc cur ii jj _score with
    | none => Except.error Err.broadcastErr
    | some nxt => glScInner X y est ii n_est s rest (some nxt)

/-- The outer loop of `_gl_score` over the estimators. -/
def glScOuter (X : Arr3) (y : List ℚ) (n_est s : Nat) :
    List Est → Nat → Option GLScoreOut → Except Err GLScoreOut
  | [], _, none => Except.error Err.nameErr
  | [], _, some sc => Except.ok sc
  | est :: rest, ii, st =>
    match glScInner X y est ii n_est s (List.range s) st with
    | Except.error e => Except.error e
    | Except.ok st2 => glScOuter X y n_est s rest (ii + 1) st2

/-- `_gl_score` (source lines 463-478): nested loop over (estimator, slice)
pairs; the output is initialized from the first score at (0, 0); if either
loop is empty, `score` is never bound (UnboundLocalError). -/
def _gl_score (estimators : List Est) (X : Arr3) (y : List ℚ) : Except Err GLScoreOut :=
  glScOuter X y estimators.length (lastLen X) estimators 0 none

/-- `np.concatenate(_, axis=1)` of two `_gl_score` outputs. -/
def concatAx1GLSc : GLScGrid → GLScGrid → Option GLScGrid
  | GLScGrid.g2 a, GLScGrid.g2 b =>
    if a.length = b.length then some (GLScGrid.g2 (List.zipWith (· ++ ·) a b)) else none
  | GLScGrid.g3 a, GLScGrid.g3 b =>
    if a.length = b.length then some (GLScGrid.g3 (List.zipWith (· ++ ·) a b)) else none
  | _, _ => none

/-- `np.concatenate(score, axis=1)` over the ordered chunk results. -/
def concatGLScOuts : List GLScoreOut → Except Err GLScoreOut
  | [] => Except.error Err.broadcastErr
  | p :: rest =>
    rest.foldlM (fun acc q =>
      match concatAx1GLSc acc.grid q.grid with
      | some g => Except.ok ⟨promoteDT acc.dtype q.dtype, g⟩
      | none => Except.error Err.broadcastErr) p

/-- `GeneralizationLight.score` (source lines 381-415): `_check_Xy` with X
only (no y validation, no slice-count check), slice-axis split of X,
`_gl_score` with the full estimator list per chunk, concatenation along
axis 1 (n_jobs > 1) or `score[0]`. -/
def GeneralizationLight.score (self : SearchLight) (X : Arr3) (y : List ℚ) :
    Except Err GLScoreOut :=
  match _check_Xy X none with
  | Except.error e => Except.error e
  | Except.ok _ =>
    match (splitLastAxis X self.n_jobs).mapM
        (fun x_split => _gl_score self.estimators_ x_split y) with
    | Except.error e => Except.error e
    | Except.ok score =>
      if self.n_jobs > 1 then concatGLScOuts score
      else
        match score with
        | p :: _ => Except.ok p
        | [] => Except.error Err.nameErr

/-- Modelled from the spec (section 4.5): the partitioning the spec claims for
apply/score - contiguous, non-overlapping ranges of samples (axis 0), with
`np.array_split` chunk sizes.  This is the comparison definition for the
partition-axis claim; the code's own split is `splitLastAxis`. -/
def specSampleSplit (X : Arr3) (k : Nat) : List Arr3 :=
  (chunkSpecs X.length k).map fun p => (X.drop p.1).take p.2

/-- Rank test of an apply result. -/
def ndIsOne : NDRes → Bool
  | NDRes.one _ => true
  | NDRes.two _ => false

/-- Data of a rank-1 apply result. -/
def ndOne : NDRes → List ℚ
  | NDRes.one v => v
  | NDRes.two _ => []

/-- Data of a rank-2 apply result. -/
def ndTwo : NDRes → List (List ℚ)
  | NDRes.one _ => []
  | NDRes.two m => m

/-- Modelled from the spec (section 4.4): the reference computation the
flatten/reshape trick must match - loop over test slices, apply the estimator
to each slice, and stack the per-slice results along a new trailing slice
axis (result position [i][t] is the slice-t result at sample i).  All
per-slice results must have the same rank; a mixed-rank loop has no stacked
result. -/
def glPerSliceLoop (f : Mat → NDRes) (X : Arr3) : Option ReshRes :=
  let results := (List.range (lastLen X)).map fun t => f (sliceAt X t)
  if results.all ndIsOne then
    some (ReshRes.r2 ((List.range X.length).map fun i =>
      results.map fun r => (ndOne r).getD i 0))
  else if results.all fun r => !(ndIsOne r) then
    some (ReshRes.r3 ((List.range X.length).map fun i =>
      results.map fun r => (ndTwo r).getD i []))
  else none

instance {ε α : Type} [DecidableEq ε] [DecidableEq α] : DecidableEq (Except ε α)
  | Except.ok a, Except.ok b =>
    match decEq a b with
    | isTrue h => isTrue (by rw [h])
    | isFalse h => isFalse fun hh => h (by cases hh; rfl)
  | Except.ok _, Except.error _ => isFalse fun h => by cases h
  | Except.error _, Except.ok _ => isFalse fun h => by cases h
  | Except.error e, Except.error e2 =>
    match decEq e e2 with
    | isTrue h => isTrue (by rw [h])
    | isFalse h => isFalse fun hh => h (by cases hh; rfl)

/-- A list of length s whose first i entries are already filled with `v` and
whose remaining entries still hold the allocation value `z`.  The invariant
shape of every partially written output in the loops above. -/
def fillV (s i : Nat) (v : Nat → γ) (z : γ) : List γ :=
  (List.range s).map fun j => if j < i then v j else z

/-- The window of values of `v` at indices o, o+1, ..., o+sz-1 (one chunk's
worth of an indexed family). -/
def colsOf (v : Nat → γ) (o sz : Nat) : List γ :=
  (List.range sz).map fun j => v (o + j)

/-- Generic fully-written rank-2 output: entry [i][j] is `v i j`. -/
def grid2 (a b : Nat) (v : Nat → Nat → γ) : List (List γ) :=
  (List.range a).map fun i => (List.range b).map fun j => v i j

/-- Generic fully-written rank-3 output: entry [i][j][k] is `v i j k`. -/
def grid3 (a b c : Nat) (v : Nat → Nat → Nat → γ) : List (List (List γ)) :=
  (List.range a).map fun i => grid2 b c (v i)

/-- The feature vector of sample r at slice t (row r of `X[..., t]`). -/
def featRow (X : Arr3) (r t : Nat) : List ℚ :=
  (X.getD r []).map fun c => c.getD t 0

/-- Concrete rational 7/10. -/
def q710 : ℚ := ⟨7, 10, by decide, by decide⟩

/-- Concrete rational 3/10. -/
def q310 : ℚ := ⟨3, 10, by decide, by decide⟩

/-- Concrete rational 73/100. -/
def q73100 : ℚ := ⟨73, 100, by decide, by decide⟩

/-- Concrete data: 1 sample, 1 feature, 1 slice. -/
def Xone : Arr3 := [[[5]]]

/-- Concrete data: 2 samples, 1 feature, 2 slices, distinct values. -/
def Xtwo : Arr3 := [[[1, 2]], [[3, 4]]]

/-- Concrete target vector of length 2. -/
def yTwo : List ℚ := [0, 1]

/-- A model exposing only `predict` (first feature of each row) and a scalar
score of 73/100. -/
def estP : Est where
  methods := fun m =>
    match m with
    | SLMethod.predict => some fun M => NDRes.one (M.map fun row => row.headD 0)
    | _ => none
  score := fun _ _ => ScRes.scalar q73100

/-- A model exposing `predict` and a `transform` that returns a constant
different from what `predict` returns, plus a scalar score. -/
def estPT : Est where
  methods := fun m =>
    match m with
    | SLMethod.predict => some fun M => NDRes.one (M.map fun row => row.headD 0)
    | SLMethod.transform => some fun M => NDRes.one (M.map fun _ => q310)
    | _ => none
  score := fun _ _ => ScRes.scalar q73100

/-- A model exposing only `predict_proba` (constant class probabilities
[7/10, 3/10] per row) and a vector score. -/
def estPP : Est where
  methods := fun m =>
    match m with
    | SLMethod.predict_proba => some fun M => NDRes.two (M.map fun _ => [q710, q310])
    | _ => none
  score := fun _ _ => ScRes.vec [q73100, q310]

/-- A prototype whose clones are `estP` regardless of the training data
(enough for apply/score pipelines, which never look at training history). -/
def protoP : Proto where
  asEst := estP
  fitOne := fun _ _ => estP

/-- A prototype lacking `transform`, whose clones are `estPT` (which has
`transform`): exercises the fallback decision on the untrained prototype. -/
def protoPnoT : Proto where
  asEst := estP
  fitOne := fun _ _ => estPT

/-- A prototype whose capability table and clones only have `predict_proba`. -/
def protoPP : Proto where
  asEst := estPP
  fitOne := fun _ _ => estPP

/-- Rows a, row r being the window of `w r` at offset o of width sz: the
shape of one (possibly chunked) fully-written apply output. -/
def gridC (a : Nat) (w : Nat → Nat → γ) (o sz : Nat) : List (List γ) :=
  (List.range a).map fun r => colsOf (w r) o sz

/-- A method call that is stateless and row-independent with per-row kernel g
and rank-1 results. -/
def RowWise1 (f : Mat → NDRes) (g : List ℚ → ℚ) : Prop :=
  ∀ M, f M = NDRes.one (M.map g)

/-- A method call that is stateless and row-independent with per-row kernel g
and rank-2 results. -/
def RowWise2 (f : Mat → NDRes) (g : List ℚ → List ℚ) : Prop :=
  ∀ M, f M = NDRes.two (M.map g)

/-- The partially written `_gl_score` output grid: estimator rows before ii
are fully written, row ii is written up to slice jj, later rows still hold
the allocation value. -/
def glScRowState (e s ii jj : Nat) (v : Nat → Nat → γ) (z : γ) : List (List γ) :=
  (List.range e).map fun i2 =>
    if i2 < ii then colsOf (v i2) 0 s
    else if i2 = ii then fillV s jj (v i2) z
    else List.replicate s z

/-- The fully-written generalization output over a window of the test-slice
axis: entry [r][i] is the window of blocks of estimator i on sample r. -/
def glGridOf (n e : Nat) (B : Nat → Nat → Nat → γ) (o sz : Nat) :
    List (List (List γ)) :=
  (List.range n).map fun r => gridC e (B r) o sz

/-- `np.concatenate` of two rank-3 arrays along the slice axis. -/
def concat3 (A B2 : Arr3) : Arr3 :=
  List.zipWith (fun ra rb => List.zipWith (· ++ ·) ra rb) A B2

/-- Reassembling a list of rank-3 chunks along the slice axis in chunk order. -/
def joinLastAxis : List Arr3 → Arr3
  | [] => []
  | c :: rest => rest.foldl concat3 c

/-- Concrete data: 2 samples, 1 feature, 1 slice. -/
def XtwoOne : Arr3 := [[[1]], [[2]]]

/-- Concrete target vector of length 1 (mismatching `XtwoOne`). -/
def yOne : List ℚ := [0]

theorem getD_lt (l : List α) (d : α) {i : Nat} (h : i < l.length) : l.getD i d = l[i] := by
  simp [List.getD_eq_getElem?_getD, List.getElem?_eq_getElem h]

theorem getD_ge (l : List α) (d : α) {i : Nat} (h : l.length ≤ i) : l.getD i d = d := by
  simp [List.getD_eq_getElem?_getD, List.getElem?_eq_none h]

theorem castTo_float (q : ℚ) : castTo DType.float q = q := rfl

theorem truncQ_int (z : ℤ) : truncQ (z : ℚ) = z := by
  simp [truncQ, Rat.num_intCast, Rat.den_intCast, Int.tdiv_one]

theorem fillV_length (s i : Nat) (v : Nat → γ) (z : γ) : (fillV s i v z).length = s := by
  simp [fillV]

theorem replicate_eq_range_map (n : Nat) (z : γ) :
    List.replicate n z = (List.range n).map fun _ => z := by
  simp [List.map_const]

theorem fillV_zero (s : Nat) (v : Nat → γ) (z : γ) : fillV s 0 v z = List.replicate s z := by
  rw [replicate_eq_range_map]
  unfold fillV
  apply List.map_congr_left
  intro j hj
  simp

theorem fillV_full (s : Nat) (v : Nat → γ) (z : γ) : fillV s s v z = colsOf v 0 s := by
  unfold fillV colsOf
  apply List.map_congr_left
  intro j hj
  simp at hj
  simp [hj]

theorem fillV_getElem (s i : Nat) (v : Nat → γ) (z : γ) (j : Nat) (h : j < s)
    (h2 : j < (fillV s i v z).length) :
    (fillV s i v z)[j] = if j < i then v j else z := by
  simp [fillV]

theorem fillV_getD (s i : Nat) (v : Nat → γ) (z : γ) (j : Nat) (h : j < s) (d : γ) :
    (fillV s i v z).getD j d = if j < i then v j else z := by
  rw [getD_lt _ _ (by simpa [fillV_length] using h), fillV_getElem _ _ _ _ _ h]

theorem fillV_set (s i : Nat) (v : Nat → γ) (z : γ) (h : i < s) :
    (fillV s i v z).set i (v i) = fillV s (i + 1) v z := by
  apply List.ext_getElem
  · simp [fillV]
  · intro j hj hj2
    rw [List.getElem_set]
    simp only [fillV_length] at hj2
    rw [fillV_getElem _ _ _ _ _ hj2, fillV_getElem _ _ _ _ _ hj2 (by simpa [fillV_length])]
    by_cases hij : i = j
    · subst hij
      simp
    · have : ¬ (j = i) := fun hh => hij hh.symm
      simp only [hij, if_false]
      by_cases hlt : j < i
      · simp [hlt, Nat.lt_succ_of_lt hlt]
      · have : ¬ (j < i + 1) := by omega
        simp [hlt, this]

theorem colsOf_eq_range' (v : Nat → γ) (o sz : Nat) :
    colsOf v o sz = (List.range' o sz).map v := by
  rw [List.range'_eq_map_range, List.map_map]
  rfl

theorem colsOf_append (v : Nat → γ) (o a b : Nat) :
    colsOf v o a ++ colsOf v (o + a) b = colsOf v o (a + b) := by
  rw [colsOf_eq_range', colsOf_eq_range', colsOf_eq_range', ← List.map_append]
  congr 1
  have := List.range'_append o a b 1
  simpa [Nat.add_comm] using this

theorem colsOf_length (v : Nat → γ) (o sz : Nat) : (colsOf v o sz).length = sz := by
  simp [colsOf]

theorem colsOf_getD (v : Nat → γ) (o sz j : Nat) (h : j < sz) (d : γ) :
    (colsOf v o sz).getD j d = v (o + j) := by
  rw [getD_lt _ _ (by simpa [colsOf_length] using h)]
  simp [colsOf]

theorem gridC_length (a : Nat) (w : Nat → Nat → γ) (o sz : Nat) :
    (gridC a w o sz).length = a := by
  simp [gridC]

theorem gridC_getD (a : Nat) (w : Nat → Nat → γ) (o sz r : Nat) (h : r < a) (d : List γ) :
    (gridC a w o sz).getD r d = colsOf (w r) o sz := by
  rw [getD_lt _ _ (by simpa [gridC_length] using h)]
  simp [gridC]

theorem zipWith_map_range (f : γ → δ → ε) (g : Nat → γ) (l : List δ) (n : Nat)
    (h : l.length = n) (d : δ) :
    List.zipWith f ((List.range n).map g) l =
      (List.range n).map fun i => f (g i) (l.getD i d) := by
  apply List.ext_getElem
  · simp [h]
  · intro j hj hj2
    simp only [List.length_zipWith, List.length_map, List.length_range, h, Nat.min_self] at hj
    rw [List.getElem_zipWith]
    simp only [List.getElem_map, List.getElem_range]
    rw [getD_lt _ _ (by omega)]

theorem zipWith_append_gridC (a : Nat) (w : Nat → Nat → γ) (o p q : Nat) :
    List.zipWith (· ++ ·) (gridC a w o p) (gridC a w (o + p) q) = gridC a w o (p + q) := by
  unfold gridC
  rw [zipWith_map_range _ _ _ a (by simp) []]
  apply List.map_congr_left
  intro r hr
  simp only [List.mem_range] at hr
  rw [getD_lt _ _ (by simpa [gridC_length] using hr)]
  simp only [gridC, List.getElem_map, List.getElem_range]
  exact colsOf_append (w r) o p q

theorem getD_drop_take (l : List α) (o sz j : Nat) (h : j < sz) (d : α) :
    ((l.drop o).take sz).getD j d = l.getD (o + j) d := by
  by_cases hlen : o + j < l.length
  · rw [getD_lt _ _ (show j < ((l.drop o).take sz).length by
      simp only [List.length_take, List.length_drop]
      omega)]
    rw [getD_lt _ _ hlen]
    rw [List.getElem_take, List.getElem_drop]
  · rw [getD_ge _ _ (show ((l.drop o).take sz).length ≤ j by
      simp only [List.length_take, List.length_drop]
      omega)]
    rw [getD_ge _ _ (by omega)]

theorem splitSizes_sum (L k : Nat) (hk : 0 < k) : (splitSizes L k).sum = L := by
  unfold splitSizes
  rw [List.sum_append, List.sum_replicate, List.sum_replicate, smul_eq_mul, smul_eq_mul,
    Nat.mul_add, Nat.mul_one, Nat.sub_mul]
  have h1 : L % k < k := Nat.mod_lt _ hk
  have h2 : k * (L / k) + L % k = L := Nat.div_add_mod L k
  have h4 : (L % k) * (L / k) ≤ k * (L / k) := Nat.mul_le_mul_right _ (Nat.le_of_lt h1)
  omega

theorem splitSizes_length (L k : Nat) (hk : 0 < k) : (splitSizes L k).length = k := by
  unfold splitSizes
  simp only [List.length_append, List.length_replicate]
  have h1 : L % k < k := Nat.mod_lt _ hk
  omega

theorem splitSizes_pos (L k : Nat) (hk : 0 < k) (hkL : k ≤ L) :
    ∀ sz ∈ splitSizes L k, 0 < sz := by
  intro sz hsz
  unfold splitSizes at hsz
  rcases List.mem_append.mp hsz with h | h
  · have h5 := List.eq_of_mem_replicate h
    subst h5
    exact Nat.succ_pos _
  · have h5 := List.eq_of_mem_replicate h
    subst h5
    exact (Nat.one_le_div_iff hk).mpr hkL

theorem specsOf_length (szs : List Nat) : ∀ o : Nat, (specsOf o szs).length = szs.length := by
  induction szs with
  | nil => intro o; rfl
  | cons sz rest ih =>
    intro o
    simp [specsOf, ih (o + sz)]

theorem specsOf_bound (szs : List Nat) :
    ∀ (o : Nat), ∀ p ∈ specsOf o szs, o ≤ p.1 ∧ p.1 + p.2 ≤ o + szs.sum := by
  induction szs with
  | nil =>
    intro o p hp
    cases hp
  | cons sz rest ih =>
    intro o p hp
    cases hp with
    | head =>
      refine ⟨Nat.le_refl o, ?_⟩
      simp only [List.sum_cons]
      omega
    | tail _ hmem =>
      have h2 := ih (o + sz) p hmem
      refine ⟨by omega, ?_⟩
      simp only [List.sum_cons]
      omega

theorem chunkLast_length (X : Arr3) (o sz : Nat) : (chunkLast X o sz).length = X.length := by
  simp [chunkLast]

theorem chunkLast_ne_nil (X : Arr3) (o sz : Nat) (h : X ≠ []) : chunkLast X o sz ≠ [] := by
  unfold chunkLast
  simpa using h

theorem sliceAt_chunkLast (X : Arr3) (o sz jj : Nat) (h : jj < sz) :
    sliceAt (chunkLast X o sz) jj = sliceAt X (o + jj) := by
  unfold sliceAt chunkLast
  rw [List.map_map]
  apply List.map_congr_left
  intro r _
  simp only [Function.comp]
  rw [List.map_map]
  apply List.map_congr_left
  intro c _
  simp only [Function.comp]
  exact getD_drop_take c o sz jj h 0

theorem sliceAt_length (X : Arr3) (t : Nat) : (sliceAt X t).length = X.length := by
  simp [sliceAt]

theorem sliceAt_getD (X : Arr3) (t r : Nat) (h : r < X.length) :
    (sliceAt X t).getD r [] = featRow X r t := by
  unfold sliceAt featRow
  rw [getD_lt _ _ (by simpa using h), List.getElem_map]
  congr 1
  exact (getD_lt X [] h).symm

theorem rect3_iff {X : Arr3} {f s : Nat} :
    rect3 X f s = true ↔ ∀ r ∈ X, r.length = f ∧ ∀ c ∈ r, c.length = s := by
  simp [rect3, List.all_eq_true]

theorem lastLen_rect {X : Arr3} {f s : Nat} (hr : rect3 X f s = true) (hne : X ≠ [])
    (hf : 0 < f) : lastLen X = s := by
  rcases X with _ | ⟨row, rest⟩
  · exact absurd rfl hne
  · have h1 := (rect3_iff.mp hr) row (by simp)
    unfold lastLen
    simp only [List.headD_cons]
    rcases row with _ | ⟨c, crest⟩
    · simp at h1
      omega
    · exact (h1.2 c (by simp))

theorem chanLen_rect {X : Arr3} {f s : Nat} (hr : rect3 X f s = true) (hne : X ≠ []) :
    chanLen X = f := by
  rcases X with _ | ⟨row, rest⟩
  · exact absurd rfl hne
  · have h1 := (rect3_iff.mp hr) row (by simp)
    unfold chanLen
    simp only [List.headD_cons]
    exact h1.1

theorem rect3_chunkLast {X : Arr3} {f s : Nat} (hr : rect3 X f s = true) (o sz : Nat)
    (hos : o + sz ≤ s) : rect3 (chunkLast X o sz) f sz = true := by
  rw [rect3_iff]
  intro r hrr
  unfold chunkLast at hrr
  rcases List.mem_map.mp hrr with ⟨row, hrow, hEq⟩
  subst hEq
  have h1 := (rect3_iff.mp hr) row hrow
  constructor
  · simpa using h1.1
  · intro c hc
    rcases List.mem_map.mp hc with ⟨cc, hcc, hEq2⟩
    subst hEq2
    have h2 := h1.2 cc hcc
    simp only [List.length_take, List.length_drop, h2]
    omega

theorem lastLen_chunkLast {X : Arr3} {f s : Nat} (hr : rect3 X f s = true) (hne : X ≠ [])
    (hf : 0 < f) (o sz : Nat) (hos : o + sz ≤ s) : lastLen (chunkLast X o sz) = sz :=
  lastLen_rect (rect3_chunkLast hr o sz hos) (chunkLast_ne_nil X o sz hne) hf

theorem rect3_row_length {X : Arr3} {f s : Nat} (hr : rect3 X f s = true) {r : Nat}
    (h : r < X.length) : (X.getD r []).length = f := by
  rw [getD_lt _ _ h]
  exact ((rect3_iff.mp hr) X[r] (List.getElem_mem h)).1

theorem rect3_cell_length {X : Arr3} {f s : Nat} (hr : rect3 X f s = true) {r c : Nat}
    (h : r < X.length) (hc : c < (X.getD r []).length) : ((X.getD r []).getD c []).length = s := by
  rw [getD_lt _ _ h] at hc ⊢
  rw [getD_lt _ _ hc]
  have h1 := (rect3_iff.mp hr) X[r] (List.getElem_mem h)
  exact h1.2 _ (List.getElem_mem hc)

theorem getE_window (ests : List Est) (o sz j : Nat) (hj : j < sz) :
    getE ((ests.drop o).take sz) j = getE ests (o + j) := by
  unfold getE
  exact getD_drop_take ests o sz j hj default

theorem window_length (l : List α) (o sz : Nat) (h : o + sz ≤ l.length) :
    ((l.drop o).take sz).length = sz := by
  simp only [List.length_take, List.length_drop]
  omega

theorem getE_cons_zero (e : Est) (l : List Est) : getE (e :: l) 0 = e := rfl

theorem getE_cons_succ (e : Est) (l : List Est) (j : Nat) : getE (e :: l) (j + 1) = getE l j := rfl

theorem setCol2_fill (dt : DType) (n s i : Nat) (w : Nat → Nat → ℚ) (v : List ℚ)
    (hv : v.length = n) (hi : i < s)
    (hval : ∀ r, r < n → castTo dt (v.getD r 0) = w r i) :
    setCol2 dt ((List.range n).map fun r => fillV s i (w r) 0) i v =
      some ((List.range n).map fun r => fillV s (i + 1) (w r) 0) := by
  unfold setCol2
  rw [if_pos (by simp [hv, fillV_length])]
  congr 1
  rw [zipWith_map_range _ _ _ n (by simpa using hv) 0]
  apply List.map_congr_left
  intro r hr
  simp only [List.mem_range] at hr
  rw [hval r hr]
  exact fillV_set s i (w r) 0 hi

theorem slLoop_fill1 (X : Arr3) (m : SLMethod) (n s : Nat) (w : Nat → Nat → ℚ)
    (hn : X.length = n) (hs : lastLen X = s) :
    ∀ (rest : List Est) (i : Nat) (st : Option SLPred),
      i + rest.length = s →
      (st = some ⟨DType.float, SLGrid.g2 ((List.range n).map fun r => fillV s i (w r) 0)⟩ ∨
        (i = 0 ∧ st = none ∧ 0 < rest.length)) →
      (∀ j, j < rest.length → ∃ f v, (getE rest j).methods m = some f ∧
        f (sliceAt X (i + j)) = NDRes.one v ∧ v.length = n ∧
        ∀ r, r < n → v.getD r 0 = w r (i + j)) →
      slLoop X m rest i st =
        Except.ok ⟨DType.float, SLGrid.g2 ((List.range n).map fun r => fillV s s (w r) 0)⟩ := by
  intro rest
  induction rest with
  | nil =>
    intro i st hsum hst hU
    rcases hst with hst | ⟨_, _, hpos⟩
    · subst hst
      simp only [List.length_nil, Nat.add_zero] at hsum
      subst hsum
      rfl
    · simp at hpos
  | cons est rest2 ih =>
    intro i st hsum hst hU
    rcases hU 0 (by simp) with ⟨f, v, hm, hres, hvlen, hvals⟩
    rw [getE_cons_zero] at hm
    rw [Nat.add_zero] at hres hvals
    have hi : i < s := by
      simp only [List.length_cons] at hsum
      omega
    have hcur :
        (match st with
          | none => _sl_init_pred (NDRes.one v) X
          | some c => c) =
        ⟨DType.float, SLGrid.g2 ((List.range n).map fun r => fillV s i (w r) 0)⟩ := by
      rcases hst with hst | ⟨hi0, hst, _⟩
      · subst hst
        rfl
      · subst hst
        subst hi0
        show _sl_init_pred (NDRes.one v) X = _
        have hinit : _sl_init_pred (NDRes.one v) X =
            ⟨DType.float, SLGrid.g2 (List.replicate X.length (List.replicate (lastLen X) 0))⟩ := rfl
        rw [hinit, hn, hs]
        congr 2
        rw [replicate_eq_range_map]
        apply List.map_congr_left
        intro r _
        exact (fillV_zero s (w r) 0).symm
    simp only [slLoop, hm, hres, hcur]
    have hassign : assignSL
        ⟨DType.float, SLGrid.g2 ((List.range n).map fun r => fillV s i (w r) 0)⟩ i
        (NDRes.one v) =
        some ⟨DType.float, SLGrid.g2 ((List.range n).map fun r => fillV s (i + 1) (w r) 0)⟩ := by
      unfold assignSL
      simp only
      rw [setCol2_fill DType.float n s i w v hvlen hi
        (fun r hr => by rw [castTo_float]; exact hvals r hr)]
      rfl
    rw [hassign]
    apply ih (i + 1) _ (by simp only [List.length_cons] at hsum; omega) (Or.inl rfl)
    intro j hj
    rcases hU (j + 1) (by simp only [List.length_cons]; omega) with ⟨f2, v2, hm2, hres2, hvlen2, hvals2⟩
    rw [getE_cons_succ] at hm2
    refine ⟨f2, v2, hm2, ?_, hvlen2, ?_⟩
    · have : i + (j + 1) = i + 1 + j := by omega
      rw [this] at hres2
      exact hres2
    · intro r hr
      have : i + (j + 1) = i + 1 + j := by omega
      rw [this] at hvals2
      exact hvals2 r hr

theorem sl_transform_one (ests : List Est) (X : Arr3) (m : SLMethod) (n s : Nat)
    (w : Nat → Nat → ℚ)
    (hn : X.length = n) (hs : lastLen X = s) (hes : ests.length = s) (hs1 : 0 < s)
    (hU : ∀ j, j < s → ∃ f v, (getE ests j).methods m = some f ∧
      f (sliceAt X j) = NDRes.one v ∧ v.length = n ∧ ∀ r, r < n → v.getD r 0 = w r j) :
    _sl_transform ests X m = Except.ok ⟨DType.float, SLGrid.g2 (gridC n w 0 s)⟩ := by
  unfold _sl_transform
  have hmain := slLoop_fill1 X m n s w hn hs ests 0 none (by omega)
    (Or.inr ⟨rfl, rfl, by omega⟩)
    (fun j hj => by
      rcases hU j (by omega) with ⟨f, v, hm, hres, hvlen, hvals⟩
      exact ⟨f, v, hm, by simpa using hres, hvlen, by simpa using hvals⟩)
  rw [hmain]
  congr 3
  unfold gridC
  apply List.map_congr_left
  intro r _
  exact fillV_full s (w r) 0

theorem castTo_int (q : ℚ) : castTo DType.int q = truncQ q := rfl

theorem setCol3_fill (n s c i : Nat) (w : Nat → Nat → List ℚ) (v : List (List ℚ))
    (hv : v.length = n) (hi : i < s)
    (hvc : ∀ x ∈ v, x.length = c)
    (hval : ∀ r, r < n → (v.getD r []).map truncQ = w r i) :
    setCol3 DType.int ((List.range n).map fun r => fillV s i (w r) (List.replicate c 0)) i v =
      some ((List.range n).map fun r => fillV s (i + 1) (w r) (List.replicate c 0)) := by
  unfold setCol3
  rw [if_pos ?cond]
  case cond =>
    refine ⟨by simp [hv], ?_⟩
    rw [List.all_eq_true]
    intro p hp
    rcases p with ⟨pg, pv⟩
    have hmem := List.mem_zip hp
    rcases List.mem_map.mp hmem.1 with ⟨r, hr, hEq⟩
    subst hEq
    simp only [List.mem_range] at hr
    rw [fillV_getD s i (w r) (List.replicate c 0) i hi]
    simp only [Nat.lt_irrefl, if_false, List.length_replicate]
    simpa using hvc pv hmem.2
  congr 1
  rw [zipWith_map_range _ _ _ n (by simpa using hv) []]
  apply List.map_congr_left
  intro r hr
  simp only [List.mem_range] at hr
  have : (v.getD r []).map (castTo DType.int) = w r i := by
    rw [show (castTo DType.int) = truncQ from rfl]
    exact hval r hr
  rw [this]
  exact fillV_set s i (w r) (List.replicate c 0) hi

theorem slLoop_fill2 (X : Arr3) (m : SLMethod) (n s c : Nat) (w : Nat → Nat → List ℚ)
    (hn : X.length = n) (hs : lastLen X = s) (hn0 : 0 < n) :
    ∀ (rest : List Est) (i : Nat) (st : Option SLPred),
      i + rest.length = s →
      (st = some ⟨DType.int, SLGrid.g3
          ((List.range n).map fun r => fillV s i (w r) (List.replicate c 0))⟩ ∨
        (i = 0 ∧ st = none ∧ 0 < rest.length)) →
      (∀ j, j < rest.length → ∃ f v, (getE rest j).methods m = some f ∧
        f (sliceAt X (i + j)) = NDRes.two v ∧ v.length = n ∧ (∀ x ∈ v, x.length = c) ∧
        ∀ r, r < n → (v.getD r []).map truncQ = w r (i + j)) →
      slLoop X m rest i st =
        Except.ok ⟨DType.int, SLGrid.g3
          ((List.range n).map fun r => fillV s s (w r) (List.replicate c 0))⟩ := by
  intro rest
  induction rest with
  | nil =>
    intro i st hsum hst hU
    rcases hst with hst | ⟨_, _, hpos⟩
    · subst hst
      simp only [List.length_nil, Nat.add_zero] at hsum
      subst hsum
      rfl
    · simp at hpos
  | cons est rest2 ih =>
    intro i st hsum hst hU
    rcases hU 0 (by simp) with ⟨f, v, hm, hres, hvlen, hvc, hvals⟩
    rw [getE_cons_zero] at hm
    rw [Nat.add_zero] at hres hvals
    have hi : i < s := by
      simp only [List.length_cons] at hsum
      omega
    have hcur :
        (match st with
          | none => _sl_init_pred (NDRes.two v) X
          | some cc => cc) =
        ⟨DType.int, SLGrid.g3 ((List.range n).map fun r =>
          fillV s i (w r) (List.replicate c 0))⟩ := by
      rcases hst with hst | ⟨hi0, hst, _⟩
      · subst hst
        rfl
      · subst hst
        subst hi0
        show _sl_init_pred (NDRes.two v) X = _
        have hinit : _sl_init_pred (NDRes.two v) X =
            ⟨DType.int, SLGrid.g3 (List.replicate X.length
              (List.replicate (lastLen X) (List.replicate (v.headD []).length 0)))⟩ := rfl
        have hhead : (v.headD []).length = c := by
          rcases v with _ | ⟨v0, vr⟩
          · simp at hvlen
            omega
          · exact hvc v0 (by simp)
        rw [hinit, hn, hs, hhead]
        congr 2
        rw [replicate_eq_range_map]
        apply List.map_congr_left
        intro r _
        exact (fillV_zero s (w r) (List.replicate c 0)).symm
    simp only [slLoop, hm, hres, hcur]
    have hassign : assignSL
        ⟨DType.int, SLGrid.g3 ((List.range n).map fun r =>
          fillV s i (w r) (List.replicate c 0))⟩ i (NDRes.two v) =
        some ⟨DType.int, SLGrid.g3 ((List.range n).map fun r =>
          fillV s (i + 1) (w r) (List.replicate c 0))⟩ := by
      unfold assignSL
      simp only
      rw [setCol3_fill n s c i w v hvlen hi hvc hvals]
      rfl
    rw [hassign]
    apply ih (i + 1) _ (by simp only [List.length_cons] at hsum; omega) (Or.inl rfl)
    intro j hj
    rcases hU (j + 1) (by simp only [List.length_cons]; omega) with
      ⟨f2, v2, hm2, hres2, hvlen2, hvc2, hvals2⟩
    rw [getE_cons_succ] at hm2
    have hshift : i + (j + 1) = i + 1 + j := by omega
    rw [hshift] at hres2 hvals2
    exact ⟨f2, v2, hm2, hres2, hvlen2, hvc2, hvals2⟩

theorem sl_transform_two (ests : List Est) (X : Arr3) (m : SLMethod) (n s c : Nat)
    (w : Nat → Nat → List ℚ)
    (hn : X.length = n) (hs : lastLen X = s) (hes : ests.length = s) (hs1 : 0 < s)
    (hn0 : 0 < n)
    (hU : ∀ j, j < s → ∃ f v, (getE ests j).methods m = some f ∧
      f (sliceAt X j) = NDRes.two v ∧ v.length = n ∧ (∀ x ∈ v, x.length = c) ∧
      ∀ r, r < n → (v.getD r []).map truncQ = w r j) :
    _sl_transform ests X m = Except.ok ⟨DType.int, SLGrid.g3 (gridC n w 0 s)⟩ := by
  unfold _sl_transform
  have hmain := slLoop_fill2 X m n s c w hn hs hn0 ests 0 none (by omega)
    (Or.inr ⟨rfl, rfl, by omega⟩)
    (fun j hj => by
      rcases hU j (by omega) with ⟨f, v, hm, hres, hvlen, hvc, hvals⟩
      exact ⟨f, v, hm, by simpa using hres, hvlen, hvc, by simpa using hvals⟩)
  rw [hmain]
  congr 3
  unfold gridC
  apply List.map_congr_left
  intro r _
  exact fillV_full s (w r) (List.replicate c 0)

theorem scLoop_fill1 (X : Arr3) (y : List ℚ) (s : Nat) (w : Nat → ℚ)
    (hs : lastLen X = s) :
    ∀ (rest : List Est) (i : Nat) (st : Option SLScoreOut),
      i + rest.length = s →
      (st = some ⟨DType.int, ScGrid.g1 (fillV s i w 0)⟩ ∨
        (i = 0 ∧ st = none ∧ 0 < rest.length)) →
      (∀ j, j < rest.length → ∃ q, (getE rest j).score (sliceAt X (i + j)) y = ScRes.scalar q ∧
        truncQ q = w (i + j)) →
      scLoop X y rest i st = Except.ok ⟨DType.int, ScGrid.g1 (fillV s s w 0)⟩ := by
  intro rest
  induction rest with
  | nil =>
    intro i st hsum hst hU
    rcases hst with hst | ⟨_, _, hpos⟩
    · subst hst
      simp only [List.length_nil, Nat.add_zero] at hsum
      subst hsum
      rfl
    · simp at hpos
  | cons est rest2 ih =>
    intro i st hsum hst hU
    rcases hU 0 (by simp) with ⟨q, hsc, hq⟩
    rw [getE_cons_zero] at hsc
    rw [Nat.add_zero] at hsc hq
    have hi : i < s := by
      simp only [List.length_cons] at hsum
      omega
    have hcur :
        (match st with
          | none => slScoreInit (ScRes.scalar q) (lastLen X)
          | some cc => cc) =
        ⟨DType.int, ScGrid.g1 (fillV s i w 0)⟩ := by
      rcases hst with hst | ⟨hi0, hst, _⟩
      · subst hst
        rfl
      · subst hst
        subst hi0
        show slScoreInit (ScRes.scalar q) (lastLen X) = _
        have hinit : slScoreInit (ScRes.scalar q) (lastLen X) =
            ⟨DType.int, ScGrid.g1 (List.replicate (lastLen X) 0)⟩ := rfl
        rw [hinit, hs, (fillV_zero s w 0).symm]
    simp only [scLoop, hsc, hcur]
    have hassign : assignSc ⟨DType.int, ScGrid.g1 (fillV s i w 0)⟩ i (ScRes.scalar q) =
        some ⟨DType.int, ScGrid.g1 (fillV s (i + 1) w 0)⟩ := by
      unfold assignSc
      simp only
      rw [castTo_int, hq, fillV_set s i w 0 hi]
    rw [hassign]
    apply ih (i + 1) _ (by simp only [List.length_cons] at hsum; omega) (Or.inl rfl)
    intro j hj
    rcases hU (j + 1) (by simp only [List.length_cons]; omega) with ⟨q2, hsc2, hq2⟩
    rw [getE_cons_succ] at hsc2
    have hshift : i + (j + 1) = i + 1 + j := by omega
    rw [hshift] at hsc2 hq2
    exact ⟨q2, hsc2, hq2⟩

theorem sl_score_scalar (ests : List Est) (X : Arr3) (y : List ℚ) (s : Nat) (w : Nat → ℚ)
    (hs : lastLen X = s) (hes : ests.length = s) (hs1 : 0 < s)
    (hU : ∀ j, j < s → ∃ q, (getE ests j).score (sliceAt X j) y = ScRes.scalar q ∧
      truncQ q = w j) :
    _sl_score ests X y = Except.ok ⟨DType.int, ScGrid.g1 (colsOf w 0 s)⟩ := by
  unfold _sl_score
  have hmain := scLoop_fill1 X y s w hs ests 0 none (by omega)
    (Or.inr ⟨rfl, rfl, by omega⟩)
    (fun j hj => by
      rcases hU j (by omega) with ⟨q, hsc, hq⟩
      exact ⟨q, by simpa using hsc, by simpa using hq⟩)
  rw [hmain, fillV_full]

theorem scLoop_fill2 (X : Arr3) (y : List ℚ) (s d : Nat) (w : Nat → List ℚ)
    (hs : lastLen X = s) :
    ∀ (rest : List Est) (i : Nat) (st : Option SLScoreOut),
      i + rest.length = s →
      (st = some ⟨DType.int, ScGrid.g2 (fillV s i w (List.replicate d 0))⟩ ∨
        (i = 0 ∧ st = none ∧ 0 < rest.length)) →
      (∀ j, j < rest.length → ∃ v, (getE rest j).score (sliceAt X (i + j)) y = ScRes.vec v ∧
        v.length = d ∧ v.map truncQ = w (i + j)) →
      scLoop X y rest i st =
        Except.ok ⟨DType.int, ScGrid.g2 (fillV s s w (List.replicate d 0))⟩ := by
  intro rest
  induction rest with
  | nil =>
    intro i st hsum hst hU
    rcases hst with hst | ⟨_, _, hpos⟩
    · subst hst
      simp only [List.length_nil, Nat.add_zero] at hsum
      subst hsum
      rfl
    · simp at hpos
  | cons est rest2 ih =>
    intro i st hsum hst hU
    rcases hU 0 (by simp) with ⟨v, hsc, hvlen, hv⟩
    rw [getE_cons_zero] at hsc
    rw [Nat.add_zero] at hsc hv
    have hi : i < s := by
      simp only [List.length_cons] at hsum
      omega
    have hcur :
        (match st with
          | none => slScoreInit (ScRes.vec v) (lastLen X)
          | some cc => cc) =
        ⟨DType.int, ScGrid.g2 (fillV s i w (List.replicate d 0))⟩ := by
      rcases hst with hst | ⟨hi0, hst, _⟩
      · subst hst
        rfl
      · subst hst
        subst hi0
        show slScoreInit (ScRes.vec v) (lastLen X) = _
        have hinit : slScoreInit (ScRes.vec v) (lastLen X) =
            ⟨DType.int, ScGrid.g2 (List.replicate (lastLen X)
              (List.replicate v.length 0))⟩ := rfl
        rw [hinit, hs, hvlen, (fillV_zero s w (List.replicate d 0)).symm]
    simp only [scLoop, hsc, hcur]
    have hassign : assignSc ⟨DType.int, ScGrid.g2 (fillV s i w (List.replicate d 0))⟩ i
        (ScRes.vec v) =
        some ⟨DType.int, ScGrid.g2 (fillV s (i + 1) w (List.replicate d 0))⟩ := by
      unfold assignSc
      simp only
      rw [if_pos (by
        rw [fillV_getD s i w (List.replicate d 0) i hi]
        simp [hvlen])]
      have : v.map (castTo DType.int) = w i := by
        rw [show (castTo DType.int) = truncQ from rfl]
        exact hv
      rw [this, fillV_set s i w (List.replicate d 0) hi]
    rw [hassign]
    apply ih (i + 1) _ (by simp only [List.length_cons] at hsum; omega) (Or.inl rfl)
    intro j hj
    rcases hU (j + 1) (by simp only [List.length_cons]; omega) with ⟨v2, hsc2, hvlen2, hv2⟩
    rw [getE_cons_succ] at hsc2
    have hshift : i + (j + 1) = i + 1 + j := by omega
    rw [hshift] at hsc2 hv2
    exact ⟨v2, hsc2, hvlen2, hv2⟩

theorem sl_score_vec (ests : List Est) (X : Arr3) (y : List ℚ) (s d : Nat) (w : Nat → List ℚ)
    (hs : lastLen X = s) (hes : ests.length = s) (hs1 : 0 < s)
    (hU : ∀ j, j < s → ∃ v, (getE ests j).score (sliceAt X j) y = ScRes.vec v ∧
      v.length = d ∧ v.map truncQ = w j) :
    _sl_score ests X y = Except.ok ⟨DType.int, ScGrid.g2 (colsOf w 0 s)⟩ := by
  unfold _sl_score
  have hmain := scLoop_fill2 X y s d w hs ests 0 none (by omega)
    (Or.inr ⟨rfl, rfl, by omega⟩)
    (fun j hj => by
      rcases hU j (by omega) with ⟨v, hsc, hvlen, hv⟩
      exact ⟨v, by simpa using hsc, hvlen, by simpa using hv⟩)
  rw [hmain, fillV_full]

theorem getD_append_left (l₁ l₂ : List α) (n : Nat) (d : α) (h : n < l₁.length) :
    (l₁ ++ l₂).getD n d = l₁.getD n d := by
  rw [getD_lt _ _ (by simp; omega), getD_lt _ _ h]
  exact List.getElem_append_left h

theorem getD_append_right (l₁ l₂ : List α) (n : Nat) (d : α) (h : l₁.length ≤ n) :
    (l₁ ++ l₂).getD n d = l₂.getD (n - l₁.length) d := by
  by_cases h2 : n < l₁.length + l₂.length
  · rw [getD_lt _ _ (by simp; omega), getD_lt _ _ (by omega)]
    exact List.getElem_append_right h
  · rw [getD_ge _ _ (by simp; omega), getD_ge _ _ (by omega)]

theorem flatten_getD_mul (ll : List (List α)) (s : Nat) (d : α)
    (hs : ∀ x ∈ ll, x.length = s) :
    ∀ (q t : Nat), q < ll.length → t < s →
      ll.flatten.getD (q * s + t) d = (ll.getD q []).getD t d := by
  induction ll with
  | nil =>
    intro q t hq ht
    simp at hq
  | cons x rest ih =>
    intro q t hq ht
    have hx : x.length = s := hs x (by simp)
    rcases q with _ | q2
    · simp only [List.flatten_cons, Nat.zero_mul, Nat.zero_add]
      rw [getD_append_left _ _ _ _ (by omega)]
      rfl
    · simp only [List.flatten_cons]
      rw [getD_append_right _ _ _ _ (by
        rw [hx]
        have : s ≤ (q2 + 1) * s := by
          calc s = 1 * s := by omega
          _ ≤ (q2 + 1) * s := Nat.mul_le_mul_right s (by omega)
        omega)]
      have harith : (q2 + 1) * s + t - x.length = q2 * s + t := by
        rw [hx, Nat.succ_mul]
        omega
      rw [harith]
      have := ih (fun z hz => hs z (by simp [hz])) q2 t (by simpa using hq) ht
      rw [this]
      rfl

theorem map_eq_range_getD (l : List α) (F : α → β) (d : α) :
    l.map F = (List.range l.length).map fun i => F (l.getD i d) := by
  apply List.ext_getElem
  · simp
  · intro i hi1 hi2
    simp only [List.getElem_map, List.getElem_range]
    rw [getD_lt _ _ (by simpa using hi1)]

theorem glStack_eq (X : Arr3) (n fC s : Nat) (hr : rect3 X fC s = true) (hne : X ≠ [])
    (hf : 0 < fC) (hn : X.length = n) (hs1 : 0 < s) :
    glStack X = (List.range (n * s)).map fun k => featRow X (k / s) (k % s) := by
  unfold glStack transposeMat
  have hch : chanLen X = fC := chanLen_rect hr hne
  have hT : transpose102 X = (List.range fC).map fun c => X.map fun r => r.getD c [] := by
    unfold transpose102
    rw [hch]
  have hhead : (((transpose102 X).map List.flatten).headD []).length = n * s := by
    rw [hT]
    rcases Nat.exists_eq_add_of_lt hf with ⟨f2, hf2⟩
    rw [show fC = f2 + 1 by omega]
    simp only [List.range_succ_eq_map, List.map_cons, List.headD_cons]
    rw [List.length_flatten]
    have hmap : (X.map fun r => r.getD 0 []).map List.length = List.replicate n s := by
      rw [List.map_map]
      rw [replicate_eq_range_map, map_eq_range_getD X _ [], hn]
      apply List.map_congr_left
      intro r hrr
      simp only [List.mem_range] at hrr
      simp only [Function.comp]
      have hrow : (X.getD r []).length = fC := rect3_row_length hr (by omega)
      have : ((X.getD r []).getD 0 []).length = s := rect3_cell_length hr (by omega) (by omega)
      exact this
    rw [hmap, List.sum_replicate, smul_eq_mul]
  rw [hhead]
  apply List.map_congr_left
  intro k hk
  simp only [List.mem_range] at hk
  have hq : k / s < n := by
    refine Nat.div_lt_of_lt_mul ?_
    rwa [Nat.mul_comm] at hk
  have ht : k % s < s := Nat.mod_lt _ hs1
  rw [hT, List.map_map, List.map_map]
  unfold featRow
  have hrowlen : (X.getD (k / s) []).length = fC := rect3_row_length hr (by omega)
  rw [map_eq_range_getD (X.getD (k / s) []) _ [], hrowlen]
  apply List.map_congr_left
  intro c hc
  simp only [List.mem_range] at hc
  simp only [Function.comp]
  have hlens : ∀ x ∈ X.map fun r => r.getD c [], x.length = s := by
    intro x hx
    rcases List.mem_map.mp hx with ⟨row, hrow, hEq⟩
    subst hEq
    rcases List.mem_iff_getElem.mp hrow with ⟨r, hr2, hEq2⟩
    subst hEq2
    have h1 : (X.getD r []).length = fC := rect3_row_length hr hr2
    have := rect3_cell_length hr (r := r) (c := c) hr2 (by omega)
    rw [getD_lt _ _ hr2] at this
    exact this
  have hflat := flatten_getD_mul (X.map fun r => r.getD c []) s 0 hlens (k / s) (k % s)
    (by simpa [hn] using hq) ht
  have hk2 : k / s * s + k % s = k := Nat.div_add_mod' k s
  rw [hk2] at hflat
  rw [hflat]
  have : (X.map fun r => r.getD c []).getD (k / s) [] = (X.getD (k / s) []).getD c [] := by
    rw [getD_lt (X.map fun r => r.getD c []) [] (by simpa [hn] using hq), List.getElem_map,
      getD_lt X [] (by omega)]
  rw [this]

theorem chunkRows_range_map (h : Nat → γ) (n s : Nat) :
    chunkRows s n ((List.range (n * s)).map h) = grid2 n s fun r t => h (r * s + t) := by
  unfold chunkRows grid2
  apply List.map_congr_left
  intro r hr
  simp only [List.mem_range] at hr
  have hle : r * s + s ≤ n * s := by
    have := Nat.mul_le_mul_right s (show r + 1 ≤ n by omega)
    simpa [Nat.succ_mul] using this
  apply List.ext_getElem
  · simp only [List.length_take, List.length_drop, List.length_map, List.length_range]
    omega
  · intro t ht1 ht2
    rw [List.getElem_take, List.getElem_drop, List.getElem_map, List.getElem_range]
    simp only [List.getElem_map, List.getElem_range]

theorem gl_apply_est_one_eq (f : Mat → NDRes) (X : Arr3) (v : List ℚ)
    (hv : f (glStack X) = NDRes.one v) (hlen : v.length = X.length * lastLen X) :
    _gl_apply_est f X = Except.ok (ReshRes.r2 (chunkRows (lastLen X) X.length v)) := by
  unfold _gl_apply_est
  rw [hv]
  exact if_pos hlen

theorem gl_apply_est_two_eq (f : Mat → NDRes) (X : Arr3) (v : List (List ℚ))
    (hv : f (glStack X) = NDRes.two v) (hlen : v.length = X.length * lastLen X) :
    _gl_apply_est f X = Except.ok (ReshRes.r3 (chunkRows (lastLen X) X.length v)) := by
  unfold _gl_apply_est
  rw [hv]
  exact if_pos hlen

theorem gl_apply_one (f : Mat → NDRes) (g : List ℚ → ℚ) (X : Arr3) (n fC s : Nat)
    (hrw : RowWise1 f g) (hr : rect3 X fC s = true) (hne : X ≠ []) (hf : 0 < fC)
    (hn : X.length = n) (hs : lastLen X = s) (hs1 : 0 < s) :
    _gl_apply_est f X = Except.ok (ReshRes.r2 (grid2 n s fun r t => g (featRow X r t))) := by
  have hst := glStack_eq X n fC s hr hne hf hn hs1
  have hlen : ((glStack X).map g).length = X.length * lastLen X := by
    rw [hst]
    simp [hn, hs]
  rw [gl_apply_est_one_eq f X _ (hrw (glStack X)) hlen]
  congr 1
  rw [hst, List.map_map, hn, hs, chunkRows_range_map]
  unfold grid2
  congr 1
  apply List.map_congr_left
  intro r hrr
  simp only [List.mem_range] at hrr
  apply List.map_congr_left
  intro t htt
  simp only [List.mem_range] at htt
  simp only [Function.comp]
  have h1 : (r * s + t) / s = r := by
    rw [Nat.mul_comm r s, Nat.mul_add_div (by omega), Nat.div_eq_of_lt htt]
    omega
  have h2 : (r * s + t) % s = t := by
    rw [Nat.mul_comm r s, Nat.mul_add_mod, Nat.mod_eq_of_lt htt]
  rw [h1, h2]

theorem gl_apply_two (f : Mat → NDRes) (g : List ℚ → List ℚ) (X : Arr3) (n fC s : Nat)
    (hrw : RowWise2 f g) (hr : rect3 X fC s = true) (hne : X ≠ []) (hf : 0 < fC)
    (hn : X.length = n) (hs : lastLen X = s) (hs1 : 0 < s) :
    _gl_apply_est f X = Except.ok (ReshRes.r3 (grid2 n s fun r t => g (featRow X r t))) := by
  have hst := glStack_eq X n fC s hr hne hf hn hs1
  have hlen : ((glStack X).map g).length = X.length * lastLen X := by
    rw [hst]
    simp [hn, hs]
  rw [gl_apply_est_two_eq f X _ (hrw (glStack X)) hlen]
  congr 1
  rw [hst, List.map_map, hn, hs, chunkRows_range_map]
  unfold grid2
  congr 1
  apply List.map_congr_left
  intro r hrr
  simp only [List.mem_range] at hrr
  apply List.map_congr_left
  intro t htt
  simp only [List.mem_range] at htt
  simp only [Function.comp]
  have h1 : (r * s + t) / s = r := by
    rw [Nat.mul_comm r s, Nat.mul_add_div (by omega), Nat.div_eq_of_lt htt]
    omega
  have h2 : (r * s + t) % s = t := by
    rw [Nat.mul_comm r s, Nat.mul_add_mod, Nat.mod_eq_of_lt htt]
  rw [h1, h2]

theorem setBlock_fill {γ : Type} (n e i : Nat) (w : Nat → Nat → γ) (z : γ) (v : List γ) (d : γ)
    (hv : v.length = n) (hi : i < e)
    (hval : ∀ r, r < n → v.getD r d = w r i) :
    List.zipWith (fun row blk => row.set i blk) ((List.range n).map fun r => fillV e i (w r) z) v =
      (List.range n).map fun r => fillV e (i + 1) (w r) z := by
  rw [zipWith_map_range _ _ _ n (by simpa using hv) d]
  apply List.map_congr_left
  intro r hr
  simp only [List.mem_range] at hr
  rw [hval r hr]
  exact fillV_set e i (w r) z hi

theorem blockCond_fill {δ : Type} (n e i : Nat) (w : Nat → Nat → List δ) (z : List δ) (s : Nat)
    (hz : z.length = s) (v : List (List δ)) (hi : i < e) (hvs : ∀ x ∈ v, x.length = s) :
    ((((List.range n).map fun r => fillV e i (w r) z).zip v).all
      fun p => p.2.length == (p.1.getD i []).length) = true := by
  rw [List.all_eq_true]
  intro p hp
  rcases p with ⟨pg, pv⟩
  have hmem := List.mem_zip hp
  rcases List.mem_map.mp hmem.1 with ⟨r, hr, hEq⟩
  subst hEq
  simp only [List.mem_range] at hr
  rw [fillV_getD e i (w r) z i hi]
  simp only [Nat.lt_irrefl, if_false, hz]
  simpa using hvs pv hmem.2

theorem glLoop_fill2 (X : Arr3) (m : SLMethod) (n s e : Nat) (w : Nat → Nat → List ℚ)
    (hn : X.length = n) (hs : lastLen X = s) :
    ∀ (rest : List Est) (i : Nat) (st : Option GLGrid),
      i + rest.length = e →
      (st = some (GLGrid.g3 ((List.range n).map fun r => fillV e i (w r) (List.replicate s 0))) ∨
        (i = 0 ∧ st = none ∧ 0 < rest.length)) →
      (∀ j, j < rest.length → ∃ f blk, (getE rest j).methods m = some f ∧
        _gl_apply_est f X = Except.ok (ReshRes.r2 blk) ∧ blk.length = n ∧
        (∀ x ∈ blk, x.length = s) ∧ ∀ r, r < n → blk.getD r [] = w r (i + j)) →
      glLoop X m e rest i st =
        Except.ok (GLGrid.g3 ((List.range n).map fun r =>
          fillV e e (w r) (List.replicate s 0))) := by
  intro rest
  induction rest with
  | nil =>
    intro i st hsum hst hU
    rcases hst with hst | ⟨_, _, hpos⟩
    · subst hst
      simp only [List.length_nil, Nat.add_zero] at hsum
      subst hsum
      rfl
    · simp at hpos
  | cons est rest2 ih =>
    intro i st hsum hst hU
    rcases hU 0 (by simp) with ⟨f, blk, hm, happ, hblen, hbs, hvals⟩
    rw [getE_cons_zero] at hm
    rw [Nat.add_zero] at hvals
    have hi : i < e := by
      simp only [List.length_cons] at hsum
      omega
    have hassign : assignGL
        (GLGrid.g3 ((List.range n).map fun r => fillV e i (w r) (List.replicate s 0))) i
        (ReshRes.r2 blk) =
        some (GLGrid.g3 ((List.range n).map fun r =>
          fillV e (i + 1) (w r) (List.replicate s 0))) := by
      unfold assignGL
      simp only
      rw [if_pos ⟨by simp [hblen], blockCond_fill n e i w (List.replicate s 0) s
        (by simp) blk hi hbs⟩]
      rw [setBlock_fill n e i w (List.replicate s 0) blk [] hblen hi hvals]
    have htail := ih (i + 1)
      (some (GLGrid.g3 ((List.range n).map fun r =>
        fillV e (i + 1) (w r) (List.replicate s 0))))
      (by simp only [List.length_cons] at hsum; omega) (Or.inl rfl)
      (fun j hj => by
        rcases hU (j + 1) (by simp only [List.length_cons]; omega) with
          ⟨f2, blk2, hm2, happ2, hblen2, hbs2, hvals2⟩
        rw [getE_cons_succ] at hm2
        have hshift : i + (j + 1) = i + 1 + j := by omega
        rw [hshift] at hvals2
        exact ⟨f2, blk2, hm2, happ2, hblen2, hbs2, hvals2⟩)
    rcases hst with hst | ⟨hi0, hst, _⟩
    · subst hst
      simp only [glLoop, hm, happ, hassign]
      exact htail
    · subst hst
      subst hi0
      have hinit : _gl_init_pred (ReshRes.r2 blk) X e =
          GLGrid.g3 ((List.range n).map fun r => fillV e 0 (w r) (List.replicate s 0)) := by
        have hinit0 : _gl_init_pred (ReshRes.r2 blk) X e =
            GLGrid.g3 (List.replicate X.length (List.replicate e
              (List.replicate (lastLen X) 0))) := rfl
        rw [hinit0, hn, hs]
        congr 1
        rw [replicate_eq_range_map]
        apply List.map_congr_left
        intro r _
        exact (fillV_zero e (w r) (List.replicate s 0)).symm
      simp only [glLoop, hm, happ, hinit, hassign]
      exact htail

theorem gl_transform_two (ests : List Est) (X : Arr3) (m : SLMethod) (n s e : Nat)
    (w : Nat → Nat → List ℚ)
    (hn : X.length = n) (hs : lastLen X = s) (he : ests.length = e) (he1 : 0 < e)
    (hU : ∀ j, j < e → ∃ f blk, (getE ests j).methods m = some f ∧
      _gl_apply_est f X = Except.ok (ReshRes.r2 blk) ∧ blk.length = n ∧
      (∀ x ∈ blk, x.length = s) ∧ ∀ r, r < n → blk.getD r [] = w r j) :
    _gl_transform ests X m =
      Except.ok (GLGrid.g3 ((List.range n).map fun r => colsOf (w r) 0 e)) := by
  unfold _gl_transform
  rw [he]
  have hmain := glLoop_fill2 X m n s e w hn hs ests 0 none (by omega)
    (Or.inr ⟨rfl, rfl, by omega⟩)
    (fun j hj => by
      rcases hU j (by omega) with ⟨f, blk, hm, happ, hblen, hbs, hvals⟩
      exact ⟨f, blk, hm, happ, hblen, hbs, by simpa using hvals⟩)
  rw [hmain]
  congr 2
  apply List.map_congr_left
  intro r _
  exact fillV_full e (w r) (List.replicate s 0)

theorem glLoop_fill3 (X : Arr3) (m : SLMethod) (n s c e : Nat) (w : Nat → Nat → List (List ℚ))
    (hn : X.length = n) (hs : lastLen X = s) (hn0 : 0 < n) (hs0 : 0 < s) :
    ∀ (rest : List Est) (i : Nat) (st : Option GLGrid),
      i + rest.length = e →
      (st = some (GLGrid.g4 ((List.range n).map fun r =>
          fillV e i (w r) (List.replicate s (List.replicate c 0)))) ∨
        (i = 0 ∧ st = none ∧ 0 < rest.length)) →
      (∀ j, j < rest.length → ∃ f blk, (getE rest j).methods m = some f ∧
        _gl_apply_est f X = Except.ok (ReshRes.r3 blk) ∧ blk.length = n ∧
        (∀ x ∈ blk, x.length = s ∧ ∀ y ∈ x, y.length = c) ∧
        ∀ r, r < n → blk.getD r [] = w r (i + j)) →
      glLoop X m e rest i st =
        Except.ok (GLGrid.g4 ((List.range n).map fun r =>
          fillV e e (w r) (List.replicate s (List.replicate c 0)))) := by
  intro rest
  induction rest with
  | nil =>
    intro i st hsum hst hU
    rcases hst with hst | ⟨_, _, hpos⟩
    · subst hst
      simp only [List.length_nil, Nat.add_zero] at hsum
      subst hsum
      rfl
    · simp at hpos
  | cons est rest2 ih =>
    intro i st hsum hst hU
    rcases hU 0 (by simp) with ⟨f, blk, hm, happ, hblen, hbs, hvals⟩
    rw [getE_cons_zero] at hm
    rw [Nat.add_zero] at hvals
    have hi : i < e := by
      simp only [List.length_cons] at hsum
      omega
    have hassign : assignGL
        (GLGrid.g4 ((List.range n).map fun r =>
          fillV e i (w r) (List.replicate s (List.replicate c 0)))) i
        (ReshRes.r3 blk) =
        some (GLGrid.g4 ((List.range n).map fun r =>
          fillV e (i + 1) (w r) (List.replicate s (List.replicate c 0)))) := by
      unfold assignGL
      simp only
      rw [if_pos ⟨by simp [hblen], blockCond_fill n e i w
        (List.replicate s (List.replicate c 0)) s (by simp) blk hi
        (fun x hx => (hbs x hx).1)⟩]
      rw [setBlock_fill n e i w (List.replicate s (List.replicate c 0)) blk [] hblen hi hvals]
    have htail := ih (i + 1)
      (some (GLGrid.g4 ((List.range n).map fun r =>
        fillV e (i + 1) (w r) (List.replicate s (List.replicate c 0)))))
      (by simp only [List.length_cons] at hsum; omega) (Or.inl rfl)
      (fun j hj => by
        rcases hU (j + 1) (by simp only [List.length_cons]; omega) with
          ⟨f2, blk2, hm2, happ2, hblen2, hbs2, hvals2⟩
        rw [getE_cons_succ] at hm2
        have hshift : i + (j + 1) = i + 1 + j := by omega
        rw [hshift] at hvals2
        exact ⟨f2, blk2, hm2, happ2, hblen2, hbs2, hvals2⟩)
    rcases hst with hst | ⟨hi0, hst, _⟩
    · subst hst
      simp only [glLoop, hm, happ, hassign]
      exact htail
    · subst hst
      subst hi0
      have hwidth : ((blk.headD []).headD []).length = c := by
        rcases blk with _ | ⟨b0, br⟩
        · simp at hblen
          omega
        · have hb0 := hbs b0 (by simp)
          rcases b0 with _ | ⟨b00, b0r⟩
          · simp at hb0
            omega
          · exact hb0.2 b00 (by simp)
      have hinit : _gl_init_pred (ReshRes.r3 blk) X e =
          GLGrid.g4 ((List.range n).map fun r =>
            fillV e 0 (w r) (List.replicate s (List.replicate c 0))) := by
        have hinit0 : _gl_init_pred (ReshRes.r3 blk) X e =
            GLGrid.g4 (List.replicate X.length (List.replicate e
              (List.replicate (lastLen X)
                (List.replicate ((blk.headD []).headD []).length 0)))) := rfl
        rw [hinit0, hn, hs, hwidth]
        congr 1
        rw [replicate_eq_range_map]
        apply List.map_congr_left
        intro r _
        exact (fillV_zero e (w r) (List.replicate s (List.replicate c 0))).symm
      simp only [glLoop, hm, happ, hinit, hassign]
      exact htail

theorem gl_transform_three (ests : List Est) (X : Arr3) (m : SLMethod) (n s c e : Nat)
    (w : Nat → Nat → List (List ℚ))
    (hn : X.length = n) (hs : lastLen X = s) (he : ests.length = e) (he1 : 0 < e)
    (hn0 : 0 < n) (hs0 : 0 < s)
    (hU : ∀ j, j < e → ∃ f blk, (getE ests j).methods m = some f ∧
      _gl_apply_est f X = Except.ok (ReshRes.r3 blk) ∧ blk.length = n ∧
      (∀ x ∈ blk, x.length = s ∧ ∀ y ∈ x, y.length = c) ∧
      ∀ r, r < n → blk.getD r [] = w r j) :
    _gl_transform ests X m =
      Except.ok (GLGrid.g4 ((List.range n).map fun r => colsOf (w r) 0 e)) := by
  unfold _gl_transform
  rw [he]
  have hmain := glLoop_fill3 X m n s c e w hn hs hn0 hs0 ests 0 none (by omega)
    (Or.inr ⟨rfl, rfl, by omega⟩)
    (fun j hj => by
      rcases hU j (by omega) with ⟨f, blk, hm, happ, hblen, hbs, hvals⟩
      exact ⟨f, blk, hm, happ, hblen, hbs, by simpa using hvals⟩)
  rw [hmain]
  congr 2
  apply List.map_congr_left
  intro r _
  exact fillV_full e (w r) (List.replicate s (List.replicate c 0))

theorem set_range_map (e ii : Nat) (F : Nat → γ) (G : γ) (hi : ii < e) :
    ((List.range e).map F).set ii G = (List.range e).map fun i2 => if i2 = ii then G else F i2 := by
  apply List.ext_getElem
  · simp
  · intro j hj1 hj2
    rw [List.getElem_set]
    simp only [List.getElem_map, List.getElem_range]
    by_cases hij : ii = j
    · subst hij
      simp
    · have : ¬ (j = ii) := fun hh => hij hh.symm
      simp [hij, this]

theorem glScRowState_zero (e s : Nat) (v : Nat → Nat → γ) (z : γ) :
    glScRowState e s 0 0 v z = List.replicate e (List.replicate s z) := by
  rw [replicate_eq_range_map]
  unfold glScRowState
  apply List.map_congr_left
  intro i2 _
  by_cases h0 : i2 = 0
  · subst h0
    simp [fillV_zero]
  · simp [h0]

theorem glScRowState_getD (e s ii jj : Nat) (v : Nat → Nat → γ) (z : γ) (hi : ii < e) :
    (glScRowState e s ii jj v z).getD ii [] = fillV s jj (v ii) z := by
  unfold glScRowState
  rw [getD_lt _ _ (by simpa using hi)]
  simp

theorem glScRowState_step (e s ii jj : Nat) (v : Nat → Nat → γ) (z : γ) (hi : ii < e) :
    (glScRowState e s ii jj v z).set ii (fillV s (jj + 1) (v ii) z) =
      glScRowState e s ii (jj + 1) v z := by
  unfold glScRowState
  rw [set_range_map e ii _ _ hi]
  apply List.map_congr_left
  intro i2 _
  by_cases h1 : i2 = ii
  · subst h1
    simp
  · simp [h1]

theorem glScRowState_advance (e s ii : Nat) (v : Nat → Nat → γ) (z : γ) :
    glScRowState e s ii s v z = glScRowState e s (ii + 1) 0 v z := by
  unfold glScRowState
  apply List.map_congr_left
  intro i2 _
  by_cases h1 : i2 < ii
  · simp [h1, show i2 < ii + 1 by omega]
  · by_cases h2 : i2 = ii
    · subst h2
      simp [h1, fillV_full]
    · have h3 : ¬ (i2 < ii + 1) := by omega
      simp [h1, h2, h3, fillV_zero]

theorem glScRowState_full (e s : Nat) (v : Nat → Nat → γ) (z : γ) :
    glScRowState e s e 0 v z = gridC e v 0 s := by
  unfold glScRowState gridC
  apply List.map_congr_left
  intro i2 h2
  simp only [List.mem_range] at h2
  simp [h2]

theorem range'_cons (jj mm : Nat) : List.range' jj (mm + 1) = jj :: List.range' (jj + 1) mm := by
  rfl

theorem glScInner_fill_scalar (X : Arr3) (y : List ℚ) (est : Est) (ii e s : Nat)
    (v : Nat → Nat → ℚ)
    (hsc : ∀ j, j < s → ∃ q, est.score (sliceAt X j) y = ScRes.scalar q ∧ q = v ii j)
    (hi : ii < e) (hs : lastLen X = s) :
    ∀ (mm jj : Nat) (st : Option GLScoreOut),
      jj + mm = s →
      (st = some ⟨DType.float, GLScGrid.g2 (glScRowState e s ii jj v 0)⟩ ∨
        (ii = 0 ∧ jj = 0 ∧ st = none ∧ 0 < mm)) →
      glScInner X y est ii e s (List.range' jj mm) st =
        Except.ok (some ⟨DType.float, GLScGrid.g2 (glScRowState e s ii s v 0)⟩) := by
  intro mm
  induction mm with
  | zero =>
    intro jj st hsum hst
    rcases hst with hst | ⟨_, _, _, hpos⟩
    · subst hst
      have : jj = s := by omega
      subst this
      rfl
    · omega
  | succ mm2 ih =>
    intro jj st hsum hst
    rcases hsc jj (by omega) with ⟨q, hq, hqv⟩
    have hjj : jj < s := by omega
    have hassign : assignGLSc ⟨DType.float, GLScGrid.g2 (glScRowState e s ii jj v 0)⟩ ii jj
        (ScRes.scalar q) =
        some ⟨DType.float, GLScGrid.g2 (glScRowState e s ii (jj + 1) v 0)⟩ := by
      unfold assignGLSc
      simp only
      rw [glScRowState_getD e s ii jj v 0 hi, castTo_float, hqv,
        fillV_set s jj (v ii) 0 hjj, glScRowState_step e s ii jj v 0 hi]
    have htail := ih (jj + 1)
      (some ⟨DType.float, GLScGrid.g2 (glScRowState e s ii (jj + 1) v 0)⟩)
      (by omega) (Or.inl rfl)
    rw [range'_cons]
    rcases hst with hst | ⟨hii0, hjj0, hst, _⟩
    · subst hst
      simp only [glScInner, hq, hassign]
      exact htail
    · subst hst
      subst hii0
      subst hjj0
      have hinit : glScoreInit (ScRes.scalar q) e s =
          ⟨DType.float, GLScGrid.g2 (glScRowState e s 0 0 v 0)⟩ := by
        unfold glScoreInit
        rw [glScRowState_zero]
      simp only [glScInner, hq, hinit, hassign]
      exact htail

theorem glScOuter_fill_scalar (X : Arr3) (y : List ℚ) (e s : Nat) (v : Nat → Nat → ℚ)
    (hs : lastLen X = s) (hs0 : 0 < s) :
    ∀ (rest : List Est) (ii : Nat) (st : Option GLScoreOut),
      ii + rest.length = e →
      (st = some ⟨DType.float, GLScGrid.g2 (glScRowState e s ii 0 v 0)⟩ ∨
        (ii = 0 ∧ st = none ∧ 0 < rest.length)) →
      (∀ j2, j2 < rest.length → ∀ j, j < s →
        ∃ q, (getE rest j2).score (sliceAt X j) y = ScRes.scalar q ∧ q = v (ii + j2) j) →
      glScOuter X y e s rest ii st =
        Except.ok ⟨DType.float, GLScGrid.g2 (glScRowState e s e 0 v 0)⟩ := by
  intro rest
  induction rest with
  | nil =>
    intro ii st hsum hst hU
    rcases hst with hst | ⟨_, _, hpos⟩
    · subst hst
      simp only [List.length_nil, Nat.add_zero] at hsum
      subst hsum
      rfl
    · simp at hpos
  | cons est rest2 ih =>
    intro ii st hsum hst hU
    have hi : ii < e := by
      simp only [List.length_cons] at hsum
      omega
    have hinner := glScInner_fill_scalar X y est ii e s v
      (fun j hj => by
        rcases hU 0 (by simp) j hj with ⟨q, hq, hqv⟩
        rw [getE_cons_zero] at hq
        exact ⟨q, hq, by simpa using hqv⟩)
      hi hs s 0
    have hrange : List.range s = List.range' 0 s := by
      rw [List.range_eq_range']
    have hstep : glScInner X y est ii e s (List.range s) st =
        Except.ok (some ⟨DType.float, GLScGrid.g2 (glScRowState e s ii s v 0)⟩) := by
      rw [hrange]
      apply hinner st (by omega)
      rcases hst with hst | ⟨hii0, hst, _⟩
      · exact Or.inl hst
      · exact Or.inr ⟨hii0, rfl, hst, by omega⟩
    simp only [glScOuter, hstep]
    rw [glScRowState_advance]
    apply ih (ii + 1) _ (by simp only [List.length_cons] at hsum; omega) (Or.inl rfl)
    intro j2 hj2 j hj
    rcases hU (j2 + 1) (by simp only [List.length_cons]; omega) j hj with ⟨q, hq, hqv⟩
    rw [getE_cons_succ] at hq
    have hshift : ii + (j2 + 1) = ii + 1 + j2 := by omega
    rw [hshift] at hqv
    exact ⟨q, hq, hqv⟩

theorem gl_score_scalar (ests : List Est) (X : Arr3) (y : List ℚ) (e s : Nat)
    (v : Nat → Nat → ℚ)
    (hs : lastLen X = s) (he : ests.length = e) (he1 : 0 < e) (hs0 : 0 < s)
    (hU : ∀ i, i < e → ∀ j, j < s →
      ∃ q, (getE ests i).score (sliceAt X j) y = ScRes.scalar q ∧ q = v i j) :
    _gl_score ests X y = Except.ok ⟨DType.float, GLScGrid.g2 (gridC e v 0 s)⟩ := by
  unfold _gl_score
  rw [he, hs]
  have hmain := glScOuter_fill_scalar X y e s v hs hs0 ests 0 none (by omega)
    (Or.inr ⟨rfl, rfl, by omega⟩)
    (fun j2 hj2 j hj => by
      rcases hU j2 (by omega) j hj with ⟨q, hq, hqv⟩
      exact ⟨q, hq, by simpa using hqv⟩)
  rw [hmain, glScRowState_full]

theorem glScInner_fill_vec (X : Arr3) (y : List ℚ) (est : Est) (ii e s d : Nat)
    (v : Nat → Nat → List ℚ)
    (hsc : ∀ j, j < s → ∃ u, est.score (sliceAt X j) y = ScRes.vec u ∧ u.length = d ∧
      u.map truncQ = v ii j)
    (hi : ii < e) (hs : lastLen X = s) :
    ∀ (mm jj : Nat) (st : Option GLScoreOut),
      jj + mm = s →
      (st = some ⟨DType.int, GLScGrid.g3 (glScRowState e s ii jj v (List.replicate d 0))⟩ ∨
        (ii = 0 ∧ jj = 0 ∧ st = none ∧ 0 < mm)) →
      glScInner X y est ii e s (List.range' jj mm) st =
        Except.ok (some ⟨DType.int, GLScGrid.g3 (glScRowState e s ii s v (List.replicate d 0))⟩) := by
  intro mm
  induction mm with
  | zero =>
    intro jj st hsum hst
    rcases hst with hst | ⟨_, _, _, hpos⟩
    · subst hst
      have : jj = s := by omega
      subst this
      rfl
    · omega
  | succ mm2 ih =>
    intro jj st hsum hst
    rcases hsc jj (by omega) with ⟨u, hq, hulen, hqv⟩
    have hjj : jj < s := by omega
    have hassign : assignGLSc
        ⟨DType.int, GLScGrid.g3 (glScRowState e s ii jj v (List.replicate d 0))⟩ ii jj
        (ScRes.vec u) =
        some ⟨DType.int, GLScGrid.g3 (glScRowState e s ii (jj + 1) v (List.replicate d 0))⟩ := by
      unfold assignGLSc
      simp only
      rw [glScRowState_getD e s ii jj v (List.replicate d 0) hi]
      rw [if_pos (by
        rw [fillV_getD s jj (v ii) (List.replicate d 0) jj hjj]
        simp [hulen])]
      have hmap : u.map (castTo DType.int) = v ii jj := by
        rw [show (castTo DType.int) = truncQ from rfl]
        exact hqv
      rw [hmap, fillV_set s jj (v ii) (List.replicate d 0) hjj,
        glScRowState_step e s ii jj v (List.replicate d 0) hi]
    have htail := ih (jj + 1)
      (some ⟨DType.int, GLScGrid.g3 (glScRowState e s ii (jj + 1) v (List.replicate d 0))⟩)
      (by omega) (Or.inl rfl)
    rw [range'_cons]
    rcases hst with hst | ⟨hii0, hjj0, hst, _⟩
    · subst hst
      simp only [glScInner, hq, hassign]
      exact htail
    · subst hst
      subst hii0
      subst hjj0
      have hinit : glScoreInit (ScRes.vec u) e s =
          ⟨DType.int, GLScGrid.g3 (glScRowState e s 0 0 v (List.replicate d 0))⟩ := by
        rw [glScRowState_zero]
        show glScoreInit (ScRes.vec u) e s =
          ⟨DType.int, GLScGrid.g3 (List.replicate e (List.replicate s (List.replicate d 0)))⟩
        rw [← hulen]
        rfl
      simp only [glScInner, hq, hinit, hassign]
      exact htail

theorem glScOuter_fill_vec (X : Arr3) (y : List ℚ) (e s d : Nat) (v : Nat → Nat → List ℚ)
    (hs : lastLen X = s) (hs0 : 0 < s) :
    ∀ (rest : List Est) (ii : Nat) (st : Option GLScoreOut),
      ii + rest.length = e →
      (st = some ⟨DType.int, GLScGrid.g3 (glScRowState e s ii 0 v (List.replicate d 0))⟩ ∨
        (ii = 0 ∧ st = none ∧ 0 < rest.length)) →
      (∀ j2, j2 < rest.length → ∀ j, j < s →
        ∃ u, (getE rest j2).score (sliceAt X j) y = ScRes.vec u ∧ u.length = d ∧
          u.map truncQ = v (ii + j2) j) →
      glScOuter X y e s rest ii st =
        Except.ok ⟨DType.int, GLScGrid.g3 (glScRowState e s e 0 v (List.replicate d 0))⟩ := by
  intro rest
  induction rest with
  | nil =>
    intro ii st hsum hst hU
    rcases hst with hst | ⟨_, _, hpos⟩
    · subst hst
      simp only [List.length_nil, Nat.add_zero] at hsum
      subst hsum
      rfl
    · simp at hpos
  | cons est rest2 ih =>
    intro ii st hsum hst hU
    have hi : ii < e := by
      simp only [List.length_cons] at hsum
      omega
    have hinner := glScInner_fill_vec X y est ii e s d v
      (fun j hj => by
        rcases hU 0 (by simp) j hj with ⟨u, hq, hulen, hqv⟩
        rw [getE_cons_zero] at hq
        exact ⟨u, hq, hulen, by simpa using hqv⟩)
      hi hs s 0
    have hrange : List.range s = List.range' 0 s := by
      rw [List.range_eq_range']
    have hstep : glScInner X y est ii e s (List.range s) st =
        Except.ok (some ⟨DType.int, GLScGrid.g3
          (glScRowState e s ii s v (List.replicate d 0))⟩) := by
      rw [hrange]
      apply hinner st (by omega)
      rcases hst with hst | ⟨hii0, hst, _⟩
      · exact Or.inl hst
      · exact Or.inr ⟨hii0, rfl, hst, by omega⟩
    simp only [glScOuter, hstep]
    rw [glScRowState_advance]
    apply ih (ii + 1) _ (by simp only [List.length_cons] at hsum; omega) (Or.inl rfl)
    intro j2 hj2 j hj
    rcases hU (j2 + 1) (by simp only [List.length_cons]; omega) j hj with ⟨u, hq, hulen, hqv⟩
    rw [getE_cons_succ] at hq
    have hshift : ii + (j2 + 1) = ii + 1 + j2 := by omega
    rw [hshift] at hqv
    exact ⟨u, hq, hulen, hqv⟩

theorem gl_score_vec (ests : List Est) (X : Arr3) (y : List ℚ) (e s d : Nat)
    (v : Nat → Nat → List ℚ)
    (hs : lastLen X = s) (he : ests.length = e) (he1 : 0 < e) (hs0 : 0 < s)
    (hU : ∀ i, i < e → ∀ j, j < s →
      ∃ u, (getE ests i).score (sliceAt X j) y = ScRes.vec u ∧ u.length = d ∧
        u.map truncQ = v i j) :
    _gl_score ests X y = Except.ok ⟨DType.int, GLScGrid.g3 (gridC e v 0 s)⟩ := by
  unfold _gl_score
  rw [he, hs]
  have hmain := glScOuter_fill_vec X y e s d v hs hs0 ests 0 none (by omega)
    (Or.inr ⟨rfl, rfl, by omega⟩)
    (fun j2 hj2 j hj => by
      rcases hU j2 (by omega) j hj with ⟨u, hq, hulen, hqv⟩
      exact ⟨u, hq, hulen, by simpa using hqv⟩)
  rw [hmain, glScRowState_full]

theorem specsOf_mem_size (szs : List Nat) :
    ∀ (o : Nat), ∀ p ∈ specsOf o szs, p.2 ∈ szs := by
  induction szs with
  | nil =>
    intro o p hp
    cases hp
  | cons sz rest ih =>
    intro o p hp
    cases hp with
    | head => simp
    | tail _ hmem =>
      have := ih (o + sz) p hmem
      simp [this]

theorem splitSizes_one (L : Nat) : splitSizes L 1 = [L] := by
  simp [splitSizes, Nat.mod_one, Nat.div_one]

theorem chunkLast_full {X : Arr3} {fC s : Nat} (hr : rect3 X fC s = true) :
    chunkLast X 0 s = X := by
  unfold chunkLast
  have : ∀ r ∈ X, (fun rr => rr.map fun c => (c.drop 0).take s) r = r := by
    intro r hrr
    simp only
    have h1 := (rect3_iff.mp hr) r hrr
    have : ∀ c ∈ r, (fun cc => (cc.drop 0).take s) c = c := by
      intro c hc
      simp only [List.drop_zero]
      have hcl : c.length = s := h1.2 c hc
      rw [← hcl, List.take_length]
    calc r.map (fun c => (c.drop 0).take s) = r.map id := List.map_congr_left (by simpa using this)
    _ = r := List.map_id r
  calc X.map (fun rr => rr.map fun c => (c.drop 0).take s) = X.map id :=
    List.map_congr_left (by simpa using this)
  _ = X := List.map_id X

theorem drop_take_full (l : List α) : (l.drop 0).take l.length = l := by
  simp

theorem gridC_shift (a : Nat) (w : Nat → Nat → γ) (o sz : Nat) :
    gridC a (fun r j => w r (o + j)) 0 sz = gridC a w o sz := by
  unfold gridC colsOf
  apply List.map_congr_left
  intro r _
  apply List.map_congr_left
  intro j _
  simp

theorem mapM_ok {ε β α₂ : Type} (l : List α₂) (F : α₂ → Except ε β) (h : α₂ → β)
    (H : ∀ x ∈ l, F x = Except.ok (h x)) : l.mapM F = Except.ok (l.map h) := by
  induction l with
  | nil => rfl
  | cons x xs ih =>
    rw [List.mapM_cons, H x (by simp), ih (fun z hz => H z (by simp [hz]))]
    rfl

theorem promoteDT_ff : promoteDT DType.float DType.float = DType.float := rfl

theorem promoteDT_ii : promoteDT DType.int DType.int = DType.int := rfl

theorem concatSL_fold_g2 (n : Nat) (w : Nat → Nat → ℚ) :
    ∀ (szs : List Nat) (o a : Nat),
      List.foldlM (fun (acc q : SLPred) =>
        match concatAx1 acc.grid q.grid with
        | some g => Except.ok ⟨promoteDT acc.dtype q.dtype, g⟩
        | none => Except.error Err.broadcastErr)
        (⟨DType.float, SLGrid.g2 (gridC n w o a)⟩ : SLPred)
        ((specsOf (o + a) szs).map fun p => ⟨DType.float, SLGrid.g2 (gridC n w p.1 p.2)⟩) =
      Except.ok ⟨DType.float, SLGrid.g2 (gridC n w o (a + szs.sum))⟩ := by
  intro szs
  induction szs with
  | nil =>
    intro o a
    simp only [specsOf, List.map_nil, List.foldlM_nil]
    rfl
  | cons sz rest ih =>
    intro o a
    have hstep : concatAx1 (SLGrid.g2 (gridC n w o a)) (SLGrid.g2 (gridC n w (o + a) sz)) =
        some (SLGrid.g2 (gridC n w o (a + sz))) := by
      show (if (gridC n w o a).length = (gridC n w (o + a) sz).length
        then some (SLGrid.g2 (List.zipWith (· ++ ·) (gridC n w o a) (gridC n w (o + a) sz)))
        else none) = _
      rw [if_pos (by simp [gridC_length])]
      rw [zipWith_append_gridC]
    simp only [specsOf, List.map_cons, List.foldlM_cons, hstep]
    have hassoc : o + a + sz = o + (a + sz) := by omega
    rw [hassoc]
    have := ih o (a + sz)
    simp only [List.sum_cons]
    rw [show a + (sz + rest.sum) = (a + sz) + rest.sum by omega]
    exact this

theorem concatSL_fold_g3 (n : Nat) (w : Nat → Nat → List ℚ) :
    ∀ (szs : List Nat) (o a : Nat),
      List.foldlM (fun (acc q : SLPred) =>
        match concatAx1 acc.grid q.grid with
        | some g => Except.ok ⟨promoteDT acc.dtype q.dtype, g⟩
        | none => Except.error Err.broadcastErr)
        (⟨DType.int, SLGrid.g3 (gridC n w o a)⟩ : SLPred)
        ((specsOf (o + a) szs).map fun p => ⟨DType.int, SLGrid.g3 (gridC n w p.1 p.2)⟩) =
      Except.ok ⟨DType.int, SLGrid.g3 (gridC n w o (a + szs.sum))⟩ := by
  intro szs
  induction szs with
  | nil =>
    intro o a
    simp only [specsOf, List.map_nil, List.foldlM_nil]
    rfl
  | cons sz rest ih =>
    intro o a
    have hstep : concatAx1 (SLGrid.g3 (gridC n w o a)) (SLGrid.g3 (gridC n w (o + a) sz)) =
        some (SLGrid.g3 (gridC n w o (a + sz))) := by
      show (if (gridC n w o a).length = (gridC n w (o + a) sz).length
        then some (SLGrid.g3 (List.zipWith (· ++ ·) (gridC n w o a) (gridC n w (o + a) sz)))
        else none) = _
      rw [if_pos (by simp [gridC_length])]
      rw [zipWith_append_gridC]
    simp only [specsOf, List.map_cons, List.foldlM_cons, hstep]
    have hassoc : o + a + sz = o + (a + sz) := by omega
    rw [hassoc]
    have := ih o (a + sz)
    simp only [List.sum_cons]
    rw [show a + (sz + rest.sum) = (a + sz) + rest.sum by omega]
    exact this

theorem check_Xy_none (X : Arr3) : _check_Xy X none = Except.ok () := rfl

theorem mapM_map_ok {ε β α₂ γ₂ : Type} (l : List α₂) (g : α₂ → γ₂) (F : γ₂ → Except ε β)
    (h : α₂ → β) (H : ∀ x ∈ l, F (g x) = Except.ok (h x)) :
    (l.map g).mapM F = Except.ok (l.map h) := by
  induction l with
  | nil => rfl
  | cons x xs ih =>
    rw [List.map_cons, List.mapM_cons, H x (by simp), ih (fun z hz => H z (by simp [hz]))]
    rfl

theorem SL_chunks_eq (ests : List Est) (X : Arr3) (k s : Nat)
    (hes : ests.length = s) (hlast : lastLen X = s) :
    List.zip (array_split ests k) (splitLastAxis X k) =
      (chunkSpecs s k).map fun p => ((ests.drop p.1).take p.2, chunkLast X p.1 p.2) := by
  unfold array_split splitLastAxis
  rw [hes, hlast]
  exact List.zip_map' _ _ _

theorem chunkSpec_bounds {s k : Nat} (hk1 : 1 ≤ k) {p : Nat × Nat}
    (hp : p ∈ chunkSpecs s k) : p.1 + p.2 ≤ s := by
  have := specsOf_bound (splitSizes s k) 0 p hp
  rw [splitSizes_sum s k (by omega)] at this
  omega

theorem chunkSpec_pos {s k : Nat} (hk1 : 1 ≤ k) (hks : k ≤ s) {p : Nat × Nat}
    (hp : p ∈ chunkSpecs s k) : 0 < p.2 :=
  splitSizes_pos s k (by omega) hks p.2 (specsOf_mem_size (splitSizes s k) 0 p hp)

theorem SL_transform_pipe_one (b : Proto) (k : Nat) (ests : List Est) (X : Arr3) (m : SLMethod)
    (n fC s : Nat) (w : Nat → Nat → ℚ)
    (hr : rect3 X fC s = true) (hne : X ≠ []) (hf : 0 < fC) (hn : X.length = n)
    (hes : ests.length = s) (hk1 : 1 ≤ k) (hks : k ≤ s)
    (hU : ∀ j, j < s → ∃ fv v, (getE ests j).methods (_check_method b.asEst m) = some fv ∧
      fv (sliceAt X j) = NDRes.one v ∧ v.length = n ∧ ∀ r, r < n → v.getD r 0 = w r j) :
    SearchLight._transform ⟨b, k, ests⟩ X m =
      Except.ok ⟨DType.float, SLGrid.g2 (gridC n w 0 s)⟩ := by
  have hs0 : 0 < s := by omega
  have hlast : lastLen X = s := lastLen_rect hr hne hf
  have hmapM : (List.zip (array_split ests k) (splitLastAxis X k)).mapM
      (fun p => _sl_transform p.1 p.2 (_check_method b.asEst m)) =
      Except.ok ((chunkSpecs s k).map fun p =>
        (⟨DType.float, SLGrid.g2 (gridC n w p.1 p.2)⟩ : SLPred)) := by
    rw [SL_chunks_eq ests X k s hes hlast]
    apply mapM_map_ok
    intro p hp
    have hbd : p.1 + p.2 ≤ s := chunkSpec_bounds hk1 hp
    have hpos : 0 < p.2 := chunkSpec_pos hk1 hks hp
    have hchar := sl_transform_one ((ests.drop p.1).take p.2) (chunkLast X p.1 p.2)
      (_check_method b.asEst m) n p.2 (fun r j => w r (p.1 + j))
      (by rw [chunkLast_length, hn])
      (lastLen_chunkLast hr hne hf p.1 p.2 hbd)
      (window_length ests p.1 p.2 (by omega))
      hpos
      (fun j hj => by
        rcases hU (p.1 + j) (by omega) with ⟨fv, v, hm2, hres, hvlen, hvals⟩
        refine ⟨fv, v, ?_, ?_, hvlen, fun r hr2 => hvals r hr2⟩
        · rw [getE_window ests p.1 p.2 j hj]
          exact hm2
        · rw [sliceAt_chunkLast X p.1 p.2 j hj]
          exact hres)
    rw [hchar, gridC_shift]
  unfold SearchLight._transform
  simp only [check_Xy_none]
  rw [hlast, hes, if_neg (by omega)]
  simp only [hmapM]
  by_cases hk : k > 1
  · rw [if_pos hk]
    rcases hsz : splitSizes s k with _ | ⟨sz0, rest⟩
    · have := splitSizes_length s k (by omega)
      rw [hsz] at this
      simp at this
      omega
    · have hspec : chunkSpecs s k = (0, sz0) :: specsOf (0 + sz0) rest := by
        unfold chunkSpecs
        rw [hsz]
        rfl
      rw [hspec]
      simp only [List.map_cons, concatSLPreds]
      have hfold := concatSL_fold_g2 n w rest 0 sz0
      rw [hfold]
      have hsum : sz0 + rest.sum = s := by
        have := splitSizes_sum s k (by omega)
        rw [hsz] at this
        simpa using this
      rw [hsum]
  · rw [if_neg hk]
    have hk1eq : k = 1 := by omega
    subst hk1eq
    have hspec : chunkSpecs s 1 = [(0, s)] := by
      unfold chunkSpecs
      rw [splitSizes_one]
      rfl
    rw [hspec]
    simp only [List.map_cons, List.map_nil]

theorem colsOf_shift (w : Nat → γ) (o sz : Nat) :
    colsOf (fun j => w (o + j)) 0 sz = colsOf w o sz := by
  unfold colsOf
  apply List.map_congr_left
  intro j _
  simp

theorem SL_transform_pipe_two (b : Proto) (k : Nat) (ests : List Est) (X : Arr3) (m : SLMethod)
    (n fC s c : Nat) (w : Nat → Nat → List ℚ)
    (hr : rect3 X fC s = true) (hne : X ≠ []) (hf : 0 < fC) (hn : X.length = n) (hn0 : 0 < n)
    (hes : ests.length = s) (hk1 : 1 ≤ k) (hks : k ≤ s)
    (hU : ∀ j, j < s → ∃ fv v, (getE ests j).methods (_check_method b.asEst m) = some fv ∧
      fv (sliceAt X j) = NDRes.two v ∧ v.length = n ∧ (∀ x ∈ v, x.length = c) ∧
      ∀ r, r < n → (v.getD r []).map truncQ = w r j) :
    SearchLight._transform ⟨b, k, ests⟩ X m =
      Except.ok ⟨DType.int, SLGrid.g3 (gridC n w 0 s)⟩ := by
  have hs0 : 0 < s := by omega
  have hlast : lastLen X = s := lastLen_rect hr hne hf
  have hmapM : (List.zip (array_split ests k) (splitLastAxis X k)).mapM
      (fun p => _sl_transform p.1 p.2 (_check_method b.asEst m)) =
      Except.ok ((chunkSpecs s k).map fun p =>
        (⟨DType.int, SLGrid.g3 (gridC n w p.1 p.2)⟩ : SLPred)) := by
    rw [SL_chunks_eq ests X k s hes hlast]
    apply mapM_map_ok
    intro p hp
    have hbd : p.1 + p.2 ≤ s := chunkSpec_bounds hk1 hp
    have hpos : 0 < p.2 := chunkSpec_pos hk1 hks hp
    have hchar := sl_transform_two ((ests.drop p.1).take p.2) (chunkLast X p.1 p.2)
      (_check_method b.asEst m) n p.2 c (fun r j => w r (p.1 + j))
      (by rw [chunkLast_length, hn])
      (lastLen_chunkLast hr hne hf p.1 p.2 hbd)
      (window_length ests p.1 p.2 (by omega))
      hpos hn0
      (fun j hj => by
        rcases hU (p.1 + j) (by omega) with ⟨fv, v, hm2, hres, hvlen, hvc, hvals⟩
        refine ⟨fv, v, ?_, ?_, hvlen, hvc, fun r hr2 => hvals r hr2⟩
        · rw [getE_window ests p.1 p.2 j hj]
          exact hm2
        · rw [sliceAt_chunkLast X p.1 p.2 j hj]
          exact hres)
    rw [hchar, gridC_shift]
  unfold SearchLight._transform
  simp only [check_Xy_none]
  rw [hlast, hes, if_neg (by omega)]
  simp only [hmapM]
  by_cases hk : k > 1
  · rw [if_pos hk]
    rcases hsz : splitSizes s k with _ | ⟨sz0, rest⟩
    · have := splitSizes_length s k (by omega)
      rw [hsz] at this
      simp at this
      omega
    · have hspec : chunkSpecs s k = (0, sz0) :: specsOf (0 + sz0) rest := by
        unfold chunkSpecs
        rw [hsz]
        rfl
      rw [hspec]
      simp only [List.map_cons, concatSLPreds]
      have hfold := concatSL_fold_g3 n w rest 0 sz0
      rw [hfold]
      have hsum : sz0 + rest.sum = s := by
        have := splitSizes_sum s k (by omega)
        rw [hsz] at this
        simpa using this
      rw [hsum]
  · rw [if_neg hk]
    have hk1eq : k = 1 := by omega
    subst hk1eq
    have hspec : chunkSpecs s 1 = [(0, s)] := by
      unfold chunkSpecs
      rw [splitSizes_one]
      rfl
    rw [hspec]
    simp only [List.map_cons, List.map_nil]

theorem concatSc_fold_g1 (w : Nat → ℚ) :
    ∀ (szs : List Nat) (o a : Nat),
      List.foldlM (fun (acc q : SLScoreOut) =>
        match concatAx0Sc acc.grid q.grid with
        | some g => Except.ok ⟨promoteDT acc.dtype q.dtype, g⟩
        | none => Except.error Err.broadcastErr)
        (⟨DType.int, ScGrid.g1 (colsOf w o a)⟩ : SLScoreOut)
        ((specsOf (o + a) szs).map fun p =>
          (⟨DType.int, ScGrid.g1 (colsOf w p.1 p.2)⟩ : SLScoreOut)) =
      Except.ok ⟨DType.int, ScGrid.g1 (colsOf w o (a + szs.sum))⟩ := by
  intro szs
  induction szs with
  | nil =>
    intro o a
    simp only [specsOf, List.map_nil, List.foldlM_nil]
    rfl
  | cons sz rest ih =>
    intro o a
    have hstep : concatAx0Sc (ScGrid.g1 (colsOf w o a)) (ScGrid.g1 (colsOf w (o + a) sz)) =
        some (ScGrid.g1 (colsOf w o (a + sz))) := by
      show some (ScGrid.g1 (colsOf w o a ++ colsOf w (o + a) sz)) = _
      rw [colsOf_append]
    simp only [specsOf, List.map_cons, List.foldlM_cons, hstep]
    have hassoc : o + a + sz = o + (a + sz) := by omega
    rw [hassoc]
    have := ih o (a + sz)
    simp only [List.sum_cons]
    rw [show a + (sz + rest.sum) = (a + sz) + rest.sum by omega]
    exact this

theorem concatSc_fold_g2 (w : Nat → List ℚ) :
    ∀ (szs : List Nat) (o a : Nat),
      List.foldlM (fun (acc q : SLScoreOut) =>
        match concatAx0Sc acc.grid q.grid with
        | some g => Except.ok ⟨promoteDT acc.dtype q.dtype, g⟩
        | none => Except.error Err.broadcastErr)
        (⟨DType.int, ScGrid.g2 (colsOf w o a)⟩ : SLScoreOut)
        ((specsOf (o + a) szs).map fun p =>
          (⟨DType.int, ScGrid.g2 (colsOf w p.1 p.2)⟩ : SLScoreOut)) =
      Except.ok ⟨DType.int, ScGrid.g2 (colsOf w o (a + szs.sum))⟩ := by
  intro szs
  induction szs with
  | nil =>
    intro o a
    simp only [specsOf, List.map_nil, List.foldlM_nil]
    rfl
  | cons sz rest ih =>
    intro o a
    have hstep : concatAx0Sc (ScGrid.g2 (colsOf w o a)) (ScGrid.g2 (colsOf w (o + a) sz)) =
        some (ScGrid.g2 (colsOf w o (a + sz))) := by
      show some (ScGrid.g2 (colsOf w o a ++ colsOf w (o + a) sz)) = _
      rw [colsOf_append]
    simp only [specsOf, List.map_cons, List.foldlM_cons, hstep]
    have hassoc : o + a + sz = o + (a + sz) := by omega
    rw [hassoc]
    have := ih o (a + sz)
    simp only [List.sum_cons]
    rw [show a + (sz + rest.sum) = (a + sz) + rest.sum by omega]
    exact this

theorem SL_score_pipe_scalar (b : Proto) (k : Nat) (ests : List Est) (X : Arr3) (y : List ℚ)
    (fC s : Nat) (w : Nat → ℚ)
    (hr : rect3 X fC s = true) (hne : X ≠ []) (hf : 0 < fC)
    (hes : ests.length = s) (hk1 : 1 ≤ k) (hks : k ≤ s)
    (hU : ∀ j, j < s → ∃ q, (getE ests j).score (sliceAt X j) y = ScRes.scalar q ∧
      truncQ q = w j) :
    SearchLight.score ⟨b, k, ests⟩ X y =
      Except.ok ⟨DType.int, ScGrid.g1 (colsOf w 0 s)⟩ := by
  have hs0 : 0 < s := by omega
  have hlast : lastLen X = s := lastLen_rect hr hne hf
  have hmapM : (List.zip (array_split ests k) (splitLastAxis X k)).mapM
      (fun p => _sl_score p.1 p.2 y) =
      Except.ok ((chunkSpecs s k).map fun p =>
        (⟨DType.int, ScGrid.g1 (colsOf w p.1 p.2)⟩ : SLScoreOut)) := by
    rw [SL_chunks_eq ests X k s hes hlast]
    apply mapM_map_ok
    intro p hp
    have hbd : p.1 + p.2 ≤ s := chunkSpec_bounds hk1 hp
    have hpos : 0 < p.2 := chunkSpec_pos hk1 hks hp
    have hchar := sl_score_scalar ((ests.drop p.1).take p.2) (chunkLast X p.1 p.2) y
      p.2 (fun j => w (p.1 + j))
      (lastLen_chunkLast hr hne hf p.1 p.2 hbd)
      (window_length ests p.1 p.2 (by omega))
      hpos
      (fun j hj => by
        rcases hU (p.1 + j) (by omega) with ⟨q, hsc, hq⟩
        refine ⟨q, ?_, hq⟩
        rw [getE_window ests p.1 p.2 j hj, sliceAt_chunkLast X p.1 p.2 j hj]
        exact hsc)
    rw [hchar, colsOf_shift]
  unfold SearchLight.score
  simp only [check_Xy_none]
  rw [hlast, hes, if_neg (by omega)]
  simp only [hmapM]
  by_cases hk : k > 1
  · rw [if_pos hk]
    rcases hsz : splitSizes s k with _ | ⟨sz0, rest⟩
    · have := splitSizes_length s k (by omega)
      rw [hsz] at this
      simp at this
      omega
    · have hspec : chunkSpecs s k = (0, sz0) :: specsOf (0 + sz0) rest := by
        unfold chunkSpecs
        rw [hsz]
        rfl
      rw [hspec]
      simp only [List.map_cons, concatScOuts]
      have hfold := concatSc_fold_g1 w rest 0 sz0
      rw [hfold]
      have hsum : sz0 + rest.sum = s := by
        have := splitSizes_sum s k (by omega)
        rw [hsz] at this
        simpa using this
      rw [hsum]
  · rw [if_neg hk]
    have hk1eq : k = 1 := by omega
    subst hk1eq
    have hspec : chunkSpecs s 1 = [(0, s)] := by
      unfold chunkSpecs
      rw [splitSizes_one]
      rfl
    rw [hspec]
    simp only [List.map_cons, List.map_nil]

theorem SL_score_pipe_vec (b : Proto) (k : Nat) (ests : List Est) (X : Arr3) (y : List ℚ)
    (fC s d : Nat) (w : Nat → List ℚ)
    (hr : rect3 X fC s = true) (hne : X ≠ []) (hf : 0 < fC)
    (hes : ests.length = s) (hk1 : 1 ≤ k) (hks : k ≤ s)
    (hU : ∀ j, j < s → ∃ v, (getE ests j).score (sliceAt X j) y = ScRes.vec v ∧
      v.length = d ∧ v.map truncQ = w j) :
    SearchLight.score ⟨b, k, ests⟩ X y =
      Except.ok ⟨DType.int, ScGrid.g2 (colsOf w 0 s)⟩ := by
  have hs0 : 0 < s := by omega
  have hlast : lastLen X = s := lastLen_rect hr hne hf
  have hmapM : (List.zip (array_split ests k) (splitLastAxis X k)).mapM
      (fun p => _sl_score p.1 p.2 y) =
      Except.ok ((chunkSpecs s k).map fun p =>
        (⟨DType.int, ScGrid.g2 (colsOf w p.1 p.2)⟩ : SLScoreOut)) := by
    rw [SL_chunks_eq ests X k s hes hlast]
    apply mapM_map_ok
    intro p hp
    have hbd : p.1 + p.2 ≤ s := chunkSpec_bounds hk1 hp
    have hpos : 0 < p.2 := chunkSpec_pos hk1 hks hp
    have hchar := sl_score_vec ((ests.drop p.1).take p.2) (chunkLast X p.1 p.2) y
      p.2 d (fun j => w (p.1 + j))
      (lastLen_chunkLast hr hne hf p.1 p.2 hbd)
      (window_length ests p.1 p.2 (by omega))
      hpos
      (fun j hj => by
        rcases hU (p.1 + j) (by omega) with ⟨v, hsc, hvlen, hv⟩
        refine ⟨v, ?_, hvlen, hv⟩
        rw [getE_window ests p.1 p.2 j hj, sliceAt_chunkLast X p.1 p.2 j hj]
        exact hsc)
    rw [hchar, colsOf_shift]
  unfold SearchLight.score
  simp only [check_Xy_none]
  rw [hlast, hes, if_neg (by omega)]
  simp only [hmapM]
  by_cases hk : k > 1
  · rw [if_pos hk]
    rcases hsz : splitSizes s k with _ | ⟨sz0, rest⟩
    · have := splitSizes_length s k (by omega)
      rw [hsz] at this
      simp at this
      omega
    · have hspec : chunkSpecs s k = (0, sz0) :: specsOf (0 + sz0) rest := by
        unfold chunkSpecs
        rw [hsz]
        rfl
      rw [hspec]
      simp only [List.map_cons, concatScOuts]
      have hfold := concatSc_fold_g2 w rest 0 sz0
      rw [hfold]
      have hsum : sz0 + rest.sum = s := by
        have := splitSizes_sum s k (by omega)
        rw [hsz] at this
        simpa using this
      rw [hsum]
  · rw [if_neg hk]
    have hk1eq : k = 1 := by omega
    subst hk1eq
    have hspec : chunkSpecs s 1 = [(0, s)] := by
      unfold chunkSpecs
      rw [splitSizes_one]
      rfl
    rw [hspec]
    simp only [List.map_cons, List.map_nil]

theorem featRow_chunkLast (X : Arr3) (o sz r t : Nat) (ht : t < sz) :
    featRow (chunkLast X o sz) r t = featRow X r (o + t) := by
  unfold featRow chunkLast
  by_cases hr : r < X.length
  · rw [getD_lt _ _ (by simpa using hr), List.getElem_map, getD_lt X [] hr, List.map_map]
    apply List.map_congr_left
    intro c _
    simp only [Function.comp]
    exact getD_drop_take c o sz t ht 0
  · rw [getD_ge _ _ (by simpa using Nat.le_of_not_lt hr), getD_ge _ _ (Nat.le_of_not_lt hr)]
    rfl

theorem colsOf_zero (v : Nat → γ) (sz : Nat) : colsOf v 0 sz = (List.range sz).map v := by
  unfold colsOf
  apply List.map_congr_left
  intro j _
  simp

theorem grid2_length (a b : Nat) (v : Nat → Nat → γ) : (grid2 a b v).length = a := by
  simp [grid2]

theorem grid2_mem_length {a b : Nat} {v : Nat → Nat → γ} {x : List γ}
    (h : x ∈ grid2 a b v) : x.length = b := by
  rcases List.mem_map.mp h with ⟨r, _, hEq⟩
  subst hEq
  simp

theorem grid2_getD {a : Nat} (b : Nat) (v : Nat → Nat → γ) {r : Nat} (hr : r < a) :
    (grid2 a b v).getD r [] = (List.range b).map (v r) := by
  unfold grid2
  rw [getD_lt _ _ (by simpa using hr)]
  simp

theorem glGridOf_length (n e : Nat) (B : Nat → Nat → Nat → γ) (o sz : Nat) :
    (glGridOf n e B o sz).length = n := by
  simp [glGridOf]

theorem concatGL_fold_g3 (n e : Nat) (B : Nat → Nat → Nat → ℚ) :
    ∀ (szs : List Nat) (o a : Nat),
      List.foldlM (fun (acc q : GLGrid) =>
        match concatAx2GL acc q with
        | some g => Except.ok g
        | none => Except.error Err.broadcastErr)
        (GLGrid.g3 (glGridOf n e B o a))
        ((specsOf (o + a) szs).map fun p => GLGrid.g3 (glGridOf n e B p.1 p.2)) =
      Except.ok (GLGrid.g3 (glGridOf n e B o (a + szs.sum))) := by
  intro szs
  induction szs with
  | nil =>
    intro o a
    simp only [specsOf, List.map_nil, List.foldlM_nil]
    rfl
  | cons sz rest ih =>
    intro o a
    have hstep : concatAx2GL (GLGrid.g3 (glGridOf n e B o a))
        (GLGrid.g3 (glGridOf n e B (o + a) sz)) =
        some (GLGrid.g3 (glGridOf n e B o (a + sz))) := by
      show (if (glGridOf n e B o a).length = (glGridOf n e B (o + a) sz).length ∧
          (((glGridOf n e B o a).zip (glGridOf n e B (o + a) sz)).all
            fun p => p.1.length == p.2.length) = true
        then some (GLGrid.g3 (List.zipWith (fun ra rb => List.zipWith (· ++ ·) ra rb)
          (glGridOf n e B o a) (glGridOf n e B (o + a) sz)))
        else none) = _
      rw [if_pos ⟨by simp [glGridOf_length], by
        rw [List.all_eq_true]
        intro p hp
        rcases p with ⟨p1, p2⟩
        have hmem := List.mem_zip hp
        rcases List.mem_map.mp hmem.1 with ⟨r1, _, hEq1⟩
        rcases List.mem_map.mp hmem.2 with ⟨r2, _, hEq2⟩
        subst hEq1
        subst hEq2
        simp [gridC_length]⟩]
      congr 1
      congr 1
      unfold glGridOf
      rw [zipWith_map_range _ _ _ n (by simp) []]
      apply List.map_congr_left
      intro r hr
      simp only [List.mem_range] at hr
      rw [getD_lt _ _ (by simpa using hr)]
      simp only [List.getElem_map, List.getElem_range]
      exact zipWith_append_gridC e (B r) o a sz
    simp only [specsOf, List.map_cons, List.foldlM_cons, hstep]
    have hassoc : o + a + sz = o + (a + sz) := by omega
    rw [hassoc]
    have := ih o (a + sz)
    simp only [List.sum_cons]
    rw [show a + (sz + rest.sum) = (a + sz) + rest.sum by omega]
    exact this

theorem concatGL_fold_g4 (n e : Nat) (B : Nat → Nat → Nat → List ℚ) :
    ∀ (szs : List Nat) (o a : Nat),
      List.foldlM (fun (acc q : GLGrid) =>
        match concatAx2GL acc q with
        | some g => Except.ok g
        | none => Except.error Err.broadcastErr)
        (GLGrid.g4 (glGridOf n e B o a))
        ((specsOf (o + a) szs).map fun p => GLGrid.g4 (glGridOf n e B p.1 p.2)) =
      Except.ok (GLGrid.g4 (glGridOf n e B o (a + szs.sum))) := by
  intro szs
  induction szs with
  | nil =>
    intro o a
    simp only [specsOf, List.map_nil, List.foldlM_nil]
    rfl
  | cons sz rest ih =>
    intro o a
    have hstep : concatAx2GL (GLGrid.g4 (glGridOf n e B o a))
        (GLGrid.g4 (glGridOf n e B (o + a) sz)) =
        some (GLGrid.g4 (glGridOf n e B o (a + sz))) := by
      show (if (glGridOf n e B o a).length = (glGridOf n e B (o + a) sz).length ∧
          (((glGridOf n e B o a).zip (glGridOf n e B (o + a) sz)).all
            fun p => p.1.length == p.2.length) = true
        then some (GLGrid.g4 (List.zipWith (fun ra rb => List.zipWith (· ++ ·) ra rb)
          (glGridOf n e B o a) (glGridOf n e B (o + a) sz)))
        else none) = _
      rw [if_pos ⟨by simp [glGridOf_length], by
        rw [List.all_eq_true]
        intro p hp
        rcases p with ⟨p1, p2⟩
        have hmem := List.mem_zip hp
        rcases List.mem_map.mp hmem.1 with ⟨r1, _, hEq1⟩
        rcases List.mem_map.mp hmem.2 with ⟨r2, _, hEq2⟩
        subst hEq1
        subst hEq2
        simp [gridC_length]⟩]
      congr 1
      congr 1
      unfold glGridOf
      rw [zipWith_map_range _ _ _ n (by simp) []]
      apply List.map_congr_left
      intro r hr
      simp only [List.mem_range] at hr
      rw [getD_lt _ _ (by simpa using hr)]
      simp only [List.getElem_map, List.getElem_range]
      exact zipWith_append_gridC e (B r) o a sz
    simp only [specsOf, List.map_cons, List.foldlM_cons, hstep]
    have hassoc : o + a + sz = o + (a + sz) := by omega
    rw [hassoc]
    have := ih o (a + sz)
    simp only [List.sum_cons]
    rw [show a + (sz + rest.sum) = (a + sz) + rest.sum by omega]
    exact this

theorem GL_transform_pipe_one (b : Proto) (k : Nat) (ests : List Est) (X : Arr3) (m : SLMethod)
    (n fC s e : Nat) (gk : Nat → List ℚ → ℚ)
    (hr : rect3 X fC s = true) (hne : X ≠ []) (hf : 0 < fC) (hn : X.length = n)
    (he : ests.length = e) (he1 : 0 < e) (hk1 : 1 ≤ k) (hks : k ≤ s)
    (hG : ∀ j, j < e → (getE ests j).methods (_check_method b.asEst m) =
      some (fun M => NDRes.one (M.map (gk j)))) :
    GeneralizationLight._transform ⟨b, k, ests⟩ X m =
      Except.ok (GLGrid.g3 (glGridOf n e (fun r j t => gk j (featRow X r t)) 0 s)) := by
  have hs0 : 0 < s := by omega
  have hlast : lastLen X = s := lastLen_rect hr hne hf
  have hchunk : ∀ p ∈ chunkSpecs s k,
      _gl_transform ests (chunkLast X p.1 p.2) (_check_method b.asEst m) =
      Except.ok (GLGrid.g3 (glGridOf n e (fun r j t => gk j (featRow X r t)) p.1 p.2)) := by
    intro p hp
    have hbd : p.1 + p.2 ≤ s := chunkSpec_bounds hk1 hp
    have hpos : 0 < p.2 := chunkSpec_pos hk1 hks hp
    have hrc : rect3 (chunkLast X p.1 p.2) fC p.2 = true := rect3_chunkLast hr p.1 p.2 hbd
    have hnec : chunkLast X p.1 p.2 ≠ [] := chunkLast_ne_nil X p.1 p.2 hne
    have hlc : lastLen (chunkLast X p.1 p.2) = p.2 := lastLen_chunkLast hr hne hf p.1 p.2 hbd
    have hnc : (chunkLast X p.1 p.2).length = n := by rw [chunkLast_length, hn]
    have hchar := gl_transform_two ests (chunkLast X p.1 p.2) (_check_method b.asEst m)
      n p.2 e (fun r j => colsOf (fun t => gk j (featRow X r t)) p.1 p.2)
      hnc hlc he he1
      (fun j hj => by
        refine ⟨fun M => NDRes.one (M.map (gk j)),
          grid2 n p.2 (fun r t => gk j (featRow (chunkLast X p.1 p.2) r t)), hG j hj, ?_, ?_, ?_, ?_⟩
        · exact gl_apply_one _ (gk j) (chunkLast X p.1 p.2) n fC p.2 (fun M => rfl)
            hrc hnec hf hnc hlc hpos
        · exact grid2_length n p.2 _
        · intro x hx
          exact grid2_mem_length hx
        · intro r hr2
          rw [grid2_getD p.2 _ hr2]
          unfold colsOf
          apply List.map_congr_left
          intro t ht
          simp only [List.mem_range] at ht
          rw [featRow_chunkLast X p.1 p.2 r t ht])
    rw [hchar]
    congr 2
    apply List.map_congr_left
    intro r _
    rw [colsOf_zero]
    rfl
  unfold GeneralizationLight._transform
  simp only [check_Xy_none]
  have hmapM : (splitLastAxis X k).mapM
      (fun x => _gl_transform ests x (_check_method b.asEst m)) =
      Except.ok ((chunkSpecs s k).map fun p =>
        GLGrid.g3 (glGridOf n e (fun r j t => gk j (featRow X r t)) p.1 p.2)) := by
    unfold splitLastAxis
    rw [hlast]
    apply mapM_map_ok
    intro p hp
    exact hchunk p hp
  simp only [hmapM]
  rcases hsz : splitSizes s k with _ | ⟨sz0, rest⟩
  · have := splitSizes_length s k (by omega)
    rw [hsz] at this
    simp at this
    omega
  · have hspec : chunkSpecs s k = (0, sz0) :: specsOf (0 + sz0) rest := by
      unfold chunkSpecs
      rw [hsz]
      rfl
    rw [hspec]
    simp only [List.map_cons, concatGLPreds]
    have hfold := concatGL_fold_g3 n e (fun r j t => gk j (featRow X r t)) rest 0 sz0
    rw [hfold]
    have hsum : sz0 + rest.sum = s := by
      have := splitSizes_sum s k (by omega)
      rw [hsz] at this
      simpa using this
    rw [hsum]

theorem GL_transform_pipe_two (b : Proto) (k : Nat) (ests : List Est) (X : Arr3) (m : SLMethod)
    (n fC s e c : Nat) (gk : Nat → List ℚ → List ℚ)
    (hr : rect3 X fC s = true) (hne : X ≠ []) (hf : 0 < fC) (hn : X.length = n) (hn0 : 0 < n)
    (he : ests.length = e) (he1 : 0 < e) (hk1 : 1 ≤ k) (hks : k ≤ s)
    (hG : ∀ j, j < e → (getE ests j).methods (_check_method b.asEst m) =
      some (fun M => NDRes.two (M.map (gk j))))
    (hc : ∀ j, j < e → ∀ r, r < n → ∀ t, t < s → (gk j (featRow X r t)).length = c) :
    GeneralizationLight._transform ⟨b, k, ests⟩ X m =
      Except.ok (GLGrid.g4 (glGridOf n e (fun r j t => gk j (featRow X r t)) 0 s)) := by
  have hs0 : 0 < s := by omega
  have hlast : lastLen X = s := lastLen_rect hr hne hf
  have hchunk : ∀ p ∈ chunkSpecs s k,
      _gl_transform ests (chunkLast X p.1 p.2) (_check_method b.asEst m) =
      Except.ok (GLGrid.g4 (glGridOf n e (fun r j t => gk j (featRow X r t)) p.1 p.2)) := by
    intro p hp
    have hbd : p.1 + p.2 ≤ s := chunkSpec_bounds hk1 hp
    have hpos : 0 < p.2 := chunkSpec_pos hk1 hks hp
    have hrc : rect3 (chunkLast X p.1 p.2) fC p.2 = true := rect3_chunkLast hr p.1 p.2 hbd
    have hnec : chunkLast X p.1 p.2 ≠ [] := chunkLast_ne_nil X p.1 p.2 hne
    have hlc : lastLen (chunkLast X p.1 p.2) = p.2 := lastLen_chunkLast hr hne hf p.1 p.2 hbd
    have hnc : (chunkLast X p.1 p.2).length = n := by rw [chunkLast_length, hn]
    have hchar := gl_transform_three ests (chunkLast X p.1 p.2) (_check_method b.asEst m)
      n p.2 c e (fun r j => colsOf (fun t => gk j (featRow X r t)) p.1 p.2)
      hnc hlc he he1 hn0 hpos
      (fun j hj => by
        refine ⟨fun M => NDRes.two (M.map (gk j)),
          grid2 n p.2 (fun r t => gk j (featRow (chunkLast X p.1 p.2) r t)), hG j hj, ?_, ?_, ?_, ?_⟩
        · exact gl_apply_two _ (gk j) (chunkLast X p.1 p.2) n fC p.2 (fun M => rfl)
            hrc hnec hf hnc hlc hpos
        · exact grid2_length n p.2 _
        · intro x hx
          refine ⟨grid2_mem_length hx, ?_⟩
          intro y hy
          rcases List.mem_map.mp hx with ⟨r, hrm, hEqx⟩
          subst hEqx
          simp only [List.mem_range] at hrm
          rcases List.mem_map.mp hy with ⟨t, htm, hEqy⟩
          subst hEqy
          simp only [List.mem_range] at htm
          show (gk j (featRow (chunkLast X p.1 p.2) r t)).length = c
          rw [featRow_chunkLast X p.1 p.2 r t htm]
          exact hc j hj r hrm (p.1 + t) (by omega)
        · intro r hr2
          rw [grid2_getD p.2 _ hr2]
          unfold colsOf
          apply List.map_congr_left
          intro t ht
          simp only [List.mem_range] at ht
          rw [featRow_chunkLast X p.1 p.2 r t ht])
    rw [hchar]
    congr 2
    apply List.map_congr_left
    intro r _
    rw [colsOf_zero]
    rfl
  unfold GeneralizationLight._transform
  simp only [check_Xy_none]
  have hmapM : (splitLastAxis X k).mapM
      (fun x => _gl_transform ests x (_check_method b.asEst m)) =
      Except.ok ((chunkSpecs s k).map fun p =>
        GLGrid.g4 (glGridOf n e (fun r j t => gk j (featRow X r t)) p.1 p.2)) := by
    unfold splitLastAxis
    rw [hlast]
    apply mapM_map_ok
    intro p hp
    exact hchunk p hp
  simp only [hmapM]
  rcases hsz : splitSizes s k with _ | ⟨sz0, rest⟩
  · have := splitSizes_length s k (by omega)
    rw [hsz] at this
    simp at this
    omega
  · have hspec : chunkSpecs s k = (0, sz0) :: specsOf (0 + sz0) rest := by
      unfold chunkSpecs
      rw [hsz]
      rfl
    rw [hspec]
    simp only [List.map_cons, concatGLPreds]
    have hfold := concatGL_fold_g4 n e (fun r j t => gk j (featRow X r t)) rest 0 sz0
    rw [hfold]
    have hsum : sz0 + rest.sum = s := by
      have := splitSizes_sum s k (by omega)
      rw [hsz] at this
      simpa using this
    rw [hsum]

theorem concatGLSc_fold_g2 (e : Nat) (v : Nat → Nat → ℚ) :
    ∀ (szs : List Nat) (o a : Nat),
      List.foldlM (fun (acc q : GLScoreOut) =>
        match concatAx1GLSc acc.grid q.grid with
        | some g => Except.ok ⟨promoteDT acc.dtype q.dtype, g⟩
        | none => Except.error Err.broadcastErr)
        (⟨DType.float, GLScGrid.g2 (gridC e v o a)⟩ : GLScoreOut)
        ((specsOf (o + a) szs).map fun p =>
          (⟨DType.float, GLScGrid.g2 (gridC e v p.1 p.2)⟩ : GLScoreOut)) =
      Except.ok ⟨DType.float, GLScGrid.g2 (gridC e v o (a + szs.sum))⟩ := by
  intro szs
  induction szs with
  | nil =>
    intro o a
    simp only [specsOf, List.map_nil, List.foldlM_nil]
    rfl
  | cons sz rest ih =>
    intro o a
    have hstep : concatAx1GLSc (GLScGrid.g2 (gridC e v o a)) (GLScGrid.g2 (gridC e v (o + a) sz)) =
        some (GLScGrid.g2 (gridC e v o (a + sz))) := by
      show (if (gridC e v o a).length = (gridC e v (o + a) sz).length
        then some (GLScGrid.g2 (List.zipWith (· ++ ·) (gridC e v o a) (gridC e v (o + a) sz)))
        else none) = _
      rw [if_pos (by simp [gridC_length])]
      rw [zipWith_append_gridC]
    simp only [specsOf, List.map_cons, List.foldlM_cons, hstep]
    have hassoc : o + a + sz = o + (a + sz) := by omega
    rw [hassoc]
    have := ih o (a + sz)
    simp only [List.sum_cons]
    rw [show a + (sz + rest.sum) = (a + sz) + rest.sum by omega]
    exact this

theorem concatGLSc_fold_g3 (e : Nat) (v : Nat → Nat → List ℚ) :
    ∀ (szs : List Nat) (o a : Nat),
      List.foldlM (fun (acc q : GLScoreOut) =>
        match concatAx1GLSc acc.grid q.grid with
        | some g => Except.ok ⟨promoteDT acc.dtype q.dtype, g⟩
        | none => Except.error Err.broadcastErr)
        (⟨DType.int, GLScGrid.g3 (gridC e v o a)⟩ : GLScoreOut)
        ((specsOf (o + a) szs).map fun p =>
          (⟨DType.int, GLScGrid.g3 (gridC e v p.1 p.2)⟩ : GLScoreOut)) =
      Except.ok ⟨DType.int, GLScGrid.g3 (gridC e v o (a + szs.sum))⟩ := by
  intro szs
  induction szs with
  | nil =>
    intro o a
    simp only [specsOf, List.map_nil, List.foldlM_nil]
    rfl
  | cons sz rest ih =>
    intro o a
    have hstep : concatAx1GLSc (GLScGrid.g3 (gridC e v o a)) (GLScGrid.g3 (gridC e v (o + a) sz)) =
        some (GLScGrid.g3 (gridC e v o (a + sz))) := by
      show (if (gridC e v o a).length = (gridC e v (o + a) sz).length
        then some (GLScGrid.g3 (List.zipWith (· ++ ·) (gridC e v o a) (gridC e v (o + a) sz)))
        else none) = _
      rw [if_pos (by simp [gridC_length])]
      rw [zipWith_append_gridC]
    simp only [specsOf, List.map_cons, List.foldlM_cons, hstep]
    have hassoc : o + a + sz = o + (a + sz) := by omega
    rw [hassoc]
    have := ih o (a + sz)
    simp only [List.sum_cons]
    rw [show a + (sz + rest.sum) = (a + sz) + rest.sum by omega]
    exact this

theorem GL_score_pipe_scalar (b : Proto) (k : Nat) (ests : List Est) (X : Arr3) (y : List ℚ)
    (fC s e : Nat) (v : Nat → Nat → ℚ)
    (hr : rect3 X fC s = true) (hne : X ≠ []) (hf : 0 < fC)
    (he : ests.length = e) (he1 : 0 < e) (hk1 : 1 ≤ k) (hks : k ≤ s)
    (hU : ∀ i, i < e → ∀ j, j < s →
      ∃ q, (getE ests i).score (sliceAt X j) y = ScRes.scalar q ∧ q = v i j) :
    GeneralizationLight.score ⟨b, k, ests⟩ X y =
      Except.ok ⟨DType.float, GLScGrid.g2 (gridC e v 0 s)⟩ := by
  have hs0 : 0 < s := by omega
  have hlast : lastLen X = s := lastLen_rect hr hne hf
  have hmapM : (splitLastAxis X k).mapM (fun x => _gl_score ests x y) =
      Except.ok ((chunkSpecs s k).map fun p =>
        (⟨DType.float, GLScGrid.g2 (gridC e v p.1 p.2)⟩ : GLScoreOut)) := by
    unfold splitLastAxis
    rw [hlast]
    apply mapM_map_ok
    intro p hp
    have hbd : p.1 + p.2 ≤ s := chunkSpec_bounds hk1 hp
    have hpos : 0 < p.2 := chunkSpec_pos hk1 hks hp
    have hchar := gl_score_scalar ests (chunkLast X p.1 p.2) y e p.2
      (fun i j => v i (p.1 + j))
      (lastLen_chunkLast hr hne hf p.1 p.2 hbd) he he1 hpos
      (fun i hi j hj => by
        rcases hU i hi (p.1 + j) (by omega) with ⟨q, hsc, hqv⟩
        refine ⟨q, ?_, hqv⟩
        rw [sliceAt_chunkLast X p.1 p.2 j hj]
        exact hsc)
    rw [hchar, gridC_shift]
  unfold GeneralizationLight.score
  simp only [check_Xy_none]
  simp only [hmapM]
  by_cases hk : k > 1
  · rw [if_pos hk]
    rcases hsz : splitSizes s k with _ | ⟨sz0, rest⟩
    · have := splitSizes_length s k (by omega)
      rw [hsz] at this
      simp at this
      omega
    · have hspec : chunkSpecs s k = (0, sz0) :: specsOf (0 + sz0) rest := by
        unfold chunkSpecs
        rw [hsz]
        rfl
      rw [hspec]
      simp only [List.map_cons, concatGLScOuts]
      have hfold := concatGLSc_fold_g2 e v rest 0 sz0
      rw [hfold]
      have hsum : sz0 + rest.sum = s := by
        have := splitSizes_sum s k (by omega)
        rw [hsz] at this
        simpa using this
      rw [hsum]
  · rw [if_neg hk]
    have hk1eq : k = 1 := by omega
    subst hk1eq
    have hspec : chunkSpecs s 1 = [(0, s)] := by
      unfold chunkSpecs
      rw [splitSizes_one]
      rfl
    rw [hspec]
    simp only [List.map_cons, List.map_nil]

theorem GL_score_pipe_vec (b : Proto) (k : Nat) (ests : List Est) (X : Arr3) (y : List ℚ)
    (fC s e d : Nat) (v : Nat → Nat → List ℚ)
    (hr : rect3 X fC s = true) (hne : X ≠ []) (hf : 0 < fC)
    (he : ests.length = e) (he1 : 0 < e) (hk1 : 1 ≤ k) (hks : k ≤ s)
    (hU : ∀ i, i < e → ∀ j, j < s →
      ∃ u, (getE ests i).score (sliceAt X j) y = ScRes.vec u ∧ u.length = d ∧
        u.map truncQ = v i j) :
    GeneralizationLight.score ⟨b, k, ests⟩ X y =
      Except.ok ⟨DType.int, GLScGrid.g3 (gridC e v 0 s)⟩ := by
  have hs0 : 0 < s := by omega
  have hlast : lastLen X = s := lastLen_rect hr hne hf
  have hmapM : (splitLastAxis X k).mapM (fun x => _gl_score ests x y) =
      Except.ok ((chunkSpecs s k).map fun p =>
        (⟨DType.int, GLScGrid.g3 (gridC e v p.1 p.2)⟩ : GLScoreOut)) := by
    unfold splitLastAxis
    rw [hlast]
    apply mapM_map_ok
    intro p hp
    have hbd : p.1 + p.2 ≤ s := chunkSpec_bounds hk1 hp
    have hpos : 0 < p.2 := chunkSpec_pos hk1 hks hp
    have hchar := gl_score_vec ests (chunkLast X p.1 p.2) y e p.2 d
      (fun i j => v i (p.1 + j))
      (lastLen_chunkLast hr hne hf p.1 p.2 hbd) he he1 hpos
      (fun i hi j hj => by
        rcases hU i hi (p.1 + j) (by omega) with ⟨u, hsc, hulen, hqv⟩
        refine ⟨u, ?_, hulen, hqv⟩
        rw [sliceAt_chunkLast X p.1 p.2 j hj]
        exact hsc)
    rw [hchar, gridC_shift]
  unfold GeneralizationLight.score
  simp only [check_Xy_none]
  simp only [hmapM]
  by_cases hk : k > 1
  · rw [if_pos hk]
    rcases hsz : splitSizes s k with _ | ⟨sz0, rest⟩
    · have := splitSizes_length s k (by omega)
      rw [hsz] at this
      simp at this
      omega
    · have hspec : chunkSpecs s k = (0, sz0) :: specsOf (0 + sz0) rest := by
        unfold chunkSpecs
        rw [hsz]
        rfl
      rw [hspec]
      simp only [List.map_cons, concatGLScOuts]
      have hfold := concatGLSc_fold_g3 e v rest 0 sz0
      rw [hfold]
      have hsum : sz0 + rest.sum = s := by
        have := splitSizes_sum s k (by omega)
        rw [hsz] at this
        simpa using this
      rw [hsum]
  · rw [if_neg hk]
    have hk1eq : k = 1 := by omega
    subst hk1eq
    have hspec : chunkSpecs s 1 = [(0, s)] := by
      unfold chunkSpecs
      rw [splitSizes_one]
      rfl
    rw [hspec]
    simp only [List.map_cons, List.map_nil]

theorem zipWith_map_same (f : β → β → γ₂) (g h : α → β) (l : List α) :
    List.zipWith f (l.map g) (l.map h) = l.map fun x => f (g x) (h x) := by
  induction l with
  | nil => rfl
  | cons x xs ih => simp [ih]

theorem concat3_chunkLast {X : Arr3} (o a sz : Nat) :
    concat3 (chunkLast X o a) (chunkLast X (o + a) sz) = chunkLast X o (a + sz) := by
  unfold concat3 chunkLast
  rw [zipWith_map_same]
  apply List.map_congr_left
  intro r _
  rw [zipWith_map_same]
  apply List.map_congr_left
  intro c _
  rw [List.take_add, List.drop_drop]

theorem joinLast_fold {X : Arr3} :
    ∀ (szs : List Nat) (o a : Nat),
      List.foldl concat3 (chunkLast X o a)
        ((specsOf (o + a) szs).map fun p => chunkLast X p.1 p.2) =
      chunkLast X o (a + szs.sum) := by
  intro szs
  induction szs with
  | nil =>
    intro o a
    simp [specsOf]
  | cons sz rest ih =>
    intro o a
    simp only [specsOf, List.map_cons, List.foldl_cons]
    rw [concat3_chunkLast]
    have hassoc : o + a + sz = o + (a + sz) := by omega
    rw [hassoc]
    have := ih o (a + sz)
    simp only [List.sum_cons]
    rw [show a + (sz + rest.sum) = (a + sz) + rest.sum by omega]
    exact this

theorem flatten_specs_colsOf (F : Nat → γ) :
    ∀ (szs : List Nat) (o : Nat),
      ((specsOf o szs).map fun p => colsOf F p.1 p.2).flatten = colsOf F o szs.sum := by
  intro szs
  induction szs with
  | nil =>
    intro o
    rfl
  | cons sz rest ih =>
    intro o
    simp only [specsOf, List.map_cons, List.flatten_cons, List.sum_cons]
    rw [ih (o + sz), colsOf_append]

/-- C1: the claim says an unsupported operation fails with a CapabilityError
raised by `_check_method`.  The code constructs the ValueError but never
raises it (`raise` is missing at source line 276), so `_check_method` returns
the unsupported method name, and the call instead dies later with the
AttributeError from `getattr(est, method)` inside the worker loop: here
`predict_proba` on a model exposing only `predict` returns
`Err.attributeErr`, not the validation error. -/
theorem claim_C1_check_method_never_raises :
    _check_method estP SLMethod.predict_proba = SLMethod.predict_proba ∧
    SearchLight.predict_proba ⟨protoP, 1, [estP]⟩ Xone = Except.error Err.attributeErr ∧
    Except.error Err.attributeErr ≠ (Except.error Err.shape : Except Err SLPred) := by
  refine ⟨rfl, by decide, by decide⟩

/-- C2: the claim says the output is allocated with the numeric kind of the
first realized result, so stored values equal the per-estimator results.  The
code instead hardcodes `int` for every multi-dimensional apply result
(`_sl_init_pred`), for every `_sl_score` output, and for vector `_gl_score`
results, and numpy's default float64 otherwise; float results are truncated
toward zero on store.  At an estimator whose `predict_proba` row result is
[7/10, 3/10] and whose scores are 73/100-valued, every stored value is 0. -/
theorem claim_C2_alloc_dtype_not_from_result :
    _sl_transform [estPP] Xone SLMethod.predict_proba =
      Except.ok ⟨DType.int, SLGrid.g3 [[[0, 0]]]⟩ ∧
    (q710 ≠ 0 ∧ q310 ≠ 0) ∧
    _sl_score [estP] Xone yOne = Except.ok ⟨DType.int, ScGrid.g1 [0]⟩ ∧
    q73100 ≠ 0 ∧
    _sl_score [estPP] Xone yOne = Except.ok ⟨DType.int, ScGrid.g2 [[0, 0]]⟩ ∧
    _gl_score [estPP] Xone yOne = Except.ok ⟨DType.int, GLScGrid.g3 [[[0, 0]]]⟩ := by
  refine ⟨by decide, ⟨by decide, by decide⟩, by decide, by decide, by decide, by decide⟩

/-- C9: same-slice apply and score calls on a fitted model whose estimator
count differs from `X.shape[-1]` fail with the ShapeError before any model
method is invoked: the statement holds for every estimator list and every
method, so no estimator function can influence the outcome. -/
theorem claim_C9_count_mismatch (sl : SearchLight) (X : Arr3) (m : SLMethod) (y : List ℚ)
    (h : lastLen X ≠ sl.estimators_.length) :
    SearchLight._transform sl X m = Except.error Err.shape ∧
    SearchLight.score sl X y = Except.error Err.shape := by
  constructor
  · unfold SearchLight._transform
    simp only [check_Xy_none]
    rw [if_pos h]
  · unfold SearchLight.score
    simp only [check_Xy_none]
    rw [if_pos h]

theorem claim_C9_count_mismatch_witness :
    SearchLight._transform ⟨protoP, 1, [estP]⟩ Xtwo SLMethod.predict =
      Except.error Err.shape ∧
    SearchLight.score ⟨protoP, 1, [estP]⟩ Xtwo yTwo = Except.error Err.shape :=
  claim_C9_count_mismatch ⟨protoP, 1, [estP]⟩ Xtwo SLMethod.predict yTwo (by decide)

/-- C10: the transform-to-predict fallback is decided by `hasattr` on the
untrained `base_estimator` only.  If the prototype lacks `transform`, the
whole `transform` call is literally the `predict` call - every fitted
estimator is invoked via `predict` - regardless of what methods the fitted
estimators themselves expose, in both same-slice and cross-slice mode. -/
theorem claim_C10_fallback_uses_prototype (sl : SearchLight) (X : Arr3)
    (h : (sl.base_estimator.asEst.methods SLMethod.transform).isNone = true) :
    SearchLight.transform sl X = SearchLight.predict sl X ∧
    GeneralizationLight.transform sl X = GeneralizationLight.predict sl X := by
  have hcm : _check_method sl.base_estimator.asEst SLMethod.transform = SLMethod.predict := by
    unfold _check_method
    rw [if_pos ⟨rfl, h⟩]
  have hcm2 : _check_method sl.base_estimator.asEst SLMethod.predict = SLMethod.predict := by
    unfold _check_method
    rw [if_neg (by intro hc; cases hc.1)]
  constructor
  · unfold SearchLight.transform SearchLight.predict SearchLight._transform
    rw [hcm, hcm2]
  · unfold GeneralizationLight.transform GeneralizationLight.predict
      GeneralizationLight._transform
    rw [hcm, hcm2]

theorem claim_C10_witness :
    (estP.methods SLMethod.transform).isNone = true ∧
    (estPT.methods SLMethod.transform).isSome = true ∧
    SearchLight.transform ⟨protoPnoT, 1, [estPT, estPT]⟩ Xtwo =
      SearchLight.predict ⟨protoPnoT, 1, [estPT, estPT]⟩ Xtwo ∧
    GeneralizationLight.transform ⟨protoPnoT, 1, [estPT, estPT]⟩ Xtwo =
      GeneralizationLight.predict ⟨protoPnoT, 1, [estPT, estPT]⟩ Xtwo ∧
    SearchLight.predict ⟨protoPnoT, 1, [estPT, estPT]⟩ Xtwo =
      Except.ok ⟨DType.float, SLGrid.g2 [[1, 2], [3, 4]]⟩ := by
  refine ⟨by decide, by decide, ?_, ?_, by decide⟩
  · exact (claim_C10_fallback_uses_prototype ⟨protoPnoT, 1, [estPT, estPT]⟩ Xtwo rfl).1
  · exact (claim_C10_fallback_uses_prototype ⟨protoPnoT, 1, [estPT, estPT]⟩ Xtwo rfl).2

/-- C5 counterexample: `score` passes only X to `_check_Xy` (source line 199
and 404), so a sample-count mismatch between X and y is not validated: with 2
samples and a length-1 y, both score entry points run the estimators and
return a result instead of the claimed ShapeError. -/
theorem claim_C5_cex :
    XtwoOne.length ≠ yOne.length ∧
    SearchLight.score ⟨protoP, 1, [estP]⟩ XtwoOne yOne ≠ Except.error Err.shape ∧
    GeneralizationLight.score ⟨protoP, 1, [estP]⟩ XtwoOne yOne ≠ Except.error Err.shape := by
  refine ⟨by decide, by decide, by decide⟩

/-- C5 amended: only `fit` validates y against X - a sample-count mismatch or
an empty y makes `fit` fail with the ShapeError before any model is invoked
(the statement holds for every prototype and estimator state); `score` in
both modes performs no X/y validation and forwards X and y to the
estimators. -/
theorem claim_C5_fit_validates_y (sl : SearchLight) (X : Arr3) (y : List ℚ)
    (h : X.length ≠ y.length ∨ y.length < 1) :
    SearchLight.fit sl X y = Except.error Err.shape := by
  unfold SearchLight.fit
  have hcheck : _check_Xy X (some y) = Except.error Err.shape := by
    show (if X.length ≠ y.length ∨ y.length < 1 then Except.error Err.shape
      else Except.ok ()) = _
    rw [if_pos h]
  rw [hcheck]

theorem claim_C5_fit_validates_y_witness :
    SearchLight.fit ⟨protoP, 1, []⟩ XtwoOne yOne = Except.error Err.shape :=
  claim_C5_fit_validates_y ⟨protoP, 1, []⟩ XtwoOne yOne (by decide)

/-- C3 counterexample: the claim says apply/score dispatch chunks that are
contiguous ranges of samples.  The split the code performs for every
apply/score call is `np.array_split(X, n_jobs, axis=-1)` (`splitLastAxis`,
used by `SearchLight._transform`, `SearchLight.score`,
`GeneralizationLight._transform` and `GeneralizationLight.score`): on a
2-sample, 2-slice input with 2 jobs, each produced chunk holds both samples
and a single slice, which is not a sample range (`specSampleSplit` is what
the claim describes). -/
theorem claim_C3_cex :
    splitLastAxis Xtwo 2 ≠ specSampleSplit Xtwo 2 ∧
    splitLastAxis Xtwo 2 = [[[[1]], [[3]]], [[[2]], [[4]]]] ∧
    specSampleSplit Xtwo 2 = [[[[1, 2]]], [[[3, 4]]]] ∧
    ((splitLastAxis Xtwo 2).getD 0 []).length = Xtwo.length := by
  refine ⟨by decide, by decide, by decide, by decide⟩

/-- C3 amended: the parallel partition axis for apply/score is the slice
axis: every dispatched chunk keeps the full sample count, the chunks are the
contiguous `np.array_split` windows of the slice axis, and reassembling them
along the slice axis in partition order restores X exactly. -/
theorem claim_C3_slice_axis_partition (X : Arr3) (fC s k : Nat)
    (hr : rect3 X fC s = true) (hf : 0 < fC) (hk : 1 ≤ k) :
    (∀ chunk ∈ splitLastAxis X k, chunk.length = X.length) ∧
    splitLastAxis X k = (chunkSpecs (lastLen X) k).map (fun p => chunkLast X p.1 p.2) ∧
    joinLastAxis (splitLastAxis X k) = X := by
  refine ⟨?_, rfl, ?_⟩
  · intro chunk hchunk
    rcases List.mem_map.mp hchunk with ⟨p, _, hEq⟩
    subst hEq
    exact chunkLast_length X p.1 p.2
  · by_cases hX : X = []
    · subst hX
      unfold splitLastAxis joinLastAxis chunkLast
      rcases chunkSpecs (lastLen []) k with _ | ⟨p0, rest⟩
      · rfl
      · simp only [List.map_cons, List.map_nil]
        have : ∀ (l : List (Nat × Nat)) (A : Arr3), A = [] →
            List.foldl concat3 A (l.map fun p => ([] : Arr3).map fun r =>
              r.map fun c => (c.drop p.1).take p.2) = [] := by
          intro l
          induction l with
          | nil =>
            intro A hA
            simpa using hA
          | cons q qrest ih =>
            intro A hA
            simp only [List.map_cons, List.foldl_cons]
            apply ih
            subst hA
            rfl
        exact this rest _ rfl
    · have hlast : lastLen X = s := lastLen_rect hr hX hf
      unfold splitLastAxis
      rw [hlast]
      rcases hsz : splitSizes s k with _ | ⟨sz0, rest⟩
      · have := splitSizes_length s k (by omega)
        rw [hsz] at this
        simp at this
        omega
      · have hspec : chunkSpecs s k = (0, sz0) :: specsOf (0 + sz0) rest := by
          unfold chunkSpecs
          rw [hsz]
          rfl
        rw [hspec]
        simp only [List.map_cons]
        show List.foldl concat3 (chunkLast X 0 sz0)
          ((specsOf (0 + sz0) rest).map fun p => chunkLast X p.1 p.2) = X
        have hfold := joinLast_fold (X := X) rest 0 sz0
        rw [hfold]
        have hsum : sz0 + rest.sum = s := by
          have := splitSizes_sum s k (by omega)
          rw [hsz] at this
          simpa using this
        rw [hsum]
        exact chunkLast_full hr

theorem claim_C3_slice_axis_partition_witness :
    (∀ chunk ∈ splitLastAxis Xtwo 2, chunk.length = Xtwo.length) ∧
    splitLastAxis Xtwo 2 = (chunkSpecs (lastLen Xtwo) 2).map (fun p => chunkLast Xtwo p.1 p.2) ∧
    joinLastAxis (splitLastAxis Xtwo 2) = Xtwo :=
  claim_C3_slice_axis_partition Xtwo 1 2 2 (by decide) (by decide) (by decide)

theorem map_getD_slice (X : Arr3) (t i : Nat) (h : i < X.length) (g : List ℚ → ℚ) :
    ((sliceAt X t).map g).getD i 0 = g (featRow X i t) := by
  rw [getD_lt _ _ (by simp [sliceAt_length]; omega), List.getElem_map]
  rw [← sliceAt_getD X t i h, getD_lt _ _ (by simp [sliceAt_length]; omega)]

theorem map_getD_slice2 (X : Arr3) (t i : Nat) (h : i < X.length) (g : List ℚ → List ℚ) :
    ((sliceAt X t).map g).getD i [] = g (featRow X i t) := by
  rw [getD_lt _ _ (by simp [sliceAt_length]; omega), List.getElem_map]
  rw [← sliceAt_getD X t i h, getD_lt _ _ (by simp [sliceAt_length]; omega)]

/-- C7: the flatten/reshape algorithm of `_gl_transform` (stack the test
tensor to (samples times slices) by features, call the estimator once,
reshape back) computes exactly the tensor obtained by looping over test
slices, applying the estimator per slice, and stacking the per-slice results
(`glPerSliceLoop`, modelled from the spec), for every estimator whose
inference is stateless and row-independent - in both the rank-1 and rank-2
result cases. -/
theorem claim_C7_flatten_equals_slice_loop (f : Mat → NDRes) (X : Arr3) (n fC s : Nat)
    (hr : rect3 X fC s = true) (hne : X ≠ []) (hf : 0 < fC) (hn : X.length = n)
    (hs1 : 0 < s) :
    (∀ g : List ℚ → ℚ, RowWise1 f g →
      _gl_apply_est f X = Except.ok (ReshRes.r2 (grid2 n s fun r t => g (featRow X r t))) ∧
      glPerSliceLoop f X = some (ReshRes.r2 (grid2 n s fun r t => g (featRow X r t)))) ∧
    (∀ g2c : List ℚ → List ℚ, RowWise2 f g2c →
      _gl_apply_est f X = Except.ok (ReshRes.r3 (grid2 n s fun r t => g2c (featRow X r t))) ∧
      glPerSliceLoop f X = some (ReshRes.r3 (grid2 n s fun r t => g2c (featRow X r t)))) := by
  have hlast : lastLen X = s := lastLen_rect hr hne hf
  constructor
  · intro g hrw
    refine ⟨gl_apply_one f g X n fC s hrw hr hne hf hn hlast hs1, ?_⟩
    have hres : (List.range (lastLen X)).map (fun t => f (sliceAt X t)) =
        (List.range s).map fun t => NDRes.one ((sliceAt X t).map g) := by
      rw [hlast]
      apply List.map_congr_left
      intro t _
      rw [hrw]
    have hall : (((List.range s).map fun t =>
        NDRes.one ((sliceAt X t).map g)).all ndIsOne) = true := by
      rw [List.all_eq_true]
      intro r hr3
      rcases List.mem_map.mp hr3 with ⟨t, _, hEq⟩
      subst hEq
      rfl
    unfold glPerSliceLoop
    rw [hres, if_pos hall]
    congr 1
    congr 1
    rw [hn]
    unfold grid2
    apply List.map_congr_left
    intro i hi
    simp only [List.mem_range] at hi
    rw [List.map_map]
    apply List.map_congr_left
    intro t _
    simp only [Function.comp]
    show ((sliceAt X t).map g).getD i 0 = g (featRow X i t)
    exact map_getD_slice X t i (by omega) g
  · intro g2c hrw
    refine ⟨gl_apply_two f g2c X n fC s hrw hr hne hf hn hlast hs1, ?_⟩
    have hres : (List.range (lastLen X)).map (fun t => f (sliceAt X t)) =
        (List.range s).map fun t => NDRes.two ((sliceAt X t).map g2c) := by
      rw [hlast]
      apply List.map_congr_left
      intro t _
      rw [hrw]
    rcases Nat.exists_eq_add_of_lt hs1 with ⟨s2, hs2⟩
    have hsev : s = s2 + 1 := by omega
    have hnotall : (((List.range s).map fun t =>
        NDRes.two ((sliceAt X t).map g2c)).all ndIsOne) = false := by
      rw [hsev, List.range_succ_eq_map, List.map_cons, List.all_cons]
      rfl
    have hall2 : (((List.range s).map fun t =>
        NDRes.two ((sliceAt X t).map g2c)).all fun r => !(ndIsOne r)) = true := by
      rw [List.all_eq_true]
      intro r hr3
      rcases List.mem_map.mp hr3 with ⟨t, _, hEq⟩
      subst hEq
      rfl
    unfold glPerSliceLoop
    rw [hres, if_neg (by rw [hnotall]; intro hc; cases hc), if_pos hall2]
    congr 1
    congr 1
    rw [hn]
    unfold grid2
    apply List.map_congr_left
    intro i hi
    simp only [List.mem_range] at hi
    rw [List.map_map]
    apply List.map_congr_left
    intro t _
    simp only [Function.comp]
    show ((sliceAt X t).map g2c).getD i [] = g2c (featRow X i t)
    exact map_getD_slice2 X t i (by omega) g2c

theorem claim_C7_witness :
    (_gl_apply_est (fun M => NDRes.one (M.map fun row => row.headD 0)) Xtwo =
      Except.ok (ReshRes.r2 (grid2 2 2 fun r t =>
        (fun row => row.headD 0) (featRow Xtwo r t))) ∧
    glPerSliceLoop (fun M => NDRes.one (M.map fun row => row.headD 0)) Xtwo =
      some (ReshRes.r2 (grid2 2 2 fun r t =>
        (fun row => row.headD 0) (featRow Xtwo r t)))) ∧
    (_gl_apply_est (fun M => NDRes.two (M.map fun row => [row.headD 0, q310])) Xtwo =
      Except.ok (ReshRes.r3 (grid2 2 2 fun r t =>
        (fun row => [row.headD 0, q310]) (featRow Xtwo r t))) ∧
    glPerSliceLoop (fun M => NDRes.two (M.map fun row => [row.headD 0, q310])) Xtwo =
      some (ReshRes.r3 (grid2 2 2 fun r t =>
        (fun row => [row.headD 0, q310]) (featRow Xtwo r t)))) := by
  constructor
  · exact (claim_C7_flatten_equals_slice_loop
      (fun M => NDRes.one (M.map fun row => row.headD 0)) Xtwo 2 1 2
      (by decide) (by decide) (by decide) (by decide) (by decide)).1
      (fun row => row.headD 0) (fun M => rfl)
  · exact (claim_C7_flatten_equals_slice_loop
      (fun M => NDRes.two (M.map fun row => [row.headD 0, q310])) Xtwo 2 1 2
      (by decide) (by decide) (by decide) (by decide) (by decide)).2
      (fun row => [row.headD 0, q310]) (fun M => rfl)

/-- C8: after `fit(X, y)` on a rectangular tensor with s slices (matching,
nonempty y), the fitted state holds exactly the sequence of s estimators in
slice order, estimator i being the freshly cloned prototype fitted on
`X[..., i]` with y - for every job count of at least 1 (the chunked fits
concatenate back to the per-slice sequence in order). -/
theorem claim_C8_fit_per_slice (p : Proto) (k : Nat) (ests0 : List Est) (X : Arr3)
    (y : List ℚ) (fC s : Nat)
    (hr : rect3 X fC s = true) (hne : X ≠ []) (hf : 0 < fC)
    (hy : X.length = y.length) (hy1 : 1 ≤ y.length) (hk : 1 ≤ k) :
    SearchLight.fit ⟨p, k, ests0⟩ X y =
      Except.ok ⟨p, k, (List.range s).map fun i => p.fitOne (sliceAt X i) y⟩ := by
  have hlast : lastLen X = s := lastLen_rect hr hne hf
  unfold SearchLight.fit
  have hcheck : _check_Xy X (some y) = Except.ok () := by
    show (if X.length ≠ y.length ∨ y.length < 1 then Except.error Err.shape
      else Except.ok ()) = _
    rw [if_neg (by omega)]
  rw [hcheck]
  have hpieces : (splitLastAxis X k).map (fun split => _sl_fit p split y) =
      (chunkSpecs s k).map fun q2 => colsOf (fun i => p.fitOne (sliceAt X i) y) q2.1 q2.2 := by
    unfold splitLastAxis
    rw [hlast, List.map_map]
    apply List.map_congr_left
    intro q2 hq2
    simp only [Function.comp]
    have hbd : q2.1 + q2.2 ≤ s := chunkSpec_bounds hk hq2
    unfold _sl_fit
    rw [lastLen_chunkLast hr hne hf q2.1 q2.2 hbd]
    unfold colsOf
    apply List.map_congr_left
    intro ii hii
    simp only [List.mem_range] at hii
    rw [sliceAt_chunkLast X q2.1 q2.2 ii hii]
  simp only [hpieces]
  have hflat := flatten_specs_colsOf (fun i => p.fitOne (sliceAt X i) y) (splitSizes s k) 0
  have hspecs : chunkSpecs s k = specsOf 0 (splitSizes s k) := rfl
  rw [hspecs, hflat, splitSizes_sum s k (by omega), colsOf_zero]

theorem claim_C8_fit_per_slice_witness :
    SearchLight.fit ⟨protoP, 2, []⟩ Xtwo yTwo =
      Except.ok ⟨protoP, 2, (List.range 2).map fun i => protoP.fitOne (sliceAt Xtwo i) yTwo⟩ :=
  claim_C8_fit_per_slice protoP 2 [] Xtwo yTwo 1 2 (by decide) (by decide) (by decide)
    (by decide) (by decide) (by decide)

/-- C6 counterexample: the claim says the generalization diagonal equals the
same-slice result for every apply operation.  For `predict_proba` (rank-2
per-call results) the same-slice path allocates its output with
`np.zeros(..., int)` and truncates the probabilities to 0, while the
generalization path allocates float64 and keeps them: at a model returning
[7/10, 3/10] the diagonal entry is [7/10, 3/10] on one side and [0, 0] on the
other. -/
theorem claim_C6_cex :
    GeneralizationLight.predict_proba ⟨protoPP, 1, [estPP]⟩ Xone =
      Except.ok (GLGrid.g4 [[[[q710, q310]]]]) ∧
    SearchLight.predict_proba ⟨protoPP, 1, [estPP]⟩ Xone =
      Except.ok ⟨DType.int, SLGrid.g3 [[[0, 0]]]⟩ ∧
    ([q710, q310] : List ℚ) ≠ [0, 0] := by
  refine ⟨by decide, by decide, by decide⟩

/-- C6 amended: for apply operations whose per-call result is rank 1 (one
value per sample, e.g. `predict`), and row-independent estimators, the
generalization result at the diagonal equals the same-slice result: both
pipelines succeed, and entry [r][i][i] of the cross-slice output equals entry
[r][i] of the same-slice output, for any valid job counts.  (For rank-2
results the int-dtype allocation of the same-slice path breaks the equality,
as the counterexample shows.) -/
theorem claim_C6_diag (b : Proto) (ests : List Est) (X : Arr3) (m : SLMethod)
    (n fC s kg ksl : Nat) (gk : Nat → List ℚ → ℚ)
    (hr : rect3 X fC s = true) (hne : X ≠ []) (hf : 0 < fC) (hn : X.length = n)
    (he : ests.length = s) (hkg1 : 1 ≤ kg) (hkgs : kg ≤ s) (hks1 : 1 ≤ ksl) (hkss : ksl ≤ s)
    (hG : ∀ j, j < s → (getE ests j).methods (_check_method b.asEst m) =
      some (fun M => NDRes.one (M.map (gk j)))) :
    GeneralizationLight._transform ⟨b, kg, ests⟩ X m =
      Except.ok (GLGrid.g3 (glGridOf n s (fun r j t => gk j (featRow X r t)) 0 s)) ∧
    SearchLight._transform ⟨b, ksl, ests⟩ X m =
      Except.ok ⟨DType.float, SLGrid.g2 (gridC n (fun r j => gk j (featRow X r j)) 0 s)⟩ ∧
    ∀ r, r < n → ∀ i, i < s →
      (((glGridOf n s (fun r2 j t => gk j (featRow X r2 t)) 0 s).getD r []).getD i []).getD i 0 =
        ((gridC n (fun r2 j => gk j (featRow X r2 j)) 0 s).getD r []).getD i 0 := by
  refine ⟨?_, ?_, ?_⟩
  · exact GL_transform_pipe_one b kg ests X m n fC s s gk hr hne hf hn he (by omega)
      hkg1 hkgs hG
  · apply SL_transform_pipe_one b ksl ests X m n fC s
      (fun r j => gk j (featRow X r j)) hr hne hf hn he hks1 hkss
    intro j hj
    refine ⟨fun M => NDRes.one (M.map (gk j)), (sliceAt X j).map (gk j), hG j hj, rfl, ?_, ?_⟩
    · rw [List.length_map, sliceAt_length, hn]
    · intro r hr2
      exact map_getD_slice X j r (by omega) (gk j)
  · intro r hr2 i hi
    have h1 : (glGridOf n s (fun r2 j t => gk j (featRow X r2 t)) 0 s).getD r [] =
        gridC s (fun j t => gk j (featRow X r t)) 0 s := by
      unfold glGridOf
      rw [getD_lt _ _ (by simpa using hr2)]
      simp only [List.getElem_map, List.getElem_range]
    rw [h1, gridC_getD s (fun j t => gk j (featRow X r t)) 0 s i hi [],
      colsOf_getD (fun t => gk i (featRow X r t)) 0 s i hi 0,
      gridC_getD n (fun r2 j => gk j (featRow X r2 j)) 0 s r hr2 [],
      colsOf_getD (fun j => gk j (featRow X r j)) 0 s i hi 0]
    simp

theorem claim_C6_diag_witness :
    (GeneralizationLight._transform ⟨protoP, 1, [estP, estP]⟩ Xtwo SLMethod.predict =
      Except.ok (GLGrid.g3 (glGridOf 2 2
        (fun r j t => (fun row => row.headD 0) (featRow Xtwo r t)) 0 2))) ∧
    (SearchLight._transform ⟨protoP, 1, [estP, estP]⟩ Xtwo SLMethod.predict =
      Except.ok ⟨DType.float, SLGrid.g2 (gridC 2
        (fun r j => (fun row => row.headD 0) (featRow Xtwo r j)) 0 2)⟩) ∧
    (((glGridOf 2 2 (fun r2 j t => (fun row => row.headD 0) (featRow Xtwo r2 t)) 0 2).getD 1
        []).getD 1 []).getD 1 0 =
      ((gridC 2 (fun r2 j => (fun row => row.headD 0) (featRow Xtwo r2 j)) 0 2).getD 1
        []).getD 1 0 := by
  have hmain := claim_C6_diag protoP [estP, estP] Xtwo SLMethod.predict 2 1 2 1 1
    (fun j => fun row => row.headD 0) (by decide) (by decide) (by decide) (by decide)
    (by decide) (by decide) (by decide) (by decide) (by decide)
    (fun j hj => by
      interval_cases j
      · rfl
      · rfl)
  exact ⟨hmain.1, hmain.2.1, hmain.2.2 1 (by decide) 1 (by decide)⟩

/-- C4 counterexample: the claim quantifies over every k > 1, but with
n_jobs = 2 on a 1-slice input `np.array_split` produces an empty second
chunk, whose `_sl_transform` run never binds `y_pred` and dies with
UnboundLocalError, while n_jobs = 1 succeeds - so the two results are not
equal for k greater than the slice count. -/
theorem claim_C4_cex :
    SearchLight._transform ⟨protoP, 2, [estP]⟩ Xone SLMethod.predict =
      Except.error Err.nameErr ∧
    SearchLight._transform ⟨protoP, 1, [estP]⟩ Xone SLMethod.predict =
      Except.ok ⟨DType.float, SLGrid.g2 [[5]]⟩ ∧
    SearchLight._transform ⟨protoP, 2, [estP]⟩ Xone SLMethod.predict ≠
      SearchLight._transform ⟨protoP, 1, [estP]⟩ Xone SLMethod.predict := by
  refine ⟨by decide, by decide, by decide⟩

/-- C4 amended: results with n_jobs = k equal results with n_jobs = 1 for
every operation in both modes, provided 2 <= k <= slice count (larger k
dispatches an empty chunk and crashes, as the counterexample shows), the
estimators produce uniformly shaped results on the given input (rank-1 or
rank-2 apply results of matching lengths; scalar or fixed-length vector
scores), and - for cross-slice apply, where the chunked call hands each
estimator a different stacked matrix - the estimators are row-independent.
The eight conjuncts cover same-slice apply (rank 1 and 2), same-slice score
(scalar and vector), cross-slice apply (rank 1 and 2), and cross-slice score
(scalar and vector). -/
theorem claim_C4_njobs_invariance (b : Proto) (ests : List Est) (X : Arr3) (y : List ℚ)
    (m : SLMethod) (n fC s k : Nat)
    (hr : rect3 X fC s = true) (hne : X ≠ []) (hf : 0 < fC) (hn : X.length = n)
    (hk2 : 2 ≤ k) (hks : k ≤ s) :
    (∀ w : Nat → Nat → ℚ, ests.length = s →
      (∀ j, j < s → ∃ fv v, (getE ests j).methods (_check_method b.asEst m) = some fv ∧
        fv (sliceAt X j) = NDRes.one v ∧ v.length = n ∧ ∀ r, r < n → v.getD r 0 = w r j) →
      SearchLight._transform ⟨b, k, ests⟩ X m = SearchLight._transform ⟨b, 1, ests⟩ X m) ∧
    (∀ (w : Nat → Nat → List ℚ) (c : Nat), ests.length = s →
      (∀ j, j < s → ∃ fv v, (getE ests j).methods (_check_method b.asEst m) = some fv ∧
        fv (sliceAt X j) = NDRes.two v ∧ v.length = n ∧ (∀ x ∈ v, x.length = c) ∧
        ∀ r, r < n → (v.getD r []).map truncQ = w r j) →
      SearchLight._transform ⟨b, k, ests⟩ X m = SearchLight._transform ⟨b, 1, ests⟩ X m) ∧
    (∀ w : Nat → ℚ, ests.length = s →
      (∀ j, j < s → ∃ q, (getE ests j).score (sliceAt X j) y = ScRes.scalar q ∧
        truncQ q = w j) →
      SearchLight.score ⟨b, k, ests⟩ X y = SearchLight.score ⟨b, 1, ests⟩ X y) ∧
    (∀ (w : Nat → List ℚ) (d : Nat), ests.length = s →
      (∀ j, j < s → ∃ v, (getE ests j).score (sliceAt X j) y = ScRes.vec v ∧
        v.length = d ∧ v.map truncQ = w j) →
      SearchLight.score ⟨b, k, ests⟩ X y = SearchLight.score ⟨b, 1, ests⟩ X y) ∧
    (∀ (e : Nat) (gk : Nat → List ℚ → ℚ), ests.length = e → 0 < e →
      (∀ j, j < e → (getE ests j).methods (_check_method b.asEst m) =
        some (fun M => NDRes.one (M.map (gk j)))) →
      GeneralizationLight._transform ⟨b, k, ests⟩ X m =
        GeneralizationLight._transform ⟨b, 1, ests⟩ X m) ∧
    (∀ (e c : Nat) (gk : Nat → List ℚ → List ℚ), ests.length = e → 0 < e →
      (∀ j, j < e → (getE ests j).methods (_check_method b.asEst m) =
        some (fun M => NDRes.two (M.map (gk j)))) →
      (∀ j, j < e → ∀ r, r < n → ∀ t, t < s → (gk j (featRow X r t)).length = c) →
      GeneralizationLight._transform ⟨b, k, ests⟩ X m =
        GeneralizationLight._transform ⟨b, 1, ests⟩ X m) ∧
    (∀ (e : Nat) (v : Nat → Nat → ℚ), ests.length = e → 0 < e →
      (∀ i, i < e → ∀ j, j < s →
        ∃ q, (getE ests i).score (sliceAt X j) y = ScRes.scalar q ∧ q = v i j) →
      GeneralizationLight.score ⟨b, k, ests⟩ X y =
        GeneralizationLight.score ⟨b, 1, ests⟩ X y) ∧
    (∀ (e d : Nat) (v : Nat → Nat → List ℚ), ests.length = e → 0 < e →
      (∀ i, i < e → ∀ j, j < s →
        ∃ u, (getE ests i).score (sliceAt X j) y = ScRes.vec u ∧ u.length = d ∧
          u.map truncQ = v i j) →
      GeneralizationLight.score ⟨b, k, ests⟩ X y =
        GeneralizationLight.score ⟨b, 1, ests⟩ X y) := by
  have hk1 : 1 ≤ k := by omega
  have hs1 : 1 ≤ s := by omega
  have hn0 : 0 < n := by
    rcases X with _ | ⟨r0, rest⟩
    · exact absurd rfl hne
    · simp only [List.length_cons] at hn
      omega
  refine ⟨?_, ?_, ?_, ?_, ?_, ?_, ?_, ?_⟩
  · intro w hes hU
    rw [SL_transform_pipe_one b k ests X m n fC s w hr hne hf hn hes hk1 hks hU,
      SL_transform_pipe_one b 1 ests X m n fC s w hr hne hf hn hes (by omega) hs1 hU]
  · intro w c hes hU
    rw [SL_transform_pipe_two b k ests X m n fC s c w hr hne hf hn hn0 hes hk1 hks hU,
      SL_transform_pipe_two b 1 ests X m n fC s c w hr hne hf hn hn0 hes (by omega) hs1 hU]
  · intro w hes hU
    rw [SL_score_pipe_scalar b k ests X y fC s w hr hne hf hes hk1 hks hU,
      SL_score_pipe_scalar b 1 ests X y fC s w hr hne hf hes (by omega) hs1 hU]
  · intro w d hes hU
    rw [SL_score_pipe_vec b k ests X y fC s d w hr hne hf hes hk1 hks hU,
      SL_score_pipe_vec b 1 ests X y fC s d w hr hne hf hes (by omega) hs1 hU]
  · intro e gk hes he1 hG
    rw [GL_transform_pipe_one b k ests X m n fC s e gk hr hne hf hn hes he1 hk1 hks hG,
      GL_transform_pipe_one b 1 ests X m n fC s e gk hr hne hf hn hes he1 (by omega) hs1 hG]
  · intro e c gk hes he1 hG hc
    rw [GL_transform_pipe_two b k ests X m n fC s e c gk hr hne hf hn hn0 hes he1 hk1 hks hG hc,
      GL_transform_pipe_two b 1 ests X m n fC s e c gk hr hne hf hn hn0 hes he1 (by omega)
        hs1 hG hc]
  · intro e v hes he1 hU
    rw [GL_score_pipe_scalar b k ests X y fC s e v hr hne hf hes he1 hk1 hks hU,
      GL_score_pipe_scalar b 1 ests X y fC s e v hr hne hf hes he1 (by omega) hs1 hU]
  · intro e d v hes he1 hU
    rw [GL_score_pipe_vec b k ests X y fC s e d v hr hne hf hes he1 hk1 hks hU,
      GL_score_pipe_vec b 1 ests X y fC s e d v hr hne hf hes he1 (by omega) hs1 hU]

theorem claim_C4_njobs_invariance_witness :
    (SearchLight._transform ⟨protoP, 2, [estP, estP]⟩ Xtwo SLMethod.predict =
      SearchLight._transform ⟨protoP, 1, [estP, estP]⟩ Xtwo SLMethod.predict) ∧
    (SearchLight._transform ⟨protoPP, 2, [estPP, estPP]⟩ Xtwo SLMethod.predict_proba =
      SearchLight._transform ⟨protoPP, 1, [estPP, estPP]⟩ Xtwo SLMethod.predict_proba) ∧
    (SearchLight.score ⟨protoP, 2, [estP, estP]⟩ Xtwo yTwo =
      SearchLight.score ⟨protoP, 1, [estP, estP]⟩ Xtwo yTwo) ∧
    (SearchLight.score ⟨protoPP, 2, [estPP, estPP]⟩ Xtwo yTwo =
      SearchLight.score ⟨protoPP, 1, [estPP, estPP]⟩ Xtwo yTwo) ∧
    (GeneralizationLight._transform ⟨protoP, 2, [estP, estP]⟩ Xtwo SLMethod.predict =
      GeneralizationLight._transform ⟨protoP, 1, [estP, estP]⟩ Xtwo SLMethod.predict) ∧
    (GeneralizationLight._transform ⟨protoPP, 2, [estPP, estPP]⟩ Xtwo SLMethod.predict_proba =
      GeneralizationLight._transform ⟨protoPP, 1, [estPP, estPP]⟩ Xtwo SLMethod.predict_proba) ∧
    (GeneralizationLight.score ⟨protoP, 2, [estP, estP]⟩ Xtwo yTwo =
      GeneralizationLight.score ⟨protoP, 1, [estP, estP]⟩ Xtwo yTwo) ∧
    (GeneralizationLight.score ⟨protoPP, 2, [estPP, estPP]⟩ Xtwo yTwo =
      GeneralizationLight.score ⟨protoPP, 1, [estPP, estPP]⟩ Xtwo yTwo) := by
  have hA := claim_C4_njobs_invariance protoP [estP, estP] Xtwo yTwo SLMethod.predict
    2 1 2 2 (by decide) (by decide) (by decide) (by decide) (by decide) (by decide)
  have hB := claim_C4_njobs_invariance protoPP [estPP, estPP] Xtwo yTwo SLMethod.predict_proba
    2 1 2 2 (by decide) (by decide) (by decide) (by decide) (by decide) (by decide)
  refine ⟨?_, ?_, ?_, ?_, ?_, ?_, ?_, ?_⟩
  · apply hA.1 (fun r j => ((Xtwo.getD r []).getD 0 []).getD j 0) (by decide)
    intro j hj
    interval_cases j
    · exact ⟨fun M => NDRes.one (M.map fun row => row.headD 0), [1, 3], by rfl, by rfl,
        by decide, by decide⟩
    · exact ⟨fun M => NDRes.one (M.map fun row => row.headD 0), [2, 4], by rfl, by rfl,
        by decide, by decide⟩
  · apply hB.2.1 (fun r j => [0, 0]) 2 (by decide)
    intro j hj
    interval_cases j
    · exact ⟨fun M => NDRes.two (M.map fun _ => [q710, q310]),
        [[q710, q310], [q710, q310]], by rfl, by rfl, by decide, by decide, by decide⟩
    · exact ⟨fun M => NDRes.two (M.map fun _ => [q710, q310]),
        [[q710, q310], [q710, q310]], by rfl, by rfl, by decide, by decide, by decide⟩
  · apply hA.2.2.1 (fun j => 0) (by decide)
    intro j hj
    interval_cases j
    · exact ⟨q73100, rfl, by decide⟩
    · exact ⟨q73100, rfl, by decide⟩
  · apply hB.2.2.2.1 (fun j => [0, 0]) 2 (by decide)
    intro j hj
    interval_cases j
    · exact ⟨[q73100, q310], rfl, by decide, by decide⟩
    · exact ⟨[q73100, q310], rfl, by decide, by decide⟩
  · apply hA.2.2.2.2.1 2 (fun j => fun row => row.headD 0) (by decide) (by decide)
    intro j hj
    interval_cases j
    · rfl
    · rfl
  · apply hB.2.2.2.2.2.1 2 2 (fun j => fun _ => [q710, q310]) (by decide) (by decide)
    · intro j hj
      interval_cases j
      · rfl
      · rfl
    · intro j hj r hr t ht
      rfl
  · apply hA.2.2.2.2.2.2.1 2 (fun i j => q73100) (by decide) (by decide)
    intro i hi j hj
    interval_cases i
    · exact ⟨q73100, rfl, rfl⟩
    · exact ⟨q73100, rfl, rfl⟩
  · apply hB.2.2.2.2.2.2.2 2 2 (fun i j => [0, 0]) (by decide) (by decide)
    intro i hi j hj
    interval_cases i
    · exact ⟨[q73100, q310], rfl, by decide, by decide⟩
    · exact ⟨[q73100, q310], rfl, by decide, by decide⟩
